import Mathlib

/-!
# ALPS parapack: parallel replica-exchange worker

A shallow embedding of `parallel_exchange_worker` from
`src/parapack/exchange_mpi.h`, followed by theorems about it.

Conventions of the embedding.

* C++ `int` values that are counts or indices (`nrep`, `comm_.size()`,
  `comm_.rank()`, rung and replica ids) are natural numbers.  The only
  subtraction of `calc_nrep`, `nrep - n * comm_.size()`, never goes below
  zero because `n = nrep / comm_.size()`; `calc_nrep_intermediates_le` shows
  that every intermediate value is at most `nrep`, so no 32-bit overflow
  can happen for an `nrep` that fits an `int`.
* `std::vector<T>` is `List T`; `v[i]` is `v.getD i d` and an assignment
  to `v[i]` is `v.set i x`.  The invariants proved below show that every
  index used by the exchange loops is in range.
* `double` is a parameter type `F` carrying `+`, `-`, `0`, `<`; `std::exp`
  is a parameter function.  Statements over a bare `<` hold for `double`
  with its rounding and NaN; where a statement needs exact arithmetic it
  says so.  `binary64` is a concrete model of `double` (53-bit significand,
  round to nearest even, NaN) used to evaluate the code on given numbers.
* The classes declared outside this file (`exmc::exchange_steps`,
  `exmc::inverse_temperature_set`, the observables) enter through the
  record `exmc_collaborators`; the samples written to an observable are
  kept as a list in the order of the writes.
-/

namespace alps.parapack

/-! ## `calc_nrep` (lines 366-377) -/

/-- The pair `(n, f)` returned by `calc_nrep(id)`: the number of replicas on
process `id` and the global index of its first replica.  `nrep` is
`beta_.size()`, `size` is `comm_.size()`. -/
def calc_nrep (nrep size id : Nat) : Nat × Nat :=
  let n := nrep / size
  if id < nrep - n * size then
    (n + 1, (n + 1) * id)
  else
    (n, (nrep - n * size) + n * id)

/-- The count `nrep_local_` of process `id`. -/
def count (nrep size id : Nat) : Nat := (calc_nrep nrep size id).1

/-- The offset `offset_local_` of process `id`. -/
def offset (nrep size id : Nat) : Nat := (calc_nrep nrep size id).2

/-! ## The constructor (lines 54-122) -/

/-- The labels of `exmc::walker_direc` used by the worker. -/
inductive walker_direc where
  | up
  | down
  | unlabeled
  deriving DecidableEq, Repr

/-- The data members of `parallel_exchange_worker` that the constructor sets
and `run` reads or writes.  Members marked `[master only]` in the source
are left empty on the other ranks.  The walkers themselves, the ladder
`beta_` and the sweep counter `mcs_` belong to classes outside this file and
are passed to the operations that need them. -/
structure parallel_exchange_worker (W : Type) where
  nrep_local : Nat
  offset_local : Nat
  nrep_max : Nat
  nreps : List Nat
  offsets : List Nat
  tid_local : List Nat
  tid : List Nat
  wid : List Nat
  direc : List walker_direc
  num_returnee : Nat
  weight_parameters : List W

/-- The text of the `std::runtime_error` thrown at line 62. -/
def too_few_replicas : String :=
  "number of replicas is smaller than number of processes"

/-- The constructor on the process of rank `rank` out of `size`, for a
ladder of `nrep = beta_.size()` values; `exchange` is `mcs_.exchange()`.
The exception of lines 60-64 is the `Except.error` result.  `nrep_max_`,
which the source sets on rank `0` only, is `0` on the other ranks.  The
creation of the walkers, the log output and the sizes of the working
vectors are not part of the result. -/
def construct (W : Type) [Zero W] (nrep size rank : Nat) (exchange : Bool) :
    Except String (parallel_exchange_worker W) :=
  let nrep_local := (calc_nrep nrep size rank).1
  let offset_local := (calc_nrep nrep size rank).2
  if nrep_local = 0 then
    Except.error too_few_replicas
  else
    let nreps := if rank = 0 then (List.range size).map (fun p => (calc_nrep nrep size p).1) else []
    let offsets := if rank = 0 then (List.range size).map (fun p => (calc_nrep nrep size p).2) else []
    Except.ok
      { nrep_local := nrep_local
        offset_local := offset_local
        nrep_max := nreps.foldl max 0
        nreps := nreps
        offsets := offsets
        tid_local := (List.range nrep_local).map (fun p => p + offset_local)
        tid := if rank = 0 then List.range nrep else []
        wid := if rank = 0 then List.range nrep else []
        direc :=
          if rank = 0 ∧ exchange = true then
            (List.range nrep).map (fun p => if p = 0 then walker_direc.down else walker_direc.unlabeled)
          else []
        num_returnee := 0
        weight_parameters :=
          if rank = 0 ∧ exchange = true then List.replicate nrep 0 else [] }

/-! ## The exchange block of `run` (lines 181-221) -/

/-- The part of the coordinator state that the exchange block touches:
the two tables, the samples written to the acceptance-rate observables and
the number of `uniform_01()` calls made by the acceptance tests so far (the
draws that `alps::random_shuffle` consumes are not counted).
An entry `(p, true)` of `acceptance_rate` is the write
`obs[p]["EXMC: Acceptance Rate"] << 1.`, an entry `(p, false)` is the write
of `0.`; entries are in the order of the writes. -/
structure exchange_state where
  tid : List Nat
  wid : List Nat
  acceptance_rate : List (Nat × Bool)
  uniform_calls : Nat
  deriving DecidableEq, Repr

/-- The effect of `std::swap(v[i], v[j])`. -/
def swap_at (v : List Nat) (i j : Nat) : List Nat :=
  let tmp := v.getD i 0
  (v.set i (v.getD j 0)).set j tmp

section exchange

variable {W F : Type} [Zero W] [Zero F] [Add F] [Sub F] [LT F] [∀ a b : F, Decidable (a < b)]

/-- The acceptance log-probability of the pair `(p, p+1)` as the
specification writes it, with `w0 = wid[p]` and `w1 = wid[p+1]`. -/
def exchange_logp (log_weight : W → F → F) (wp : List W) (beta : List F)
    (wid : List Nat) (p : Nat) : F :=
  let w0 := wid.getD p 0
  let w1 := wid.getD (p + 1) 0
  (log_weight (wp.getD w1 0) (beta.getD p 0) + log_weight (wp.getD w0 0) (beta.getD (p + 1) 0)) -
    (log_weight (wp.getD w1 0) (beta.getD (p + 1) 0) + log_weight (wp.getD w0 0) (beta.getD p 0))

/-- The body of the random-exchange loop for the pair index `p`
(lines 189-201).  `uniform_01 i` is the value returned by the `i`-th call of
`uniform_01()`; the call is made only when `logp > 0` is false. -/
def random_exchange_body (exp : F → F) (log_weight : W → F → F) (wp : List W) (beta : List F)
    (uniform_01 : Nat → F) (p : Nat) (s : exchange_state) : exchange_state :=
  let w0 := s.wid.getD p 0
  let w1 := s.wid.getD (p + 1) 0
  let logp :=
    (log_weight (wp.getD w1 0) (beta.getD p 0) + log_weight (wp.getD w0 0) (beta.getD (p + 1) 0)) -
      (log_weight (wp.getD w1 0) (beta.getD (p + 1) 0) + log_weight (wp.getD w0 0) (beta.getD p 0))
  if 0 < logp then
    { tid := swap_at s.tid w0 w1
      wid := swap_at s.wid p (p + 1)
      acceptance_rate := s.acceptance_rate ++ [(p, true)]
      uniform_calls := s.uniform_calls }
  else if uniform_01 s.uniform_calls < exp logp then
    { tid := swap_at s.tid w0 w1
      wid := swap_at s.wid p (p + 1)
      acceptance_rate := s.acceptance_rate ++ [(p, true)]
      uniform_calls := s.uniform_calls + 1 }
  else
    { tid := s.tid
      wid := s.wid
      acceptance_rate := s.acceptance_rate ++ [(p, false)]
      uniform_calls := s.uniform_calls + 1 }

/-- The body of the alternating-exchange loop for the pair index `p`
(lines 207-219). -/
def alternating_exchange_body (exp : F → F) (log_weight : W → F → F) (wp : List W)
    (beta : List F) (uniform_01 : Nat → F) (p : Nat) (s : exchange_state) : exchange_state :=
  let w0 := s.wid.getD p 0
  let w1 := s.wid.getD (p + 1) 0
  let logp :=
    (log_weight (wp.getD w1 0) (beta.getD p 0) + log_weight (wp.getD w0 0) (beta.getD (p + 1) 0)) -
      (log_weight (wp.getD w1 0) (beta.getD (p + 1) 0) + log_weight (wp.getD w0 0) (beta.getD p 0))
  if 0 < logp then
    { tid := swap_at s.tid w0 w1
      wid := swap_at s.wid p (p + 1)
      acceptance_rate := s.acceptance_rate ++ [(p, true)]
      uniform_calls := s.uniform_calls }
  else if uniform_01 s.uniform_calls < exp logp then
    { tid := swap_at s.tid w0 w1
      wid := swap_at s.wid p (p + 1)
      acceptance_rate := s.acceptance_rate ++ [(p, true)]
      uniform_calls := s.uniform_calls + 1 }
  else
    { tid := s.tid
      wid := s.wid
      acceptance_rate := s.acceptance_rate ++ [(p, false)]
      uniform_calls := s.uniform_calls + 1 }

/-- The random exchange of lines 187-202: `for (i = 0; i < nrep - 1; ++i)`
with `p = permutation_[i]`.  `permutation` is the content of `permutation_`
after `alps::random_shuffle` (line 185), a function outside this file. -/
def random_exchange (exp : F → F) (log_weight : W → F → F) (nrep : Nat) (permutation : List Nat)
    (wp : List W) (beta : List F) (uniform_01 : Nat → F) (s : exchange_state) : exchange_state :=
  (List.range (nrep - 1)).foldl
    (fun s i => random_exchange_body exp log_weight wp beta uniform_01 (permutation.getD i 0) s) s

/-- The loop `for (p = start; p < nrep - 1; p += 2)` of line 206, entered
with the loop variable equal to `p`. -/
def alternating_exchange_loop (exp : F → F) (log_weight : W → F → F) (nrep : Nat) (wp : List W)
    (beta : List F) (uniform_01 : Nat → F) (p : Nat) (s : exchange_state) : exchange_state :=
  if p < nrep - 1 then
    alternating_exchange_loop exp log_weight nrep wp beta uniform_01 (p + 2)
      (alternating_exchange_body exp log_weight wp beta uniform_01 p s)
  else s
termination_by nrep - 1 - p

/-- The value `start` of line 205; `mcs` is `mcs_()` and `interval` is
`mcs_.interval()`. -/
def alternating_start (mcs interval : Nat) : Nat := (mcs / interval) % 2

/-- The alternating exchange of lines 205-220. -/
def alternating_exchange (exp : F → F) (log_weight : W → F → F) (nrep mcs interval : Nat)
    (wp : List W) (beta : List F) (uniform_01 : Nat → F) (s : exchange_state) : exchange_state :=
  alternating_exchange_loop exp log_weight nrep wp beta uniform_01 (alternating_start mcs interval) s

/-- What one exchange interval receives from outside the block: the mode
`mcs_.random_exchange()`, the sweep count `mcs_()`, `mcs_.interval()`, the
shuffled `permutation_`, the gathered weight parameters `wp_`, the ladder
`beta_` and the stream of uniform draws. -/
structure exchange_interval (W F : Type) where
  is_random : Bool
  mcs : Nat
  interval : Nat
  permutation : List Nat
  wp : List W
  beta : List F
  uniform_01 : Nat → F

/-- The test of line 167 that opens the exchange block. -/
def exchange_due (exchange : Bool) (mcs interval : Nat) : Bool :=
  exchange && (mcs % interval == 0)

/-- Lines 182-221: the branch on `mcs_.random_exchange()`. -/
def exchange_block (exp : F → F) (log_weight : W → F → F) (nrep : Nat)
    (iv : exchange_interval W F) (s : exchange_state) : exchange_state :=
  if iv.is_random = true then
    random_exchange exp log_weight nrep iv.permutation iv.wp iv.beta iv.uniform_01 s
  else
    alternating_exchange exp log_weight nrep iv.mcs iv.interval iv.wp iv.beta iv.uniform_01 s

/-- A finite sequence of exchange intervals, one after the other. -/
def exchange_intervals (exp : F → F) (log_weight : W → F → F) (nrep : Nat)
    (ivs : List (exchange_interval W F)) (s : exchange_state) : exchange_state :=
  ivs.foldl (fun s iv => exchange_block exp log_weight nrep iv s) s

/-- The values taken by the loop variable of line 206 when the loop is
entered with the value `p`: `p, p + 2, p + 4, ...` as long as `< nrep - 1`. -/
def alternating_pairs (nrep p : Nat) : List Nat :=
  if p < nrep - 1 then p :: alternating_pairs nrep (p + 2) else []
termination_by nrep - 1 - p

/-- The loop body of the mode in force: the random-exchange body when
`is_random`, the alternating-exchange body otherwise. -/
def exchange_body (exp : F → F) (log_weight : W → F → F) (is_random : Bool) (wp : List W)
    (beta : List F) (uniform_01 : Nat → F) (p : Nat) (s : exchange_state) : exchange_state :=
  if is_random = true then random_exchange_body exp log_weight wp beta uniform_01 p s
  else alternating_exchange_body exp log_weight wp beta uniform_01 p s

/-- The acceptance rule as the specification writes it: accept when
`logp > 0` or when the uniform draw `u` of the pair is below `exp(logp)`.
The draw of the pair is the value the next call of `uniform_01()` returns. -/
def exchange_accepted (exp : F → F) (log_weight : W → F → F) (wp : List W) (beta : List F)
    (uniform_01 : Nat → F) (p : Nat) (s : exchange_state) : Prop :=
  0 < exchange_logp log_weight wp beta s.wid p ∨
    uniform_01 s.uniform_calls < exp (exchange_logp log_weight wp beta s.wid p)

instance exchange_accepted_decidable (exp : F → F) (log_weight : W → F → F) (wp : List W)
    (beta : List F) (uniform_01 : Nat → F) (p : Nat) (s : exchange_state) :
    Decidable (exchange_accepted exp log_weight wp beta uniform_01 p s) :=
  inferInstanceAs (Decidable (_ ∨ _))

end exchange

/-- The exchange state right after construction: the coordinator's tables,
no sample written and no uniform draw made. -/
def initial_exchange_state {W : Type} (w : parallel_exchange_worker W) : exchange_state :=
  { tid := w.tid, wid := w.wid, acceptance_rate := [], uniform_calls := 0 }

/-- The pair indices proposed between state `s` and the later state `t`:
the rungs of the acceptance-rate samples written after `s`. -/
def proposed_between (s t : exchange_state) : List Nat :=
  (t.acceptance_rate.drop s.acceptance_rate.length).map Prod.fst

/-- Mutual inverseness of the two tables on `[0, N)`, with every entry in range. -/
def tables_inverse (N : Nat) (tid wid : List Nat) : Prop :=
  tid.length = N ∧ wid.length = N ∧
    (∀ p, p < N → wid.getD p 0 < N ∧ tid.getD (wid.getD p 0) 0 = p) ∧
    (∀ r, r < N → tid.getD r 0 < N ∧ wid.getD (tid.getD r 0) 0 = r)

/-- The state after the first `n` iterations of the loop of line 187;
`random_exchange` is the state after `nrep - 1` iterations. -/
def random_exchange_steps {W F : Type} [Zero W] [Zero F] [Add F] [Sub F] [LT F]
    [∀ a b : F, Decidable (a < b)] (exp : F → F) (log_weight : W → F → F) (n : Nat)
    (permutation : List Nat) (wp : List W) (beta : List F) (uniform_01 : Nat → F)
    (s : exchange_state) : exchange_state :=
  (List.range n).foldl
    (fun s i => random_exchange_body exp log_weight wp beta uniform_01 (permutation.getD i 0) s) s

/-- The uniform draw that the pair index `p` receives when the alternating
loop resolves the pairs in increasing order: the value returned by the call
of `uniform_01()` that follows the resolution of all pairs below `p`, that
is after the loop of line 206 run with the bound `p` in place of `nrep - 1`. -/
def alternating_draw {W F : Type} [Zero W] [Zero F] [Add F] [Sub F] [LT F]
    [∀ a b : F, Decidable (a < b)] (exp : F → F) (log_weight : W → F → F)
    (mcs interval : Nat) (wp : List W) (beta : List F) (uniform_01 : Nat → F)
    (s : exchange_state) (p : Nat) : F :=
  uniform_01
    (alternating_exchange_loop exp log_weight (p + 1) wp beta uniform_01
      (alternating_start mcs interval) s).uniform_calls

/-- The pairs of `order` resolved one after the other by the alternating
loop body, the pair `p` being given the uniform draw `draw p`. -/
def resolve_in_order {W F : Type} [Zero W] [Zero F] [Add F] [Sub F] [LT F]
    [∀ a b : F, Decidable (a < b)] (exp : F → F) (log_weight : W → F → F)
    (wp : List W) (beta : List F) (draw : Nat → F) (order : List Nat)
    (s : exchange_state) : exchange_state :=
  order.foldl (fun s p => alternating_exchange_body exp log_weight wp beta (fun _ => draw p) p s) s

/-- Two pair indices whose pairs `(a, a+1)` and `(b, b+1)` share no rung. -/
def rungs_apart (a b : Nat) : Prop := a + 2 ≤ b ∨ b + 2 ≤ a

/-- Two exchange states with the same tables and the same samples up to order. -/
def same_outcome (a b : exchange_state) : Prop :=
  a.tid = b.tid ∧ a.wid = b.wid ∧ List.Perm a.acceptance_rate b.acceptance_rate

/-! ## The coordinator part of the exchange block of `run` (lines 172-343) -/

/-- The members of the classes outside this file that `run` calls on the
coordinator.  `S` is the type of `mcs_` (`exmc::exchange_steps`): the
accessors are named after its member functions, `sweeps` is `mcs_()` and
`optimization_type_is_rate` is the test
`mcs_.optimization_type() == exmc::exchange_steps::rate`.  `optimize_h1999`
and `optimize2` are the two optimisers of `beta_`
(`exmc::inverse_temperature_set`), given the current ladder and their
argument and returning the new ladder, `optimize2` also its `bool` result.
`mean` is `SimpleRealObservable::mean()` on the samples written since the
last reset (`true` for a sample `1.`, `false` for `0.`), `nan` is
`alps::nan()` and `divide` is the division of a weight parameter by a count. -/
structure exmc_collaborators (W F S : Type) where
  doing_optimization : S → Bool
  stage_count : S → Nat
  stage_sweeps : S → Nat
  optimization_type_is_rate : S → Bool
  stage : S → Nat
  perform_optimization : S → Bool
  sweeps : S → Nat
  thermalization : S → Nat
  continue_stage : S → S
  next_stage : S → S
  optimize_h1999 : List F → List W → List F
  optimize2 : List F → List F → Bool × List F
  mean : List Bool → F
  nan : F
  divide : W → Nat → W

/-- The state that `run` reads and writes on the coordinator inside the
exchange block.  `ex` holds `tid_`, `wid_` and the acceptance-rate samples;
`beta` is the ladder `beta_`; `upward`, `accept` and `wp` are the working
vectors `upward_`, `accept_` and `wp_`.  The samples written to the
observables are kept in the order of the writes: `inverse_round_trip_time`
for `obs[0]["EXMC: Inverse Round-Trip Time"]`, and an entry `(p, b)` of
`upward_samples` (`downward_samples`) for a sample `b ? 1. : 0.` written to
`obs[p]["EXMC: Ratio of Upward-Moving Walker"]` (`Downward`).
`optimize2_calls` and `optimize_h1999_calls` record the argument of every
call of the two optimisers. -/
structure coordinator (W F : Type) where
  ex : exchange_state
  direc : List walker_direc
  num_returnee : Nat
  weight_parameters : List W
  beta : List F
  inverse_round_trip_time : List ℚ
  upward_samples : List (Nat × Bool)
  downward_samples : List (Nat × Bool)
  upward : List F
  accept : List F
  wp : List W
  optimize2_calls : List (List F)
  optimize_h1999_calls : List (List W)

/-- The two flags `continue_stage` and `next_stage` of lines 169-170. -/
structure stage_flags where
  continue_stage : Bool
  next_stage : Bool
  deriving DecidableEq, Repr

/-- What one exchange interval receives from outside: the items of
`exchange_interval` (its `beta` is not used, the ladder is the coordinator's
`beta`) and the value of `mcs_` once `++mcs_` has been done. -/
structure coordinator_input (W F S : Type) where
  iv : exchange_interval W F
  steps : S

/-- The loop `for (p = 0; p < n; ++p) v[p] = f(p)`. -/
def assign_each {α : Type} (n : Nat) (f : Nat → α) (v : List α) : List α :=
  (List.range n).foldl (fun acc p => acc.set p (f p)) v

/-- The samples of the observable of rung `p`. -/
def samples_at (log : List (Nat × Bool)) (p : Nat) : List Bool :=
  (log.filter (fun e => decide (e.1 = p))).map Prod.snd

/-- The loop `for (p = 0; p < nrep; ++p) obs[p][name].reset(true)`. -/
def reset_observables (nrep : Nat) (log : List (Nat × Bool)) : List (Nat × Bool) :=
  log.filter (fun e => decide (¬ e.1 < nrep))

/-- The number `nu` of lines 267-268 and 321-322. -/
def unlabeled_count (nrep : Nat) (direc : List walker_direc) : Nat :=
  ((List.range nrep).filter
    (fun p => decide (direc.getD p walker_direc.unlabeled = walker_direc.unlabeled))).length

section coordinator_run

variable {W F S : Type} [Zero W] [Add W] [Zero F] [Add F] [Sub F] [Div F] [LT F]
  [∀ a b : F, Decidable (a < b)]

/-- Lines 175-178: `weight_parameters_[tid_[w]] += wp_[w]` for every replica `w`. -/
def aggregate (nrep : Nat) (tid : List Nat) (wp : List W) (acc : List W) : List W :=
  (List.range nrep).foldl
    (fun acc w => acc.set (tid.getD w 0) (acc.getD (tid.getD w 0) 0 + wp.getD w 0)) acc

/-- Lines 172-221: the gathered weight parameters are stored in `wp_` and
added to the accumulators, then the pairs are resolved. -/
def before_bookkeeping (exp : F → F) (log_weight : W → F → F) (nrep : Nat)
    (iv : exchange_interval W F) (c : coordinator W F) : coordinator W F :=
  { c with
    wp := iv.wp
    weight_parameters := aggregate nrep c.ex.tid iv.wp c.weight_parameters
    ex := exchange_block exp log_weight nrep { iv with beta := c.beta } c.ex }

/-- Lines 223-236: the round-trip bookkeeping and the direction samples. -/
def round_trip_bookkeeping (nrep : Nat) (c : coordinator W F) : coordinator W F :=
  let front := c.ex.wid.getD 0 0
  let back := c.ex.wid.getD (c.ex.wid.length - 1) 0
  let direc1 := c.direc.set front walker_direc.down
  let direc2 :=
    if direc1.getD back walker_direc.unlabeled = walker_direc.down then
      direc1.set back walker_direc.up
    else direc1
  { c with
    inverse_round_trip_time :=
      c.inverse_round_trip_time ++
        [if c.direc.getD front walker_direc.unlabeled = walker_direc.up then 1 / (nrep : ℚ) else 0]
    num_returnee :=
      if c.direc.getD front walker_direc.unlabeled = walker_direc.up then c.num_returnee + 1
      else c.num_returnee
    direc := direc2
    upward_samples :=
      c.upward_samples ++ (List.range nrep).map (fun p =>
        (p, decide (direc2.getD (c.ex.wid.getD p 0) walker_direc.unlabeled = walker_direc.up)))
    downward_samples :=
      c.downward_samples ++ (List.range nrep).map (fun p =>
        (p, decide (direc2.getD (c.ex.wid.getD p 0) walker_direc.unlabeled = walker_direc.down))) }

/-- Lines 271-277: the vector `upward_`. -/
def upward_ratios (K : exmc_collaborators W F S) (nrep : Nat) (c : coordinator W F) : List F :=
  assign_each nrep
    (fun p =>
      let up := K.mean (samples_at c.upward_samples p)
      let down := K.mean (samples_at c.downward_samples p)
      if 0 < up + down then up / (up + down) else K.nan)
    c.upward

/-- Lines 242-244 and 279-281: the vector `accept_`. -/
def acceptance_means (K : exmc_collaborators W F S) (nrep : Nat) (c : coordinator W F) : List F :=
  assign_each (nrep - 1) (fun p => K.mean (samples_at c.ex.acceptance_rate p)) c.accept

/-- Lines 240-261: the stage evaluation of the rate optimisation. -/
def rate_stage_evaluation (K : exmc_collaborators W F S) (nrep : Nat) (steps : S)
    (c : coordinator W F) : coordinator W F × stage_flags :=
  let accept := acceptance_means K nrep c
  let wp := assign_each nrep
    (fun p => K.divide (c.weight_parameters.getD p 0) (K.stage_count steps)) c.wp
  ({ c with
      accept := accept
      wp := wp
      beta := if K.stage steps ≠ 0 then K.optimize_h1999 c.beta wp else c.beta
      optimize_h1999_calls :=
        if K.stage steps ≠ 0 then c.optimize_h1999_calls ++ [wp] else c.optimize_h1999_calls
      ex := { c.ex with acceptance_rate := reset_observables nrep c.ex.acceptance_rate }
      upward_samples := reset_observables nrep c.upward_samples
      downward_samples := reset_observables nrep c.downward_samples
      weight_parameters := assign_each nrep (fun _ => 0) c.weight_parameters },
    { continue_stage := false, next_stage := true })

/-- The value of `success` when line 296 is reached: `num_returnee_ >= nrep`
and no unlabeled replica. -/
def round_trip_precondition (nrep : Nat) (c : coordinator W F) : Bool :=
  if 0 < unlabeled_count nrep c.direc then false else decide (nrep ≤ c.num_returnee)

/-- Lines 263-317: the stage evaluation of the round-trip optimisation. -/
def round_trip_stage_evaluation (K : exmc_collaborators W F S) (nrep : Nat) (steps : S)
    (c : coordinator W F) : coordinator W F × stage_flags :=
  let success1 := round_trip_precondition nrep c
  let upward := upward_ratios K nrep c
  let accept := acceptance_means K nrep c
  let called := decide (K.stage steps ≠ 0) && success1
  let success := if called = true then (K.optimize2 c.beta upward).1 else success1
  let c1 : coordinator W F :=
    { c with
      upward := upward
      accept := accept
      beta := if called = true then (K.optimize2 c.beta upward).2 else c.beta
      optimize2_calls :=
        if called = true then c.optimize2_calls ++ [upward] else c.optimize2_calls }
  if success = true then
    ({ c1 with
        ex := { c1.ex with acceptance_rate := reset_observables nrep c1.ex.acceptance_rate }
        upward_samples := reset_observables nrep c1.upward_samples
        downward_samples := reset_observables nrep c1.downward_samples
        num_returnee := 0 },
      { continue_stage := false, next_stage := true })
  else
    (c1, { continue_stage := true, next_stage := false })

/-- Lines 319-334: the thermalisation check, which can only raise `continue_stage`. -/
def thermalization_check (K : exmc_collaborators W F S) (nrep : Nat) (steps : S)
    (c : coordinator W F) (flags : stage_flags) : stage_flags :=
  if (!K.perform_optimization steps && K.sweeps steps == K.thermalization steps) = true then
    if nrep ≤ c.num_returnee ∧ unlabeled_count nrep c.direc = 0 then flags
    else { flags with continue_stage := true }
  else flags

/-- Lines 238-335: the stage evaluation. -/
def stage_evaluation (K : exmc_collaborators W F S) (nrep : Nat) (steps : S)
    (c : coordinator W F) : coordinator W F × stage_flags :=
  if (K.doing_optimization steps && K.stage_count steps == K.stage_sweeps steps) = true then
    let r :=
      if K.optimization_type_is_rate steps = true then rate_stage_evaluation K nrep steps c
      else round_trip_stage_evaluation K nrep steps c
    (r.1, thermalization_check K nrep steps r.1 r.2)
  else
    (c, { continue_stage := false, next_stage := false })

/-- Lines 341-342: the calls of `mcs_.continue_stage()` and `mcs_.next_stage()`. -/
def broadcast_results (K : exmc_collaborators W F S) (steps : S) (flags : stage_flags) : S :=
  let s1 := if flags.continue_stage = true then K.continue_stage steps else steps
  if flags.next_stage = true then K.next_stage s1 else s1

/-- Lines 172-335 on the coordinator: one exchange interval. -/
def coordinator_interval (K : exmc_collaborators W F S) (exp : F → F) (log_weight : W → F → F)
    (nrep : Nat) (inp : coordinator_input W F S) (c : coordinator W F) :
    coordinator W F × stage_flags :=
  stage_evaluation K nrep inp.steps
    (round_trip_bookkeeping nrep (before_bookkeeping exp log_weight nrep inp.iv c))

/-- A finite sequence of exchange intervals on the coordinator, together
with the history of `wid_`: the table at the end of every interval run so
far, the most recent first, the constructor's table last. -/
def run_with_history (K : exmc_collaborators W F S) (exp : F → F) (log_weight : W → F → F)
    (nrep : Nat) (inps : List (coordinator_input W F S)) (c : coordinator W F) :
    coordinator W F × List (List Nat) :=
  inps.foldl
    (fun st inp =>
      ((coordinator_interval K exp log_weight nrep inp st.1).1,
        (coordinator_interval K exp log_weight nrep inp st.1).1.ex.wid :: st.2))
    (c, [c.ex.wid])

end coordinator_run

/-- The coordinator right after construction, for the ladder `beta`; the
working vectors have the sizes given at lines 116-118. -/
def initial_coordinator {W F : Type} [Zero W] [Zero F] (w : parallel_exchange_worker W)
    (beta : List F) : coordinator W F :=
  { ex := initial_exchange_state w
    direc := w.direc
    num_returnee := w.num_returnee
    weight_parameters := w.weight_parameters
    beta := beta
    inverse_round_trip_time := []
    upward_samples := []
    downward_samples := []
    upward := List.replicate beta.length 0
    accept := List.replicate (beta.length - 1) 0
    wp := List.replicate beta.length 0
    optimize2_calls := []
    optimize_h1999_calls := [] }

/-- The replica `r` has completed a round trip, in the words of the
specification: in the history of `wid_` (most recent first) there is a
table `at0` with `r` at rung `0`, no later table has `r` at rung `0`, and
some later table has `r` at rung `N - 1`. -/
def round_trip_completed (N : Nat) (history : List (List Nat)) (r : Nat) : Prop :=
  ∃ since earlier : List (List Nat), ∃ at0 : List Nat,
    history = since ++ at0 :: earlier ∧ at0.getD 0 0 = r ∧
    (∀ w, w ∈ since → w.getD 0 0 ≠ r) ∧ (∃ w, w ∈ since ∧ w.getD (N - 1) 0 = r)

/-- The labels agree with the history of `wid_`: a replica is `up` exactly
when it has completed a round trip and `unlabeled` exactly when it has
never been at rung `0`. -/
def labels_follow_history (N : Nat) (history : List (List Nat)) (direc : List walker_direc) :
    Prop :=
  ∀ r, r < N →
    (direc.getD r walker_direc.unlabeled = walker_direc.up ↔ round_trip_completed N history r) ∧
    (direc.getD r walker_direc.unlabeled = walker_direc.unlabeled ↔
      ∀ w, w ∈ history → w.getD 0 0 ≠ r)

/-! ## `save` and `load` (lines 347-356) -/

/-- Modelled from the spec: the dump streams `alps::ODump` and `alps::IDump`
and the `<<` / `>>` operators of `beta_`, `mcs_` and the vectors are outside
this file.  A dump is the sequence of the values written, in order; reading
returns the next value as it was written, and fails when the dump is
exhausted or the next value is of another kind.  `D` is the opaque payload
that a walker writes. -/
inductive dump_item (W F S D : Type) where
  | ladder (v : List F)
  | steps (s : S)
  | ints (v : List Nat)
  | labels (v : List walker_direc)
  | int (n : Nat)
  | weights (v : List W)
  | walker (d : D)

/-- The members that `save` writes and `load` reads, on the process of rank
`rank`: the ladder `beta_`, the stage state `mcs_`, the walkers `walker_`
and the members of `parallel_exchange_worker`. -/
structure worker_image (W F S K : Type) where
  rank : Nat
  beta : List F
  mcs : S
  walkers : List K
  w : parallel_exchange_worker W

/-- Lines 347-351: `save`.  `walker_save` is `walker_type::save`. -/
def save {W F S K D : Type} (walker_save : K → D) (img : worker_image W F S K) :
    List (dump_item W F S D) :=
  [dump_item.ladder img.beta, dump_item.steps img.mcs, dump_item.ints img.w.tid_local] ++
    (if img.rank = 0 then
      [dump_item.ints img.w.tid, dump_item.ints img.w.wid, dump_item.labels img.w.direc,
        dump_item.int img.w.num_returnee, dump_item.weights img.w.weight_parameters]
    else []) ++
    (img.walkers.take img.w.nrep_local).map (fun k => dump_item.walker (walker_save k))

/-- Line 355: the loop `for (i = 0; i < nrep_local_; ++i) walker_[i]->load(dp)`.
`walker_load` is `walker_type::load`. -/
def load_walkers {W F S K D : Type} (walker_load : K → D → K) :
    Nat → List K → List (dump_item W F S D) → Option (List K)
  | 0, ks, _ => some ks
  | n + 1, k :: ks, dump_item.walker d :: rest =>
    (load_walkers walker_load n ks rest).map (fun r => walker_load k d :: r)
  | _ + 1, _, _ => none

/-- Lines 352-356: `load` on the process whose current members are `img`. -/
def load {W F S K D : Type} (walker_load : K → D → K) (img : worker_image W F S K)
    (dump : List (dump_item W F S D)) : Option (worker_image W F S K) :=
  match dump with
  | dump_item.ladder b :: dump_item.steps s :: dump_item.ints tl :: rest =>
    if img.rank = 0 then
      match rest with
      | dump_item.ints tid :: dump_item.ints wid :: dump_item.labels direc ::
          dump_item.int n :: dump_item.weights wp :: rest2 =>
        (load_walkers walker_load img.w.nrep_local img.walkers rest2).map (fun ks =>
          { img with
            beta := b
            mcs := s
            walkers := ks
            w := { img.w with
              tid_local := tl
              tid := tid
              wid := wid
              direc := direc
              num_returnee := n
              weight_parameters := wp } })
      | _ => none
    else
      (load_walkers walker_load img.w.nrep_local img.walkers rest).map (fun ks =>
        { img with
          beta := b
          mcs := s
          walkers := ks
          w := { img.w with tid_local := tl } })
  | _ => none

/-! ## The scatter of `tid_` (line 343) -/

/-- Modelled from the spec: `distribute_vector` is declared outside this
file.  Called with the counts `nreps_` and offsets `offsets_` of the
coordinator, it hands to process `p` the contiguous slice of `source` that
starts at `offsets[p]` and has `nreps[p]` entries; that slice becomes the
`tid_local_` of process `p`. -/
def distribute_vector (nreps offsets : List Nat) (source : List Nat) (p : Nat) : List Nat :=
  (source.drop (offsets.getD p 0)).take (nreps.getD p 0)

/-- The `tid_local_` of a constructed worker, empty when the constructor threw. -/
def tid_local_of {W : Type} (r : Except String (parallel_exchange_worker W)) : List Nat :=
  match r with
  | Except.ok w => w.tid_local
  | Except.error _ => []

/-! ## The stage means of the direction samples -/

/-- The arithmetic mean of a list of samples `1.` (`true`) and `0.` (`false`):
what `SimpleRealObservable::mean()`, declared outside this file, is taken to
return for an observable holding these samples. -/
def sample_mean {F : Type} [DivisionRing F] (l : List Bool) : F :=
  (l.count true : F) / (l.length : F)

/-- The local `up` of line 272: the stage mean of the upward samples of rung `p`. -/
def stage_up {W F S : Type} (K : exmc_collaborators W F S) (c : coordinator W F) (p : Nat) : F :=
  K.mean (samples_at c.upward_samples p)

/-- The local `down` of line 274: the stage mean of the downward samples of rung `p`. -/
def stage_down {W F S : Type} (K : exmc_collaborators W F S) (c : coordinator W F) (p : Nat) :
    F :=
  K.mean (samples_at c.downward_samples p)

/-! ## One call of `run` on all processes (lines 147-345) -/

/-- The count that the specification's precondition speaks of ("zero rungs
still unlabeled"): the number of rungs `p < nrep` whose occupant `wid[p]`
carries the label `unlabeled`. -/
def spec_unlabeled_rungs (nrep : Nat) (wid : List Nat) (direc : List walker_direc) : Nat :=
  ((List.range nrep).filter
    (fun p => decide (direc.getD (wid.getD p 0) walker_direc.unlabeled =
      walker_direc.unlabeled))).length

/-- The `tid_local_` of every process, in rank order, after the call of
`distribute_vector` at line 343; `nreps_` has one entry per process. -/
def scatter (nreps offsets : List Nat) (tid : List Nat) : List (List Nat) :=
  (List.range nreps.length).map (fun p => distribute_vector nreps offsets tid p)

/-- The members that `run` keeps from one call to the next: those of the
coordinator, and the `tid_local_` of every process in rank order. -/
structure run_state (W F : Type) where
  c : coordinator W F
  tid_local : List (List Nat)

/-- What a call of `run` leaves: the members, the value of `mcs_` and the
two flags of lines 169-170 (both `false` when the exchange block is not
entered, where they do not exist). -/
structure run_result (W F S : Type) where
  state : run_state W F
  steps : S
  flags : stage_flags

section run_call

variable {W F S : Type} [Zero W] [Add W] [Zero F] [Add F] [Sub F] [Div F] [LT F]
  [∀ a b : F, Decidable (a < b)]

/-- Lines 166-344 of `run`.  `exchange` is `mcs_.exchange()`, `inp.steps` is
`mcs_` after `++mcs_` of line 148, `inp.iv.mcs` and `inp.iv.interval` are
`mcs_()` and `mcs_.interval()`, and `w` is the worker constructed on the
coordinator, which holds `nreps_` and `offsets_`.  The writes of the
temperature observables and the update of the walkers (lines 152-164) touch
none of the members kept in `run_state`. -/
def run (K : exmc_collaborators W F S) (exp : F → F) (log_weight : W → F → F) (nrep : Nat)
    (w : parallel_exchange_worker W) (exchange : Bool) (inp : coordinator_input W F S)
    (st : run_state W F) : run_result W F S :=
  if exchange_due exchange inp.iv.mcs inp.iv.interval = true then
    let r := coordinator_interval K exp log_weight nrep inp st.c
    { state := { c := r.1, tid_local := scatter w.nreps w.offsets r.1.ex.tid }
      steps := broadcast_results K inp.steps r.2
      flags := r.2 }
  else
    { state := st
      steps := inp.steps
      flags := { continue_stage := false, next_stage := false } }

/-- A finite sequence of calls of `run`, one per sweep. -/
def run_sweeps (K : exmc_collaborators W F S) (exp : F → F) (log_weight : W → F → F)
    (nrep : Nat) (w : parallel_exchange_worker W) (exchange : Bool)
    (inps : List (coordinator_input W F S)) (st : run_state W F) : run_state W F :=
  inps.foldl (fun st inp => (run K exp log_weight nrep w exchange inp st).state) st

end run_call

/-- The members right after construction on `size` processes: the
coordinator built from the worker `w` of rank `0`, and the `tid_local_` that
the constructor sets on every process. -/
def initial_run_state {W F : Type} [Zero W] [Zero F] (nrep size : Nat) (exchange : Bool)
    (w : parallel_exchange_worker W) (beta : List F) : run_state W F :=
  { c := initial_coordinator w beta
    tid_local := (List.range size).map (fun p => tid_local_of (construct W nrep size p exchange)) }

/-! ## A model of `double` for evaluating the acceptance test -/

/-- The values of the C++ type `double` that the worked evaluations use: NaN,
or the finite number `m * 2 ^ e`.  The exponent is unbounded: infinities,
overflow, subnormal numbers and the sign of zero are not represented, and the
evaluations below stay in the normal range. -/
inductive binary64 where
  | nan
  | finite (m : Int) (e : Int)
  deriving DecidableEq, Repr

/-- The number of binary digits of `n`, by halving; `fuel` bounds the steps. -/
def bit_length_loop : Nat → Nat → Nat
  | 0, _ => 0
  | fuel + 1, n => if n = 0 then 0 else bit_length_loop fuel (n / 2) + 1

/-- The number of binary digits of `n` (`0` for `n = 0`). -/
def bit_length (n : Nat) : Nat := bit_length_loop n n

/-- The `double` nearest to `m * 2 ^ e`: the significand is cut to 53 binary
digits, rounding to nearest with ties to the even significand (the default
rounding mode of IEEE 754 arithmetic). -/
def round_to_nearest_even (m : Int) (e : Int) : binary64 :=
  let a := m.natAbs
  let k := bit_length a
  if k ≤ 53 then binary64.finite m e
  else
    let s := k - 53
    let q := a / 2 ^ s
    let r := a % 2 ^ s
    let half := 2 ^ (s - 1)
    let q1 := if half < r ∨ (r = half ∧ q % 2 = 1) then q + 1 else q
    binary64.finite (if m < 0 then -(q1 : Int) else (q1 : Int)) (e + (s : Int))

/-- The sum `a + b` of two `double`s: the exact sum, rounded; NaN if either is NaN. -/
def binary64.add : binary64 → binary64 → binary64
  | binary64.finite m1 e1, binary64.finite m2 e2 =>
    round_to_nearest_even
      (m1 * 2 ^ (e1 - min e1 e2).toNat + m2 * 2 ^ (e2 - min e1 e2).toNat) (min e1 e2)
  | _, _ => binary64.nan

/-- The negation `-a`, which is exact. -/
def binary64.neg : binary64 → binary64
  | binary64.finite m e => binary64.finite (-m) e
  | binary64.nan => binary64.nan

/-- The product `a * b`: the exact product, rounded; NaN if either is NaN. -/
def binary64.mul : binary64 → binary64 → binary64
  | binary64.finite m1 e1, binary64.finite m2 e2 => round_to_nearest_even (m1 * m2) (e1 + e2)
  | _, _ => binary64.nan

/-- The comparison `a < b`, false when either is NaN. -/
def binary64.lt : binary64 → binary64 → Prop
  | binary64.finite m1 e1, binary64.finite m2 e2 =>
    m1 * 2 ^ (e1 - min e1 e2).toNat < m2 * 2 ^ (e2 - min e1 e2).toNat
  | _, _ => False

/-- The comparison `a <= b`, false when either is NaN. -/
def binary64.le : binary64 → binary64 → Prop
  | binary64.finite m1 e1, binary64.finite m2 e2 =>
    m1 * 2 ^ (e1 - min e1 e2).toNat ≤ m2 * 2 ^ (e2 - min e1 e2).toNat
  | _, _ => False

instance binary64_zero : Zero binary64 := ⟨binary64.finite 0 0⟩

instance binary64_one : One binary64 := ⟨binary64.finite 1 0⟩

instance binary64_add : Add binary64 := ⟨binary64.add⟩

instance binary64_neg : Neg binary64 := ⟨binary64.neg⟩

instance binary64_sub : Sub binary64 := ⟨fun a b => binary64.add a (binary64.neg b)⟩

instance binary64_mul : Mul binary64 := ⟨binary64.mul⟩

instance binary64_lt : LT binary64 := ⟨binary64.lt⟩

instance binary64_le : LE binary64 := ⟨binary64.le⟩

instance binary64_lt_decidable (a b : binary64) : Decidable (a < b) :=
  match a, b with
  | binary64.finite m1 e1, binary64.finite m2 e2 =>
    inferInstanceAs (Decidable
      (m1 * 2 ^ (e1 - min e1 e2).toNat < m2 * 2 ^ (e2 - min e1 e2).toNat))
  | binary64.nan, _ => isFalse (fun h => h)
  | binary64.finite _ _, binary64.nan => isFalse (fun h => h)

instance binary64_le_decidable (a b : binary64) : Decidable (a ≤ b) :=
  match a, b with
  | binary64.finite m1 e1, binary64.finite m2 e2 =>
    inferInstanceAs (Decidable
      (m1 * 2 ^ (e1 - min e1 e2).toNat ≤ m2 * 2 ^ (e2 - min e1 e2).toNat))
  | binary64.nan, _ => isFalse (fun h => h)
  | binary64.finite _ _, binary64.nan => isFalse (fun h => h)

/-! ## A worked example: three replicas on one process -/

/-- The coordinator that the constructor builds for three replicas on a
single process. -/
def example_worker : parallel_exchange_worker Int :=
  { nrep_local := 3
    offset_local := 0
    nrep_max := 3
    nreps := [3]
    offsets := [0]
    tid_local := [0, 1, 2]
    tid := [0, 1, 2]
    wid := [0, 1, 2]
    direc := [walker_direc.down, walker_direc.unlabeled, walker_direc.unlabeled]
    num_returnee := 0
    weight_parameters := [0, 0, 0] }

/-- A walker whose weight parameter is its energy: `log_weight(E, beta) = -E * beta`. -/
def example_log_weight (e b : Int) : Int := -(e * b)

/-- A stand-in for `std::exp` that makes every draw-based acceptance fail. -/
def example_exp (_ : Int) : Int := 0

/-- A stream of uniform draws that are all `0`. -/
def example_uniform (_ : Nat) : Int := 0

/-- Gathered energies of the three replicas. -/
def example_wp : List Int := [3, 2, 1]

/-- A ladder of three values. -/
def example_beta : List Int := [3, 2, 1]

/-- An alternating interval followed by a random one with permutation `[1, 0]`. -/
def example_intervals : List (exchange_interval Int Int) :=
  [ { is_random := false, mcs := 2, interval := 2, permutation := [],
      wp := example_wp, beta := example_beta, uniform_01 := example_uniform },
    { is_random := true, mcs := 4, interval := 2, permutation := [1, 0],
      wp := example_wp, beta := example_beta, uniform_01 := example_uniform } ]

/-- The specification's acceptance test: energies `E0 = 2`, `E1 = 1`. -/
def acceptance_test_E : List ℚ := [2, 1]

/-- The specification's acceptance test: `beta = [1.0, 0.5]`. -/
def acceptance_test_beta : List ℚ := [1, 1 / 2]

/-- The specification's acceptance test: two replicas, identity tables. -/
def acceptance_test_state : exchange_state :=
  { tid := [0, 1], wid := [0, 1], acceptance_rate := [], uniform_calls := 0 }

/-- Collaborators for the worked examples, with `mcs_` reduced to a mode
number: `0` for no stage evaluation, `1` for a rate-mode stage evaluation,
any other value for a round-trip-mode stage evaluation at stage `1`.  The
optimisers leave the ladder alone and `optimize2` reports failure. -/
def example_collaborators : exmc_collaborators Int Int Nat :=
  { doing_optimization := fun n => decide (n ≠ 0)
    stage_count := fun _ => 4
    stage_sweeps := fun _ => 4
    optimization_type_is_rate := fun n => decide (n = 1)
    stage := fun _ => 1
    perform_optimization := fun _ => true
    sweeps := fun _ => 8
    thermalization := fun _ => 0
    continue_stage := fun n => n
    next_stage := fun n => n
    optimize_h1999 := fun b _ => b
    optimize2 := fun b _ => (false, b)
    mean := fun _ => 0
    nan := 0
    divide := fun w _ => w }

/-- The coordinator built for three replicas with the ladder `example_beta`. -/
def example_coordinator : coordinator Int Int :=
  initial_coordinator example_worker example_beta

/-- A random-mode interval with the given permutation and gathered energies. -/
def example_input (permutation : List Nat) (wp : List Int) : coordinator_input Int Int Nat :=
  { iv := { is_random := true, mcs := 0, interval := 1, permutation := permutation,
            wp := wp, beta := [], uniform_01 := example_uniform },
    steps := 0 }

/-- Three intervals that drive replica `0` from rung `0` to rung `1`, to
rung `2` and back to rung `1`. -/
def example_round_trip : List (coordinator_input Int Int Nat) :=
  [example_input [0, 1] [2, 1, 2], example_input [1, 0] [3, 1, 2],
    example_input [1, 0] [1, 1, 2]]

/-- The interval that brings replica `0` back to rung `0`. -/
def example_return : coordinator_input Int Int Nat := example_input [0, 1] [1, 2, 2]

/-- Five replicas with identity tables. -/
def example_state5 : exchange_state :=
  { tid := [0, 1, 2, 3, 4], wid := [0, 1, 2, 3, 4], acceptance_rate := [], uniform_calls := 0 }

/-- Gathered energies of five replicas. -/
def example_wp5 : List Int := [5, 1, 2, 4, 3]

/-- A ladder of five values. -/
def example_beta5 : List Int := [5, 4, 3, 2, 1]

/-- The members of a coordinator with three walkers, as saved. -/
def example_saved : worker_image Int Int Nat Nat :=
  { rank := 0, beta := example_beta, mcs := 7, walkers := [10, 11, 12],
    w := { example_worker with tid := [1, 2, 0], wid := [2, 0, 1], num_returnee := 2 } }

/-- The members of a freshly constructed coordinator that loads. -/
def example_loader : worker_image Int Int Nat Nat :=
  { rank := 0, beta := [], mcs := 0, walkers := [0, 0, 0], w := example_worker }

/-- A record saved by a coordinator configured for four replicas. -/
def example_saved4 : worker_image Int Int Nat Nat :=
  { rank := 0, beta := [4, 3, 2, 1], mcs := 7, walkers := [10, 11, 12, 13],
    w := { nrep_local := 4
           offset_local := 0
           nrep_max := 4
           nreps := [4]
           offsets := [0]
           tid_local := [0, 1, 2, 3]
           tid := [0, 1, 2, 3]
           wid := [0, 1, 2, 3]
           direc := [walker_direc.down, walker_direc.unlabeled, walker_direc.unlabeled,
             walker_direc.unlabeled]
           num_returnee := 0
           weight_parameters := [0, 0, 0, 0] } }

/-- A freshly constructed coordinator configured for three replicas. -/
def example_loader3 : worker_image Int Int Nat Nat :=
  { rank := 0, beta := example_beta, mcs := 0, walkers := [0, 0, 0], w := example_worker }

/-- Collaborators for the worked stage evaluations.  `mcs_` is reduced to
its sweep count `mcs_()`; the thermalisation target is `8` sweeps and the
stage count equals the stage target.  The four arguments are the values of
`doing_optimization()`, of `optimization_type() == rate`, of `stage()` and of
`perform_optimization()`.  Both optimisers raise every entry of the ladder by
one, `optimize2` reports success, `mean` is the arithmetic mean and the value
standing for `alps::nan()` lies outside `[0, 1]`. -/
def example_stage_collaborators (doing rate : Bool) (stage : Nat) (perform : Bool) :
    exmc_collaborators ℚ ℚ Nat :=
  { doing_optimization := fun _ => doing
    stage_count := fun _ => 4
    stage_sweeps := fun _ => 4
    optimization_type_is_rate := fun _ => rate
    stage := fun _ => stage
    perform_optimization := fun _ => perform
    sweeps := fun n => n
    thermalization := fun _ => 8
    continue_stage := fun n => n
    next_stage := fun n => n
    optimize_h1999 := fun b _ => b.map (fun x => x + 1)
    optimize2 := fun b _ => (true, b.map (fun x => x + 1))
    mean := sample_mean
    nan := -1
    divide := fun w n => w / (n : ℚ) }

/-- A coordinator of three replicas in the middle of a stage: every replica
is labelled, three round trips have been counted, the accumulators hold the
sums of four intervals and the observables hold samples. -/
def example_stage_coordinator : coordinator ℚ ℚ :=
  { ex := { tid := [0, 1, 2], wid := [0, 1, 2],
            acceptance_rate := [(0, true), (1, false), (0, true), (1, true)],
            uniform_calls := 0 }
    direc := [walker_direc.down, walker_direc.up, walker_direc.up]
    num_returnee := 3
    weight_parameters := [4, 8, 12]
    beta := [3, 2, 1]
    inverse_round_trip_time := []
    upward_samples := [(0, false), (1, true), (2, true)]
    downward_samples := [(0, true), (1, false), (2, false)]
    upward := [0, 0, 0]
    accept := [0, 0]
    wp := [0, 0, 0]
    optimize2_calls := []
    optimize_h1999_calls := [] }

/-- A coordinator of three replicas right after construction, before any
round trip: only replica `0` is labelled and `num_returnee_` is `0`. -/
def example_cold_coordinator : coordinator ℚ ℚ :=
  { example_stage_coordinator with
    direc := [walker_direc.down, walker_direc.unlabeled, walker_direc.unlabeled]
    num_returnee := 0 }

/-- The stage coordinator with replicas `0` and `1` exchanged: replica `0`
sits at rung `1` and replica `1` at rung `0`. -/
def example_swapped_coordinator : coordinator ℚ ℚ :=
  { example_stage_coordinator with
    ex := { example_stage_coordinator.ex with tid := [1, 0, 2], wid := [1, 0, 2] } }

/-- An alternating-mode interval whose gathered weight parameters are
`10`, `20` and `30` for the replicas `0`, `1` and `2`. -/
def example_stage_interval : exchange_interval ℚ ℚ :=
  { is_random := false, mcs := 1, interval := 1, permutation := [],
    wp := [10, 20, 30], beta := [], uniform_01 := fun _ => 0 }

/-- The coordinator that the constructor builds for five replicas on two
processes. -/
def example_worker5 : parallel_exchange_worker Int :=
  { nrep_local := 3
    offset_local := 0
    nrep_max := 3
    nreps := [3, 2]
    offsets := [0, 3]
    tid_local := [0, 1, 2]
    tid := [0, 1, 2, 3, 4]
    wid := [0, 1, 2, 3, 4]
    direc := [walker_direc.down, walker_direc.unlabeled, walker_direc.unlabeled,
      walker_direc.unlabeled, walker_direc.unlabeled]
    num_returnee := 0
    weight_parameters := [0, 0, 0, 0, 0] }

/-- A sweep of five replicas in random mode with exchange interval `2`: the
sweep count `mcs` and the shuffled permutation are given, the gathered
energies are `example_wp5`, and no stage evaluation takes place. -/
def example_sweep5 (mcs : Nat) (permutation : List Nat) : coordinator_input Int Int Nat :=
  { iv := { is_random := true, mcs := mcs, interval := 2, permutation := permutation,
            wp := example_wp5, beta := [], uniform_01 := example_uniform },
    steps := 0 }

/-- Four sweeps of five replicas; the second and the fourth are exchange
intervals. -/
def example_sweeps5 : List (coordinator_input Int Int Nat) :=
  [example_sweep5 1 [0, 1, 2, 3], example_sweep5 2 [2, 0, 3, 1],
    example_sweep5 3 [0, 1, 2, 3], example_sweep5 4 [1, 3, 0, 2]]

/-- The walker of the acceptance test, `log_weight(E, beta) = -E * beta`,
evaluated in `double`. -/
def energy_log_weight (e b : binary64) : binary64 := -e * b

/-- The specification's acceptance test in `double`: energies `E0 = 2`, `E1 = 1`. -/
def acceptance_test_E64 : List binary64 := [binary64.finite 2 0, binary64.finite 1 0]

/-- The specification's acceptance test in `double`: `beta = [1.0, 0.5]`. -/
def acceptance_test_beta64 : List binary64 := [binary64.finite 1 0, binary64.finite 1 (-1)]

/-- Two energies one unit in the last place apart: `E0 = 1e7 + 2^-29`, `E1 = 1e7`. -/
def rounding_test_E : List binary64 :=
  [binary64.finite 5368709120000001 (-29), binary64.finite 10000000 0]

/-- The ladder `beta = [1.2, 1.1]`: the `double`s nearest to `1.2` and `1.1`,
`5404319552844595 * 2^-52` and `4953959590107546 * 2^-52`. -/
def rounding_test_beta : List binary64 :=
  [binary64.finite 5404319552844595 (-52), binary64.finite 4953959590107546 (-52)]

/-- The value `1 + x`, which for `x = -2^-28` is the `double` nearest to `exp(x)`. -/
def rounding_test_exp (x : binary64) : binary64 := 1 + x

/-- A stream of uniform draws that are all `1 - 2^-32`, a value just below `1`. -/
def rounding_test_uniform (_ : Nat) : binary64 := binary64.finite 4294967295 (-32)

/-- Energies of two replicas of which the first is NaN. -/
def nan_test_E : List binary64 := [binary64.nan, binary64.finite 1 0]

/-! ## Lemmas on `calc_nrep` -/

theorem rem_eq_mod (R P : Nat) : R - R / P * P = R % P := by
  have h := Nat.div_add_mod R P
  have h2 : R / P * P = P * (R / P) := Nat.mul_comm _ _
  omega

theorem count_of_lt (R P p : Nat) (h : p < R % P) : count R P p = R / P + 1 := by
  unfold count calc_nrep
  simp only [rem_eq_mod]
  rw [if_pos h]

theorem count_of_ge (R P p : Nat) (h : R % P ≤ p) : count R P p = R / P := by
  unfold count calc_nrep
  simp only [rem_eq_mod]
  rw [if_neg (by omega)]

theorem offset_of_lt (R P p : Nat) (h : p < R % P) : offset R P p = (R / P + 1) * p := by
  unfold offset calc_nrep
  simp only [rem_eq_mod]
  rw [if_pos h]

theorem offset_of_ge (R P p : Nat) (h : R % P ≤ p) : offset R P p = R % P + R / P * p := by
  unfold offset calc_nrep
  simp only [rem_eq_mod]
  rw [if_neg (by omega)]

/-- Closed form of the offset on both branches. -/
theorem offset_eq (R P p : Nat) : offset R P p = R / P * p + min p (R % P) := by
  by_cases h : p < R % P
  · rw [offset_of_lt R P p h, Nat.min_eq_left (Nat.le_of_lt h), Nat.add_mul, Nat.one_mul]
  · have h2 : R % P ≤ p := Nat.le_of_not_lt h
    rw [offset_of_ge R P p h2, Nat.min_eq_right h2, Nat.add_comm]

/-- Closed form of the count on both branches. -/
theorem count_eq (R P p : Nat) : count R P p = R / P + (if p < R % P then 1 else 0) := by
  by_cases h : p < R % P
  · rw [count_of_lt R P p h, if_pos h]
  · rw [count_of_ge R P p (Nat.le_of_not_lt h), if_neg h, Nat.add_zero]

theorem offset_succ (R P p : Nat) : offset R P (p + 1) = offset R P p + count R P p := by
  rw [offset_eq, offset_eq, count_eq, Nat.mul_succ]
  by_cases h : p < R % P
  · rw [if_pos h, Nat.min_eq_left (Nat.le_of_lt h), Nat.min_eq_left h]
    omega
  · rw [if_neg h, Nat.min_eq_right (Nat.le_of_not_lt h), Nat.min_eq_right (by omega)]
    omega

theorem offset_zero (R P : Nat) : offset R P 0 = 0 := by
  rw [offset_eq]
  simp

theorem offset_last (R P : Nat) (hP : 1 ≤ P) : offset R P P = R := by
  rw [offset_eq, Nat.min_eq_right (Nat.le_of_lt (Nat.mod_lt R hP))]
  have h := Nat.div_add_mod R P
  have h2 : R / P * P = P * (R / P) := Nat.mul_comm _ _
  omega

theorem sum_count_eq_offset (R P k : Nat) :
    Finset.sum (Finset.range k) (fun p => count R P p) = offset R P k := by
  induction k with
  | zero => simp [offset_zero]
  | succ k ih => rw [Finset.sum_range_succ, ih, offset_succ]

theorem count_pos (R P p : Nat) (hP : 1 ≤ P) (hR : P ≤ R) : 1 ≤ count R P p := by
  rw [count_eq]
  have : 1 ≤ R / P := (Nat.one_le_div_iff hP).mpr hR
  omega

theorem offset_mono (R P : Nat) {p q : Nat} (h : p ≤ q) : offset R P p ≤ offset R P q := by
  induction q with
  | zero =>
    have : p = 0 := Nat.le_zero.mp h
    subst this
    exact Nat.le_refl _
  | succ q ih =>
    rcases Nat.lt_or_ge p (q + 1) with h1 | h1
    · have := ih (Nat.lt_succ_iff.mp h1)
      rw [offset_succ]
      omega
    · have : p = q + 1 := Nat.le_antisymm h h1
      subst this
      exact Nat.le_refl _

/-- Every slice ends inside `[0, nrep]`: no intermediate value of `calc_nrep`
exceeds `nrep`, so the C++ `int` arithmetic cannot overflow. -/
theorem calc_nrep_intermediates_le (R P p : Nat) (hP : 1 ≤ P) (hp : p < P) :
    R / P * P ≤ R ∧ offset R P p + count R P p ≤ R := by
  refine ⟨Nat.div_mul_le_self R P, ?_⟩
  have h1 : offset R P (p + 1) ≤ offset R P P := offset_mono R P hp
  rw [offset_succ, offset_last R P hP] at h1
  exact h1

theorem slice_exists (R P x : Nat) (k : Nat) (hx : x < offset R P k) :
    ∃ p, p < k ∧ offset R P p ≤ x ∧ x < offset R P p + count R P p := by
  induction k with
  | zero =>
    rw [offset_zero] at hx
    exact absurd hx (Nat.not_lt_zero x)
  | succ k ih =>
    rcases Nat.lt_or_ge x (offset R P k) with h | h
    · obtain ⟨p, hp, h1, h2⟩ := ih h
      exact ⟨p, Nat.lt_succ_of_lt hp, h1, h2⟩
    · refine ⟨k, Nat.lt_succ_self k, h, ?_⟩
      rw [← offset_succ]
      exact hx

theorem slice_unique (R P x p q : Nat)
    (hp1 : offset R P p ≤ x) (hp2 : x < offset R P p + count R P p)
    (hq1 : offset R P q ≤ x) (hq2 : x < offset R P q + count R P q) : p = q := by
  rw [← offset_succ] at hp2 hq2
  rcases Nat.lt_trichotomy p q with h | h | h
  · have : offset R P (p + 1) ≤ offset R P q := offset_mono R P h
    omega
  · exact h
  · have : offset R P (q + 1) ≤ offset R P p := offset_mono R P h
    omega

/-! ## The partition computed by `calc_nrep` -/

/-- Claim C2.  For `P ≥ 1` processes and `R ≥ P` replicas, the counts that
`calc_nrep` returns for the processes `0, ..., P-1` add up to `R`. -/
theorem calc_nrep_counts_sum (P R : Nat) (hP : 1 ≤ P) (_hR : P ≤ R) :
    Finset.sum (Finset.range P) (fun p => (calc_nrep R P p).1) = R := by
  have h := sum_count_eq_offset R P P
  rw [offset_last R P hP] at h
  exact h

theorem calc_nrep_counts_sum_witness :
    (1 ≤ 3 ∧ 3 ≤ 8) ∧ Finset.sum (Finset.range 3) (fun p => (calc_nrep 8 3 p).1) = 8 :=
  ⟨by decide, calc_nrep_counts_sum 3 8 (by decide) (by decide)⟩

/-- Claim C3.  For `P ≥ 1` and `R ≥ P` the offsets of `calc_nrep` are
contiguous and increasing: the first offset is `0`, each next offset is the
previous one plus the previous count, the last slice ends at `R`, offsets
strictly increase, and every global index below `R` lies in the slice
`[offset_p, offset_p + count_p)` of exactly one process `p < P`. -/
theorem calc_nrep_offsets_contiguous (P R : Nat) (hP : 1 ≤ P) (hR : P ≤ R) :
    (calc_nrep R P 0).2 = 0 ∧
    (∀ p, p + 1 < P → (calc_nrep R P (p + 1)).2 = (calc_nrep R P p).2 + (calc_nrep R P p).1) ∧
    (calc_nrep R P (P - 1)).2 + (calc_nrep R P (P - 1)).1 = R ∧
    (∀ p, p + 1 < P → (calc_nrep R P p).2 < (calc_nrep R P (p + 1)).2) ∧
    (∀ x, x < R →
      ∃! p, p < P ∧ (calc_nrep R P p).2 ≤ x ∧ x < (calc_nrep R P p).2 + (calc_nrep R P p).1) := by
  refine ⟨offset_zero R P, fun p _ => offset_succ R P p, ?_, ?_, ?_⟩
  · have h := offset_succ R P (P - 1)
    rw [Nat.sub_add_cancel hP, offset_last R P hP] at h
    exact h.symm
  · intro p _
    have h1 := offset_succ R P p
    have h2 := count_pos R P p hP hR
    show offset R P p < offset R P (p + 1)
    omega
  · intro x hx
    have hx2 : x < offset R P P := by rw [offset_last R P hP]; exact hx
    obtain ⟨p, hp, h1, h2⟩ := slice_exists R P x P hx2
    refine ⟨p, ⟨hp, h1, h2⟩, ?_⟩
    rintro q ⟨_, hq1, hq2⟩
    exact slice_unique R P x q p hq1 hq2 h1 h2

theorem calc_nrep_offsets_contiguous_witness :
    (1 ≤ 3 ∧ 3 ≤ 8) ∧
    ((calc_nrep 8 3 0).2 = 0 ∧
    (∀ p, p + 1 < 3 → (calc_nrep 8 3 (p + 1)).2 = (calc_nrep 8 3 p).2 + (calc_nrep 8 3 p).1) ∧
    (calc_nrep 8 3 (3 - 1)).2 + (calc_nrep 8 3 (3 - 1)).1 = 8 ∧
    (∀ p, p + 1 < 3 → (calc_nrep 8 3 p).2 < (calc_nrep 8 3 (p + 1)).2) ∧
    (∀ x, x < 8 →
      ∃! p, p < 3 ∧ (calc_nrep 8 3 p).2 ≤ x ∧ x < (calc_nrep 8 3 p).2 + (calc_nrep 8 3 p).1)) :=
  ⟨by decide, calc_nrep_offsets_contiguous 3 8 (by decide) (by decide)⟩

/-- Claim C4.  For `P ≥ 1` and `R ≥ P` the partition is near-balanced: the
counts of any two processes differ by at most one, so the largest count
minus the smallest count is at most `1`. -/
theorem calc_nrep_near_balanced (P R : Nat) (_hP : 1 ≤ P) (_hR : P ≤ R) :
    ∀ p q, p < P → q < P → (calc_nrep R P p).1 ≤ (calc_nrep R P q).1 + 1 := by
  intro p q _ _
  show count R P p ≤ count R P q + 1
  rw [count_eq, count_eq]
  split <;> split <;> omega

theorem calc_nrep_near_balanced_witness :
    (1 ≤ 3 ∧ 3 ≤ 8) ∧
    ∀ p q, p < 3 → q < 3 → (calc_nrep 8 3 p).1 ≤ (calc_nrep 8 3 q).1 + 1 :=
  ⟨by decide, calc_nrep_near_balanced 3 8 (by decide) (by decide)⟩

/-- Claim C5.  For `P ≥ 1` and `R ≥ P` the first `R mod P` processes receive
the larger share: the count is `R / P + 1` for `p < R mod P` and `R / P` for
`R mod P ≤ p < P`. -/
theorem calc_nrep_larger_share_first (P R : Nat) (_hP : 1 ≤ P) (_hR : P ≤ R) :
    (∀ p, p < R % P → (calc_nrep R P p).1 = R / P + 1) ∧
    (∀ p, R % P ≤ p → p < P → (calc_nrep R P p).1 = R / P) :=
  ⟨fun p h => count_of_lt R P p h, fun p h _ => count_of_ge R P p h⟩

theorem calc_nrep_larger_share_first_witness :
    (1 ≤ 3 ∧ 3 ≤ 8) ∧
    ((∀ p, p < 8 % 3 → (calc_nrep 8 3 p).1 = 8 / 3 + 1) ∧
    (∀ p, 8 % 3 ≤ p → p < 3 → (calc_nrep 8 3 p).1 = 8 / 3)) :=
  ⟨by decide, calc_nrep_larger_share_first 3 8 (by decide) (by decide)⟩

/-! ## The configuration error of the constructor -/

theorem construct_error_iff (W : Type) [Zero W] (R P p : Nat) (exchange : Bool) :
    construct W R P p exchange = Except.error too_few_replicas ↔ (calc_nrep R P p).1 = 0 := by
  unfold construct
  by_cases h : (calc_nrep R P p).1 = 0
  · simp [h]
  · simp [h]

/-- Claim C6, refuted as stated.  With `R = 1` replica and `P = 2` processes
the constructor on process `0` does not raise the configuration error:
process `0` receives the single replica. -/
theorem construct_rank0_no_error :
    (1 ≤ 2 ∧ 1 < 2 ∧ 0 < 2) ∧ construct Nat 1 2 0 true ≠ Except.error too_few_replicas := by
  refine ⟨by decide, ?_⟩
  rw [Ne, construct_error_iff]
  decide

/-- Claim C6, amended.  For `P ≥ 1` processes and `R < P` replicas, the
constructor on process `p < P` raises the configuration error exactly when
`R ≤ p`, that is on the processes that receive no replica; the last process
`P - 1` always raises it. -/
theorem construct_error_when_no_replica (W : Type) [Zero W] (P R p : Nat) (exchange : Bool)
    (hP : 1 ≤ P) (hR : R < P) (_hp : p < P) :
    (construct W R P p exchange = Except.error too_few_replicas ↔ R ≤ p) ∧
    construct W R P (P - 1) exchange = Except.error too_few_replicas := by
  have hdiv : R / P = 0 := Nat.div_eq_of_lt hR
  have hmod : R % P = R := Nat.mod_eq_of_lt hR
  have key : ∀ q, ((calc_nrep R P q).1 = 0 ↔ R ≤ q) := by
    intro q
    show count R P q = 0 ↔ R ≤ q
    rw [count_eq, hdiv, hmod]
    split <;> omega
  refine ⟨?_, ?_⟩
  · rw [construct_error_iff, key]
  · rw [construct_error_iff, key]
    omega

theorem construct_error_when_no_replica_witness :
    (1 ≤ 2 ∧ 1 < 2 ∧ 1 < 2) ∧
    ((construct Nat 1 2 1 true = Except.error too_few_replicas ↔ 1 ≤ 1) ∧
    construct Nat 1 2 (2 - 1) true = Except.error too_few_replicas) :=
  ⟨by decide, construct_error_when_no_replica Nat 2 1 1 true (by decide) (by decide) (by decide)⟩

/-! ## Lemmas on `std::swap` and the tables -/

theorem swap_at_length (v : List Nat) (i j : Nat) : (swap_at v i j).length = v.length := by
  simp [swap_at]

theorem swap_at_getD (v : List Nat) (i j k : Nat) (hi : i < v.length) (hj : j < v.length) :
    (swap_at v i j).getD k 0 =
      if k = j then v.getD i 0 else if k = i then v.getD j 0 else v.getD k 0 := by
  unfold swap_at
  by_cases hkj : k = j
  · subst hkj
    simp [List.getD_eq_getElem?_getD, List.getElem?_set, hj]
  · by_cases hki : k = i
    · subst hki
      have hne : ¬ j = k := fun h => hkj h.symm
      simp [List.getD_eq_getElem?_getD, List.getElem?_set, hi, hkj, hne]
    · have h1 : ¬ j = k := fun h => hkj h.symm
      have h2 : ¬ i = k := fun h => hki h.symm
      simp [List.getD_eq_getElem?_getD, List.getElem?_set, hkj, hki, h1, h2]

/-- Swapping the rungs of the occupants of `p` and `p + 1` in `tid` and the
occupants of the two rungs in `wid` keeps the tables mutually inverse. -/
theorem tables_inverse_swap (N : Nat) (tid wid : List Nat) (p : Nat)
    (h : tables_inverse N tid wid) (hp : p + 1 < N) :
    tables_inverse N (swap_at tid (wid.getD p 0) (wid.getD (p + 1) 0)) (swap_at wid p (p + 1)) := by
  obtain ⟨ht, hw, h1, h2⟩ := h
  have hp0 : p < N := by omega
  obtain ⟨hw0, ht0⟩ := h1 p hp0
  obtain ⟨hw1, ht1⟩ := h1 (p + 1) hp
  have hne : wid.getD p 0 ≠ wid.getD (p + 1) 0 := by
    intro heq
    rw [heq] at ht0
    omega
  refine ⟨by rw [swap_at_length]; exact ht, by rw [swap_at_length]; exact hw, ?_, ?_⟩
  · intro q hq
    rw [swap_at_getD wid p (p + 1) q (by omega) (by omega)]
    by_cases hq1 : q = p + 1
    · rw [if_pos hq1, swap_at_getD tid _ _ _ (by omega) (by omega), if_neg hne, if_pos rfl]
      exact ⟨hw0, by omega⟩
    · rw [if_neg hq1]
      by_cases hq0 : q = p
      · rw [if_pos hq0, swap_at_getD tid _ _ _ (by omega) (by omega), if_pos rfl]
        exact ⟨hw1, by omega⟩
      · rw [if_neg hq0]
        obtain ⟨hwq, htq⟩ := h1 q hq
        have n1 : wid.getD q 0 ≠ wid.getD (p + 1) 0 := by
          intro heq
          rw [heq] at htq
          omega
        have n0 : wid.getD q 0 ≠ wid.getD p 0 := by
          intro heq
          rw [heq] at htq
          omega
        rw [swap_at_getD tid _ _ _ (by omega) (by omega), if_neg n1, if_neg n0]
        exact ⟨hwq, htq⟩
  · intro r hr
    rw [swap_at_getD tid _ _ r (by omega) (by omega)]
    by_cases hr1 : r = wid.getD (p + 1) 0
    · rw [if_pos hr1, ht0, swap_at_getD wid _ _ _ (by omega) (by omega),
        if_neg (by omega), if_pos rfl]
      exact ⟨hp0, hr1.symm⟩
    · rw [if_neg hr1]
      by_cases hr0 : r = wid.getD p 0
      · rw [if_pos hr0, ht1, swap_at_getD wid _ _ _ (by omega) (by omega), if_pos rfl]
        exact ⟨hp, hr0.symm⟩
      · rw [if_neg hr0]
        obtain ⟨htr, hwr⟩ := h2 r hr
        have n1 : tid.getD r 0 ≠ p + 1 := by
          intro heq
          rw [heq] at hwr
          exact hr1 hwr.symm
        have n0 : tid.getD r 0 ≠ p := by
          intro heq
          rw [heq] at hwr
          exact hr0 hwr.symm
        rw [swap_at_getD wid _ _ _ (by omega) (by omega), if_neg n1, if_neg n0]
        exact ⟨htr, hwr⟩

theorem tables_inverse_range (N : Nat) : tables_inverse N (List.range N) (List.range N) := by
  have key : ∀ p, p < N → (List.range N).getD p 0 = p := by
    intro p hp
    simp [List.getD_eq_getElem?_getD, List.getElem?_range hp]
  refine ⟨List.length_range N, List.length_range N, ?_, ?_⟩
  · intro p hp
    rw [key p hp]
    exact ⟨hp, key p hp⟩
  · intro r hr
    rw [key r hr]
    exact ⟨hr, key r hr⟩

/-! ## Lemmas on the loop bodies -/

section exchange_lemmas

variable {W F : Type} [Zero W] [Zero F] [Add F] [Sub F] [LT F] [∀ a b : F, Decidable (a < b)]

theorem alternating_body_eq_random_body (exp : F → F) (log_weight : W → F → F) (wp : List W)
    (beta : List F) (uniform_01 : Nat → F) (p : Nat) (s : exchange_state) :
    alternating_exchange_body exp log_weight wp beta uniform_01 p s =
      random_exchange_body exp log_weight wp beta uniform_01 p s := rfl

theorem exchange_body_eq (exp : F → F) (log_weight : W → F → F) (is_random : Bool) (wp : List W)
    (beta : List F) (uniform_01 : Nat → F) (p : Nat) (s : exchange_state) :
    exchange_body exp log_weight is_random wp beta uniform_01 p s =
      random_exchange_body exp log_weight wp beta uniform_01 p s := by
  unfold exchange_body
  split
  · rfl
  · exact alternating_body_eq_random_body exp log_weight wp beta uniform_01 p s

theorem random_body_of_accepted (exp : F → F) (log_weight : W → F → F) (wp : List W)
    (beta : List F) (uniform_01 : Nat → F) (p : Nat) (s : exchange_state)
    (h : exchange_accepted exp log_weight wp beta uniform_01 p s) :
    (random_exchange_body exp log_weight wp beta uniform_01 p s).tid =
        swap_at s.tid (s.wid.getD p 0) (s.wid.getD (p + 1) 0) ∧
    (random_exchange_body exp log_weight wp beta uniform_01 p s).wid = swap_at s.wid p (p + 1) ∧
    (random_exchange_body exp log_weight wp beta uniform_01 p s).acceptance_rate =
        s.acceptance_rate ++ [(p, true)] := by
  unfold exchange_accepted exchange_logp at h
  unfold random_exchange_body
  by_cases h1 : 0 < (log_weight (wp.getD (s.wid.getD (p + 1) 0) 0) (beta.getD p 0) +
      log_weight (wp.getD (s.wid.getD p 0) 0) (beta.getD (p + 1) 0)) -
      (log_weight (wp.getD (s.wid.getD (p + 1) 0) 0) (beta.getD (p + 1) 0) +
      log_weight (wp.getD (s.wid.getD p 0) 0) (beta.getD p 0))
  · simp only [if_pos h1, and_self]
  · have h2 := h.resolve_left h1
    simp only [if_neg h1, if_pos h2, and_self]

theorem random_body_of_not_accepted (exp : F → F) (log_weight : W → F → F) (wp : List W)
    (beta : List F) (uniform_01 : Nat → F) (p : Nat) (s : exchange_state)
    (h : ¬ exchange_accepted exp log_weight wp beta uniform_01 p s) :
    (random_exchange_body exp log_weight wp beta uniform_01 p s).tid = s.tid ∧
    (random_exchange_body exp log_weight wp beta uniform_01 p s).wid = s.wid ∧
    (random_exchange_body exp log_weight wp beta uniform_01 p s).acceptance_rate =
        s.acceptance_rate ++ [(p, false)] := by
  unfold exchange_accepted exchange_logp at h
  unfold random_exchange_body
  have h1 := fun x => h (Or.inl x)
  have h2 := fun x => h (Or.inr x)
  simp only [if_neg h1, if_neg h2, and_self]

/-- One pair resolution keeps the tables mutually inverse. -/
theorem random_body_tables_inverse (exp : F → F) (log_weight : W → F → F) (wp : List W)
    (beta : List F) (uniform_01 : Nat → F) (N p : Nat) (s : exchange_state)
    (h : tables_inverse N s.tid s.wid) (hp : p + 1 < N) :
    tables_inverse N (random_exchange_body exp log_weight wp beta uniform_01 p s).tid
      (random_exchange_body exp log_weight wp beta uniform_01 p s).wid := by
  by_cases ha : exchange_accepted exp log_weight wp beta uniform_01 p s
  · obtain ⟨h1, h2, _⟩ := random_body_of_accepted exp log_weight wp beta uniform_01 p s ha
    rw [h1, h2]
    exact tables_inverse_swap N s.tid s.wid p h hp
  · obtain ⟨h1, h2, _⟩ := random_body_of_not_accepted exp log_weight wp beta uniform_01 p s ha
    rw [h1, h2]
    exact h

/-- The samples written by one pair resolution: one sample, for rung `p`. -/
theorem random_body_proposed (exp : F → F) (log_weight : W → F → F) (wp : List W)
    (beta : List F) (uniform_01 : Nat → F) (p : Nat) (s : exchange_state) :
    (random_exchange_body exp log_weight wp beta uniform_01 p s).acceptance_rate.map Prod.fst =
      s.acceptance_rate.map Prod.fst ++ [p] := by
  by_cases ha : exchange_accepted exp log_weight wp beta uniform_01 p s
  · rw [(random_body_of_accepted exp log_weight wp beta uniform_01 p s ha).2.2]
    simp
  · rw [(random_body_of_not_accepted exp log_weight wp beta uniform_01 p s ha).2.2]
    simp

/-! ## Lemmas on the loops -/

theorem foldl_body_tables_inverse (exp : F → F) (log_weight : W → F → F) (wp : List W)
    (beta : List F) (uniform_01 : Nat → F) (N : Nat) (ps : List Nat) (s : exchange_state)
    (h : tables_inverse N s.tid s.wid) (hps : ∀ p, p ∈ ps → p + 1 < N) :
    tables_inverse N
      (ps.foldl (fun s p => random_exchange_body exp log_weight wp beta uniform_01 p s) s).tid
      (ps.foldl (fun s p => random_exchange_body exp log_weight wp beta uniform_01 p s) s).wid := by
  induction ps generalizing s with
  | nil => exact h
  | cons p ps ih =>
    rw [List.foldl_cons]
    apply ih
    · exact random_body_tables_inverse exp log_weight wp beta uniform_01 N p s h
        (hps p (List.mem_cons_self p ps))
    · intro q hq
      exact hps q (List.mem_cons_of_mem p hq)

theorem foldl_body_proposed (exp : F → F) (log_weight : W → F → F) (wp : List W)
    (beta : List F) (uniform_01 : Nat → F) (ps : List Nat) (s : exchange_state) :
    (ps.foldl (fun s p => random_exchange_body exp log_weight wp beta uniform_01 p s)
        s).acceptance_rate.map Prod.fst =
      s.acceptance_rate.map Prod.fst ++ ps := by
  induction ps generalizing s with
  | nil => simp
  | cons p ps ih =>
    rw [List.foldl_cons, ih, random_body_proposed]
    simp

theorem alternating_loop_eq_foldl (exp : F → F) (log_weight : W → F → F) (nrep : Nat)
    (wp : List W) (beta : List F) (uniform_01 : Nat → F) (p : Nat) (s : exchange_state) :
    alternating_exchange_loop exp log_weight nrep wp beta uniform_01 p s =
      (alternating_pairs nrep p).foldl
        (fun s q => random_exchange_body exp log_weight wp beta uniform_01 q s) s := by
  induction p using alternating_pairs.induct nrep generalizing s with
  | case1 p hp ih =>
    rw [alternating_exchange_loop, alternating_pairs, if_pos hp, if_pos hp, List.foldl_cons, ih,
      alternating_body_eq_random_body]
  | case2 p hp =>
    rw [alternating_exchange_loop, alternating_pairs, if_neg hp, if_neg hp, List.foldl_nil]

theorem map_getD_range (l : List Nat) :
    (List.range l.length).map (fun i => l.getD i 0) = l := by
  apply List.ext_getElem
  · simp
  · intro n h1 h2
    simp [List.getD_eq_getElem?_getD, List.getElem?_eq_getElem h2]

theorem random_exchange_eq_foldl (exp : F → F) (log_weight : W → F → F) (nrep : Nat)
    (permutation : List Nat) (wp : List W) (beta : List F) (uniform_01 : Nat → F)
    (s : exchange_state) (hlen : permutation.length = nrep - 1) :
    random_exchange exp log_weight nrep permutation wp beta uniform_01 s =
      permutation.foldl
        (fun s p => random_exchange_body exp log_weight wp beta uniform_01 p s) s := by
  unfold random_exchange
  rw [← hlen]
  conv => rhs; rw [← map_getD_range permutation]
  rw [List.foldl_map]

theorem mem_alternating_pairs (nrep p q : Nat) :
    q ∈ alternating_pairs nrep p ↔ p ≤ q ∧ q < nrep - 1 ∧ (q - p) % 2 = 0 := by
  induction p using alternating_pairs.induct nrep with
  | case1 p hp ih =>
    rw [alternating_pairs, if_pos hp, List.mem_cons, ih]
    omega
  | case2 p hp =>
    rw [alternating_pairs, if_neg hp]
    simp only [List.not_mem_nil, false_iff]
    omega

theorem count_alternating_pairs (nrep p q : Nat) :
    (alternating_pairs nrep p).count q =
      if p ≤ q ∧ q < nrep - 1 ∧ (q - p) % 2 = 0 then 1 else 0 := by
  induction p using alternating_pairs.induct nrep with
  | case1 p hp ih =>
    rw [alternating_pairs, if_pos hp, List.count_cons, ih]
    by_cases hq : p = q
    · subst hq
      simp [hp]
    · have h3 : (p == q) = false := by simpa using hq
      rw [h3]
      simp only [Bool.false_eq_true, if_false, Nat.add_zero]
      by_cases hc : p + 2 ≤ q ∧ q < nrep - 1 ∧ (q - (p + 2)) % 2 = 0
      · rw [if_pos hc, if_pos (by omega)]
      · rw [if_neg hc, if_neg (by omega)]
  | case2 p hp =>
    rw [alternating_pairs, if_neg hp, List.count_nil, if_neg (by omega)]

end exchange_lemmas

section exchange_theorems

variable {W F : Type} [Zero W] [Zero F] [Add F] [Sub F] [LT F] [∀ a b : F, Decidable (a < b)]

theorem exchange_block_tables_inverse (exp : F → F) (log_weight : W → F → F) (nrep : Nat)
    (iv : exchange_interval W F) (s : exchange_state)
    (h : tables_inverse nrep s.tid s.wid)
    (hperm : iv.is_random = true → List.Perm iv.permutation (List.range (nrep - 1))) :
    tables_inverse nrep (exchange_block exp log_weight nrep iv s).tid
      (exchange_block exp log_weight nrep iv s).wid := by
  unfold exchange_block
  split
  · rename_i hr
    have hp := hperm hr
    have hlen : iv.permutation.length = nrep - 1 := by
      rw [hp.length_eq, List.length_range]
    rw [random_exchange_eq_foldl exp log_weight nrep iv.permutation iv.wp iv.beta iv.uniform_01 s hlen]
    apply foldl_body_tables_inverse exp log_weight iv.wp iv.beta iv.uniform_01 nrep _ s h
    intro q hq
    have := List.mem_range.mp (hp.mem_iff.mp hq)
    omega
  · unfold alternating_exchange
    rw [alternating_loop_eq_foldl]
    apply foldl_body_tables_inverse exp log_weight iv.wp iv.beta iv.uniform_01 nrep _ s h
    intro q hq
    have := (mem_alternating_pairs nrep _ q).mp hq
    omega

theorem exchange_intervals_tables_inverse (exp : F → F) (log_weight : W → F → F) (nrep : Nat)
    (ivs : List (exchange_interval W F)) (s : exchange_state)
    (h : tables_inverse nrep s.tid s.wid)
    (hperm : ∀ iv, iv ∈ ivs → iv.is_random = true →
      List.Perm iv.permutation (List.range (nrep - 1))) :
    tables_inverse nrep (exchange_intervals exp log_weight nrep ivs s).tid
      (exchange_intervals exp log_weight nrep ivs s).wid := by
  unfold exchange_intervals
  induction ivs generalizing s with
  | nil => exact h
  | cons iv ivs ih =>
    rw [List.foldl_cons]
    apply ih
    · exact exchange_block_tables_inverse exp log_weight nrep iv s h
        (hperm iv (List.mem_cons_self iv ivs))
    · intro iv2 h2
      exact hperm iv2 (List.mem_cons_of_mem iv h2)

theorem construct_ok_tables (nrep size : Nat) (exchange : Bool) (w : parallel_exchange_worker W)
    (hw : construct W nrep size 0 exchange = Except.ok w) :
    w.tid = List.range nrep ∧ w.wid = List.range nrep := by
  unfold construct at hw
  by_cases h0 : (calc_nrep nrep size 0).1 = 0
  · simp [h0] at hw
  · simp only [h0, if_false, if_true, Except.ok.injEq] at hw
    rw [← hw]
    exact ⟨rfl, rfl⟩

/-- Claim C1.  Start from the tables that the constructor builds on the
coordinator (rank `0`) and run any finite sequence of exchange intervals,
each one in alternating or in random mode with its own weight parameters,
ladder values, sweep count, uniform draws and (in random mode) permutation of
the pair indices `[0, nrep - 2]`.  Then `tid[wid[p]] = p` for every rung
`p < nrep` and `wid[tid[r]] = r` for every replica `r < nrep`. -/
theorem tid_wid_mutual_inverse (exp : F → F) (log_weight : W → F → F) (nrep size : Nat)
    (exchange : Bool) (w : parallel_exchange_worker W)
    (ivs : List (exchange_interval W F))
    (hw : construct W nrep size 0 exchange = Except.ok w)
    (hperm : ∀ iv, iv ∈ ivs → iv.is_random = true →
      List.Perm iv.permutation (List.range (nrep - 1))) :
    (∀ p, p < nrep →
      (exchange_intervals exp log_weight nrep ivs (initial_exchange_state w)).tid.getD
        ((exchange_intervals exp log_weight nrep ivs (initial_exchange_state w)).wid.getD p 0) 0
        = p) ∧
    (∀ r, r < nrep →
      (exchange_intervals exp log_weight nrep ivs (initial_exchange_state w)).wid.getD
        ((exchange_intervals exp log_weight nrep ivs (initial_exchange_state w)).tid.getD r 0) 0
        = r) := by
  obtain ⟨h1, h2⟩ := construct_ok_tables nrep size exchange w hw
  have h0 : tables_inverse nrep (initial_exchange_state w).tid (initial_exchange_state w).wid := by
    show tables_inverse nrep w.tid w.wid
    rw [h1, h2]
    exact tables_inverse_range nrep
  obtain ⟨_, _, h3, h4⟩ :=
    exchange_intervals_tables_inverse exp log_weight nrep ivs (initial_exchange_state w) h0 hperm
  exact ⟨fun p hp => (h3 p hp).2, fun r hr => (h4 r hr).2⟩

/-- Claim C7.  In both modes the loop body accepts the pair `(p, p+1)` exactly
when `logp > 0` or `u < exp(logp)`, with `logp` the difference of the two
sums of log-weights of the specification and `u` the next uniform draw: the
sample written for rung `p` is `1` exactly in that case, and the entries of
`tid` at `w0`, `w1` and of `wid` at `p`, `p+1` are swapped exactly then. -/
theorem exchange_acceptance_rule (exp : F → F) (log_weight : W → F → F) (is_random : Bool)
    (wp : List W) (beta : List F) (uniform_01 : Nat → F) (p : Nat) (s : exchange_state) :
    (exchange_body exp log_weight is_random wp beta uniform_01 p s).acceptance_rate =
      s.acceptance_rate ++
        [(p, decide (exchange_accepted exp log_weight wp beta uniform_01 p s))] ∧
    (exchange_body exp log_weight is_random wp beta uniform_01 p s).tid =
      (if exchange_accepted exp log_weight wp beta uniform_01 p s then
        swap_at s.tid (s.wid.getD p 0) (s.wid.getD (p + 1) 0) else s.tid) ∧
    (exchange_body exp log_weight is_random wp beta uniform_01 p s).wid =
      (if exchange_accepted exp log_weight wp beta uniform_01 p s then
        swap_at s.wid p (p + 1) else s.wid) := by
  rw [exchange_body_eq]
  by_cases ha : exchange_accepted exp log_weight wp beta uniform_01 p s
  · obtain ⟨h1, h2, h3⟩ := random_body_of_accepted exp log_weight wp beta uniform_01 p s ha
    rw [h1, h2, h3, if_pos ha, if_pos ha, decide_eq_true ha]
    exact ⟨rfl, rfl, rfl⟩
  · obtain ⟨h1, h2, h3⟩ := random_body_of_not_accepted exp log_weight wp beta uniform_01 p s ha
    rw [h1, h2, h3, if_neg ha, if_neg ha, decide_eq_false ha]
    exact ⟨rfl, rfl, rfl⟩

/-- Claim C9.  With mutually inverse tables and a proposed pair `(p, p+1)`,
`w0 = wid[p]`, `w1 = wid[p+1]`: if the pair is accepted then afterwards
`tid[w0] = p+1`, `tid[w1] = p`, `wid[p] = w1`, `wid[p+1] = w0`, every other
entry of `tid` and of `wid` is unchanged and the sizes are unchanged; if it
is rejected then `tid` and `wid` are unchanged.  This holds in both modes. -/
theorem exchange_pair_frame (exp : F → F) (log_weight : W → F → F) (is_random : Bool)
    (wp : List W) (beta : List F) (uniform_01 : Nat → F) (N p : Nat) (s : exchange_state)
    (h : tables_inverse N s.tid s.wid) (hp : p + 1 < N) :
    (exchange_accepted exp log_weight wp beta uniform_01 p s →
      (exchange_body exp log_weight is_random wp beta uniform_01 p s).tid.getD
          (s.wid.getD p 0) 0 = p + 1 ∧
      (exchange_body exp log_weight is_random wp beta uniform_01 p s).tid.getD
          (s.wid.getD (p + 1) 0) 0 = p ∧
      (exchange_body exp log_weight is_random wp beta uniform_01 p s).wid.getD p 0 =
          s.wid.getD (p + 1) 0 ∧
      (exchange_body exp log_weight is_random wp beta uniform_01 p s).wid.getD (p + 1) 0 =
          s.wid.getD p 0 ∧
      (∀ r, r ≠ s.wid.getD p 0 → r ≠ s.wid.getD (p + 1) 0 →
        (exchange_body exp log_weight is_random wp beta uniform_01 p s).tid.getD r 0 =
          s.tid.getD r 0) ∧
      (∀ q, q ≠ p → q ≠ p + 1 →
        (exchange_body exp log_weight is_random wp beta uniform_01 p s).wid.getD q 0 =
          s.wid.getD q 0) ∧
      (exchange_body exp log_weight is_random wp beta uniform_01 p s).tid.length = s.tid.length ∧
      (exchange_body exp log_weight is_random wp beta uniform_01 p s).wid.length =
          s.wid.length) ∧
    (¬ exchange_accepted exp log_weight wp beta uniform_01 p s →
      (exchange_body exp log_weight is_random wp beta uniform_01 p s).tid = s.tid ∧
      (exchange_body exp log_weight is_random wp beta uniform_01 p s).wid = s.wid) := by
  rw [exchange_body_eq]
  obtain ⟨ht, hw, h1, _⟩ := h
  have hp0 : p < N := by omega
  obtain ⟨hw0, ht0⟩ := h1 p hp0
  obtain ⟨hw1, ht1⟩ := h1 (p + 1) hp
  have hne : s.wid.getD p 0 ≠ s.wid.getD (p + 1) 0 := by
    intro heq
    rw [heq] at ht0
    omega
  constructor
  · intro ha
    obtain ⟨e1, e2, _⟩ := random_body_of_accepted exp log_weight wp beta uniform_01 p s ha
    rw [e1, e2]
    refine ⟨?_, ?_, ?_, ?_, ?_, ?_, swap_at_length _ _ _, swap_at_length _ _ _⟩
    · rw [swap_at_getD s.tid _ _ _ (by omega) (by omega), if_neg hne, if_pos rfl]
      exact ht1
    · rw [swap_at_getD s.tid _ _ _ (by omega) (by omega), if_pos rfl]
      exact ht0
    · rw [swap_at_getD s.wid _ _ _ (by omega) (by omega), if_neg (by omega), if_pos rfl]
    · rw [swap_at_getD s.wid _ _ _ (by omega) (by omega), if_pos rfl]
    · intro r hr0 hr1
      rw [swap_at_getD s.tid _ _ _ (by omega) (by omega), if_neg hr1, if_neg hr0]
    · intro q hq0 hq1
      rw [swap_at_getD s.wid _ _ _ (by omega) (by omega), if_neg hq1, if_neg hq0]
  · intro ha
    obtain ⟨e1, e2, _⟩ := random_body_of_not_accepted exp log_weight wp beta uniform_01 p s ha
    exact ⟨e1, e2⟩

theorem proposed_between_alternating (exp : F → F) (log_weight : W → F → F)
    (nrep mcs interval : Nat) (wp : List W) (beta : List F) (uniform_01 : Nat → F)
    (s : exchange_state) :
    proposed_between s (alternating_exchange exp log_weight nrep mcs interval wp beta uniform_01 s) =
      alternating_pairs nrep (alternating_start mcs interval) := by
  unfold proposed_between alternating_exchange
  rw [alternating_loop_eq_foldl, List.map_drop, foldl_body_proposed]
  have hl : s.acceptance_rate.length = (s.acceptance_rate.map Prod.fst).length := by simp
  rw [hl, List.drop_left]

/-- Claim C10.  In alternating mode, for `nrep ≥ 2` and two consecutive
exchange intervals `k` and `k + 1` (the quotient of the sweep count by the
exchange interval), every adjacent pair index `p ≤ nrep - 2` is proposed
once in one of the two intervals and not at all in the other. -/
theorem alternating_two_intervals_cover (exp : F → F) (log_weight : W → F → F)
    (nrep k mcs1 mcs2 interval : Nat) (wp1 wp2 : List W) (beta1 beta2 : List F)
    (u1 u2 : Nat → F) (p : Nat) (s : exchange_state)
    (hN : 2 ≤ nrep) (hk1 : mcs1 / interval = k) (hk2 : mcs2 / interval = k + 1)
    (hp : p ≤ nrep - 2) :
    ((proposed_between s
        (alternating_exchange exp log_weight nrep mcs1 interval wp1 beta1 u1 s)).count p = 1 ∧
      (proposed_between (alternating_exchange exp log_weight nrep mcs1 interval wp1 beta1 u1 s)
        (alternating_exchange exp log_weight nrep mcs2 interval wp2 beta2 u2
          (alternating_exchange exp log_weight nrep mcs1 interval wp1 beta1 u1 s))).count p = 0) ∨
    ((proposed_between s
        (alternating_exchange exp log_weight nrep mcs1 interval wp1 beta1 u1 s)).count p = 0 ∧
      (proposed_between (alternating_exchange exp log_weight nrep mcs1 interval wp1 beta1 u1 s)
        (alternating_exchange exp log_weight nrep mcs2 interval wp2 beta2 u2
          (alternating_exchange exp log_weight nrep mcs1 interval wp1 beta1 u1 s))).count p = 1) := by
  rw [proposed_between_alternating, proposed_between_alternating, count_alternating_pairs,
    count_alternating_pairs]
  unfold alternating_start
  rw [hk1, hk2]
  rcases Nat.mod_two_eq_zero_or_one k with hk | hk
  · have hk' : (k + 1) % 2 = 1 := by omega
    rw [hk, hk']
    by_cases hpar : p % 2 = 0
    · left
      rw [if_pos (by omega), if_neg (by omega)]
      exact ⟨rfl, rfl⟩
    · right
      rw [if_neg (by omega), if_pos (by omega)]
      exact ⟨rfl, rfl⟩
  · have hk' : (k + 1) % 2 = 0 := by omega
    rw [hk, hk']
    by_cases hpar : p % 2 = 0
    · right
      rw [if_neg (by omega), if_pos (by omega)]
      exact ⟨rfl, rfl⟩
    · left
      rw [if_pos (by omega), if_neg (by omega)]
      exact ⟨rfl, rfl⟩

end exchange_theorems

/-! ## Worked instances -/

theorem example_intervals_perm :
    ∀ iv, iv ∈ example_intervals → iv.is_random = true →
      List.Perm iv.permutation (List.range (3 - 1)) := by
  intro iv hiv hr
  simp only [example_intervals, List.mem_cons, List.mem_singleton, List.not_mem_nil,
    or_false] at hiv
  rcases hiv with rfl | rfl
  · simp at hr
  · decide

theorem tid_wid_mutual_inverse_witness :
    construct Int 3 1 0 true = Except.ok example_worker ∧
    (∀ iv, iv ∈ example_intervals → iv.is_random = true →
      List.Perm iv.permutation (List.range (3 - 1))) ∧
    ((∀ p, p < 3 →
      (exchange_intervals example_exp example_log_weight 3 example_intervals
        (initial_exchange_state example_worker)).tid.getD
        ((exchange_intervals example_exp example_log_weight 3 example_intervals
          (initial_exchange_state example_worker)).wid.getD p 0) 0 = p) ∧
    (∀ r, r < 3 →
      (exchange_intervals example_exp example_log_weight 3 example_intervals
        (initial_exchange_state example_worker)).wid.getD
        ((exchange_intervals example_exp example_log_weight 3 example_intervals
          (initial_exchange_state example_worker)).tid.getD r 0) 0 = r)) :=
  ⟨rfl, example_intervals_perm,
    tid_wid_mutual_inverse example_exp example_log_weight 3 1 true example_worker
      example_intervals rfl example_intervals_perm⟩

theorem exchange_pair_frame_witness :
    tables_inverse 3 (initial_exchange_state example_worker).tid
      (initial_exchange_state example_worker).wid ∧
    0 + 1 < 3 ∧
    exchange_accepted example_exp example_log_weight example_wp example_beta example_uniform 0
      (initial_exchange_state example_worker) ∧
    (exchange_body example_exp example_log_weight false example_wp example_beta example_uniform 0
      (initial_exchange_state example_worker)).tid.getD 0 0 = 0 + 1 ∧
    (exchange_body example_exp example_log_weight false example_wp example_beta example_uniform 0
      (initial_exchange_state example_worker)).tid.getD 1 0 = 0 ∧
    (exchange_body example_exp example_log_weight false example_wp example_beta example_uniform 0
      (initial_exchange_state example_worker)).wid.getD 0 0 = 1 ∧
    (exchange_body example_exp example_log_weight false example_wp example_beta example_uniform 0
      (initial_exchange_state example_worker)).wid.getD (0 + 1) 0 = 0 :=
  have h1 : tables_inverse 3 (initial_exchange_state example_worker).tid
      (initial_exchange_state example_worker).wid := tables_inverse_range 3
  have ha : exchange_accepted example_exp example_log_weight example_wp example_beta
      example_uniform 0 (initial_exchange_state example_worker) := by decide
  have h := (exchange_pair_frame example_exp example_log_weight false example_wp example_beta
    example_uniform 3 0 (initial_exchange_state example_worker) h1 (by decide)).1 ha
  ⟨h1, by decide, ha, h.1, h.2.1, h.2.2.1, h.2.2.2.1⟩

theorem alternating_two_intervals_cover_witness :
    (2 ≤ 3 ∧ 2 / 2 = 1 ∧ 4 / 2 = 1 + 1 ∧ 1 ≤ 3 - 2) ∧
    (((proposed_between (initial_exchange_state example_worker)
        (alternating_exchange example_exp example_log_weight 3 2 2 example_wp example_beta
          example_uniform (initial_exchange_state example_worker))).count 1 = 1 ∧
      (proposed_between
        (alternating_exchange example_exp example_log_weight 3 2 2 example_wp example_beta
          example_uniform (initial_exchange_state example_worker))
        (alternating_exchange example_exp example_log_weight 3 4 2 example_wp example_beta
          example_uniform
          (alternating_exchange example_exp example_log_weight 3 2 2 example_wp example_beta
            example_uniform (initial_exchange_state example_worker)))).count 1 = 0) ∨
    ((proposed_between (initial_exchange_state example_worker)
        (alternating_exchange example_exp example_log_weight 3 2 2 example_wp example_beta
          example_uniform (initial_exchange_state example_worker))).count 1 = 0 ∧
      (proposed_between
        (alternating_exchange example_exp example_log_weight 3 2 2 example_wp example_beta
          example_uniform (initial_exchange_state example_worker))
        (alternating_exchange example_exp example_log_weight 3 4 2 example_wp example_beta
          example_uniform
          (alternating_exchange example_exp example_log_weight 3 2 2 example_wp example_beta
            example_uniform (initial_exchange_state example_worker)))).count 1 = 1)) :=
  ⟨by decide,
    alternating_two_intervals_cover example_exp example_log_weight 3 1 2 4 2 example_wp example_wp
      example_beta example_beta example_uniform example_uniform 1
      (initial_exchange_state example_worker) (by decide) (by decide) (by decide) (by decide)⟩

/-! ## The energy form of the acceptance log-probability -/

/-- Over exact arithmetic, for a walker with `log_weight(E, beta) = -E * beta`,
the `logp` of the pair `(p, p+1)` with occupants `w0 = wid[p]`, `w1 = wid[p+1]`
equals `(beta[p] - beta[p+1]) * (E[w0] - E[w1])`. -/
theorem logp_exact_product {F : Type} [LinearOrderedCommRing F] (E beta : List F) (p : Nat)
    (s : exchange_state) :
    exchange_logp (fun e b => -e * b) E beta s.wid p =
      (beta.getD p 0 - beta.getD (p + 1) 0) *
        (E.getD (s.wid.getD p 0) 0 - E.getD (s.wid.getD (p + 1) 0) 0) := by
  unfold exchange_logp
  ring

/-- The acceptance test of the specification over the rationals: `logp = 1/2`. -/
theorem acceptance_test_exact :
    exchange_logp (fun e b => -e * b) acceptance_test_E acceptance_test_beta
      acceptance_test_state.wid 0 = 1 / 2 := by
  rw [logp_exact_product]
  simp [acceptance_test_beta, acceptance_test_E, acceptance_test_state]
  norm_num

set_option maxRecDepth 8192 in
/-- Claim C8, evaluated in `double` for two replicas with identity tables,
`beta = [1.2, 1.1]`, energies `E0 = 1e7 + 2^-29`, `E1 = 1e7` and
`log_weight(E, beta) = -E * beta`.  The product
`(beta[0] - beta[1]) * (E0 - E1)` is positive, but the four-term sum that
the code computes rounds to `logp = -2^-28 < 0`; with `exp(logp) = 1 - 2^-28`
and the draw `1 - 2^-32` the pair is rejected in either mode: a draw is
consumed, the sample `0.` is written and the tables stay as they were. -/
theorem logp_rounding_rejects :
    0 < (rounding_test_beta.getD 0 0 - rounding_test_beta.getD (0 + 1) 0) *
      (rounding_test_E.getD (acceptance_test_state.wid.getD 0 0) 0 -
        rounding_test_E.getD (acceptance_test_state.wid.getD (0 + 1) 0) 0) ∧
    exchange_logp energy_log_weight rounding_test_E rounding_test_beta
      acceptance_test_state.wid 0 = binary64.finite (-1) (-28) ∧
    exchange_logp energy_log_weight rounding_test_E rounding_test_beta
      acceptance_test_state.wid 0 < 0 ∧
    rounding_test_exp (binary64.finite (-1) (-28)) = binary64.finite 268435455 (-28) ∧
    exchange_body rounding_test_exp energy_log_weight true rounding_test_E rounding_test_beta
      rounding_test_uniform 0 acceptance_test_state =
      { tid := [0, 1], wid := [0, 1], acceptance_rate := [(0, false)], uniform_calls := 1 } ∧
    exchange_body rounding_test_exp energy_log_weight false rounding_test_E rounding_test_beta
      rounding_test_uniform 0 acceptance_test_state =
      { tid := [0, 1], wid := [0, 1], acceptance_rate := [(0, false)], uniform_calls := 1 } := by
  refine ⟨by decide, by decide, by decide, by decide, by decide, by decide⟩

/-- Claim C8, as the code has it.  For a walker with
`log_weight(E, beta) = -E * beta`, in whatever arithmetic the numbers have
(rounding and NaN included): whenever the computed `logp`, the four-term sum
of lines 191-194 and 209-212, is positive, the loop body of either mode
accepts the pair for every stream of uniform draws and every `exp`: the
sample `1.` is written and the entries of `tid` and `wid` are swapped.  Over
exact arithmetic the computed `logp` equals
`(beta[p] - beta[p+1]) * (E[w0] - E[w1])`, so there a positive product is
accepted in the same way. -/
theorem logp_energy_product {G : Type} [Zero G] [Add G] [Sub G] [Mul G] [Neg G] [LT G]
    [∀ a b : G, Decidable (a < b)] {F : Type} [LinearOrderedCommRing F]
    (E2 beta2 : List G) (E beta : List F) (p : Nat) (s : exchange_state) :
    (0 < exchange_logp (fun e b => -e * b) E2 beta2 s.wid p →
      ∀ (exp : G → G) (is_random : Bool) (uniform_01 : Nat → G),
        (exchange_body exp (fun e b => -e * b) is_random E2 beta2 uniform_01 p s).acceptance_rate =
          s.acceptance_rate ++ [(p, true)] ∧
        (exchange_body exp (fun e b => -e * b) is_random E2 beta2 uniform_01 p s).tid =
          swap_at s.tid (s.wid.getD p 0) (s.wid.getD (p + 1) 0) ∧
        (exchange_body exp (fun e b => -e * b) is_random E2 beta2 uniform_01 p s).wid =
          swap_at s.wid p (p + 1)) ∧
    exchange_logp (fun e b => -e * b) E beta s.wid p =
      (beta.getD p 0 - beta.getD (p + 1) 0) *
        (E.getD (s.wid.getD p 0) 0 - E.getD (s.wid.getD (p + 1) 0) 0) ∧
    (0 < (beta.getD p 0 - beta.getD (p + 1) 0) *
        (E.getD (s.wid.getD p 0) 0 - E.getD (s.wid.getD (p + 1) 0) 0) →
      ∀ (exp : F → F) (is_random : Bool) (uniform_01 : Nat → F),
        (exchange_body exp (fun e b => -e * b) is_random E beta uniform_01 p s).acceptance_rate =
          s.acceptance_rate ++ [(p, true)] ∧
        (exchange_body exp (fun e b => -e * b) is_random E beta uniform_01 p s).tid =
          swap_at s.tid (s.wid.getD p 0) (s.wid.getD (p + 1) 0) ∧
        (exchange_body exp (fun e b => -e * b) is_random E beta uniform_01 p s).wid =
          swap_at s.wid p (p + 1)) := by
  refine ⟨?_, logp_exact_product E beta p s, ?_⟩
  · intro hpos exp is_random uniform_01
    have ha : exchange_accepted exp (fun e b => -e * b) E2 beta2 uniform_01 p s := Or.inl hpos
    rw [exchange_body_eq]
    obtain ⟨h1, h2, h3⟩ :=
      random_body_of_accepted exp (fun e b => -e * b) E2 beta2 uniform_01 p s ha
    exact ⟨h3, h1, h2⟩
  · intro hpos exp is_random uniform_01
    have ha : exchange_accepted exp (fun e b => -e * b) E beta uniform_01 p s := by
      unfold exchange_accepted
      left
      rw [logp_exact_product]
      exact hpos
    rw [exchange_body_eq]
    obtain ⟨h1, h2, h3⟩ :=
      random_body_of_accepted exp (fun e b => -e * b) E beta uniform_01 p s ha
    exact ⟨h3, h1, h2⟩

/-- The acceptance test of the specification, evaluated in `double`: two
replicas, `beta = [1.0, 0.5]`, energies `E0 = 2`, `E1 = 1`, identity tables.
Every operation is exact, `logp = 0.5 > 0`, and when the pair `(0, 1)` is
proposed, in either mode, the tables become `tid = [1, 0]`, `wid = [1, 0]`,
whatever `exp` and the draws are. -/
theorem logp_energy_product_witness :
    exchange_logp (fun e b => -e * b) acceptance_test_E64 acceptance_test_beta64
      acceptance_test_state.wid 0 = binary64.finite 1 (-1) ∧
    0 < exchange_logp (fun e b => -e * b) acceptance_test_E64 acceptance_test_beta64
      acceptance_test_state.wid 0 ∧
    (alternating_exchange rounding_test_exp (fun e b => -e * b) 2 0 1 acceptance_test_E64
      acceptance_test_beta64 rounding_test_uniform acceptance_test_state).tid = [1, 0] ∧
    (alternating_exchange rounding_test_exp (fun e b => -e * b) 2 0 1 acceptance_test_E64
      acceptance_test_beta64 rounding_test_uniform acceptance_test_state).wid = [1, 0] ∧
    (random_exchange rounding_test_exp (fun e b => -e * b) 2 [0] acceptance_test_E64
      acceptance_test_beta64 rounding_test_uniform acceptance_test_state).tid = [1, 0] ∧
    (random_exchange rounding_test_exp (fun e b => -e * b) 2 [0] acceptance_test_E64
      acceptance_test_beta64 rounding_test_uniform acceptance_test_state).wid = [1, 0] := by
  have hpos : 0 < exchange_logp (fun e b => -e * b) acceptance_test_E64 acceptance_test_beta64
      acceptance_test_state.wid 0 := by decide
  have h := (@logp_energy_product binary64 _ _ _ _ _ _ _ ℚ _ acceptance_test_E64
    acceptance_test_beta64 acceptance_test_E acceptance_test_beta 0 acceptance_test_state).1 hpos
  have halt := h rounding_test_exp false rounding_test_uniform
  have hrnd := h rounding_test_exp true rounding_test_uniform
  have hswap1 : swap_at acceptance_test_state.tid (acceptance_test_state.wid.getD 0 0)
      (acceptance_test_state.wid.getD (0 + 1) 0) = [1, 0] := by decide
  have hswap2 : swap_at acceptance_test_state.wid 0 (0 + 1) = [1, 0] := by decide
  have hloop : ∀ x : exchange_state,
      alternating_exchange rounding_test_exp (fun e b => -e * b) 2 0 1 acceptance_test_E64
        acceptance_test_beta64 rounding_test_uniform x =
      exchange_body rounding_test_exp (fun e b => -e * b) false acceptance_test_E64
        acceptance_test_beta64 rounding_test_uniform 0 x := by
    intro x
    unfold alternating_exchange alternating_start
    rw [alternating_exchange_loop, if_pos (by decide), alternating_exchange_loop,
      if_neg (by decide)]
    rfl
  have hfold : ∀ x : exchange_state,
      random_exchange rounding_test_exp (fun e b => -e * b) 2 [0] acceptance_test_E64
        acceptance_test_beta64 rounding_test_uniform x =
      exchange_body rounding_test_exp (fun e b => -e * b) true acceptance_test_E64
        acceptance_test_beta64 rounding_test_uniform 0 x := by
    intro x
    rfl
  rw [hloop, hfold, halt.2.1, halt.2.2, hrnd.2.1, hrnd.2.2, hswap1, hswap2]
  exact ⟨by decide, hpos, rfl, rfl, rfl, rfl⟩

/-! ## The pairs proposed in one interval -/

section proposals

variable {W F : Type} [Zero W] [Zero F] [Add F] [Sub F] [LT F] [∀ a b : F, Decidable (a < b)]

theorem pairwise_alternating_pairs (nrep p : Nat) :
    List.Pairwise (fun a b => a + 2 ≤ b) (alternating_pairs nrep p) := by
  induction p using alternating_pairs.induct nrep with
  | case1 p hp ih =>
    rw [alternating_pairs, if_pos hp, List.pairwise_cons]
    refine ⟨?_, ih⟩
    intro b hb
    have := (mem_alternating_pairs nrep (p + 2) b).mp hb
    omega
  | case2 p hp =>
    rw [alternating_pairs, if_neg hp]
    exact List.Pairwise.nil

/-- Claim C11.  In alternating mode, with `start = (mcs / interval) mod 2`,
the pair indices proposed in one interval are exactly the `q` with
`start ≤ q`, `q + 2 ≤ nrep` (that is `q ≤ nrep - 2`) and `q - start` even;
they are proposed in increasing order, each once, two steps apart, so no
two pairs proposed in the interval share a rung. -/
theorem alternating_proposes_checkerboard (exp : F → F) (log_weight : W → F → F)
    (nrep mcs interval : Nat) (wp : List W) (beta : List F) (uniform_01 : Nat → F)
    (s : exchange_state) :
    (∀ q, q ∈ proposed_between s
          (alternating_exchange exp log_weight nrep mcs interval wp beta uniform_01 s) ↔
        (mcs / interval) % 2 ≤ q ∧ q + 2 ≤ nrep ∧ (q - (mcs / interval) % 2) % 2 = 0) ∧
    List.Pairwise (fun a b => a + 2 ≤ b)
      (proposed_between s
        (alternating_exchange exp log_weight nrep mcs interval wp beta uniform_01 s)) ∧
    (∀ a b,
      a ∈ proposed_between s
          (alternating_exchange exp log_weight nrep mcs interval wp beta uniform_01 s) →
      b ∈ proposed_between s
          (alternating_exchange exp log_weight nrep mcs interval wp beta uniform_01 s) →
      a ≠ b → a ≠ b + 1 ∧ a + 1 ≠ b) := by
  rw [proposed_between_alternating]
  unfold alternating_start
  refine ⟨?_, pairwise_alternating_pairs nrep _, ?_⟩
  · intro q
    rw [mem_alternating_pairs]
    omega
  · intro a b ha hb hab
    have h1 := (mem_alternating_pairs nrep _ a).mp ha
    have h2 := (mem_alternating_pairs nrep _ b).mp hb
    omega

theorem random_exchange_proposed (exp : F → F) (log_weight : W → F → F) (nrep : Nat)
    (permutation : List Nat) (wp : List W) (beta : List F) (uniform_01 : Nat → F)
    (s : exchange_state) (hlen : permutation.length = nrep - 1) :
    proposed_between s
        (random_exchange exp log_weight nrep permutation wp beta uniform_01 s) = permutation := by
  unfold proposed_between
  rw [random_exchange_eq_foldl exp log_weight nrep permutation wp beta uniform_01 s hlen,
    List.map_drop, foldl_body_proposed]
  have hl : s.acceptance_rate.length = (s.acceptance_rate.map Prod.fst).length := by simp
  rw [hl, List.drop_left]

/-- Claim C13.  In random mode, for a permutation `permutation` of the pair
indices `[0, nrep - 2]`, one interval proposes the pairs in the order
`permutation[0], permutation[1], ...`, each of the `nrep - 1` pairs once;
the interval is the state after `nrep - 1` steps, and step `i` applies the
loop body for `permutation[i]` to the state left by the steps before it, so
the occupants are read from the `wid` already modified by those steps. -/
theorem random_proposes_in_permutation_order (exp : F → F) (log_weight : W → F → F)
    (nrep : Nat) (permutation : List Nat) (wp : List W) (beta : List F)
    (uniform_01 : Nat → F) (s : exchange_state)
    (hperm : List.Perm permutation (List.range (nrep - 1))) :
    proposed_between s
        (random_exchange exp log_weight nrep permutation wp beta uniform_01 s) = permutation ∧
    (∀ p, p < nrep - 1 →
      (proposed_between s
        (random_exchange exp log_weight nrep permutation wp beta uniform_01 s)).count p = 1) ∧
    random_exchange exp log_weight nrep permutation wp beta uniform_01 s =
      random_exchange_steps exp log_weight (nrep - 1) permutation wp beta uniform_01 s ∧
    random_exchange_steps exp log_weight 0 permutation wp beta uniform_01 s = s ∧
    (∀ i, i < nrep - 1 →
      random_exchange_steps exp log_weight (i + 1) permutation wp beta uniform_01 s =
        random_exchange_body exp log_weight wp beta uniform_01 (permutation.getD i 0)
          (random_exchange_steps exp log_weight i permutation wp beta uniform_01 s)) := by
  have hlen : permutation.length = nrep - 1 := by
    rw [hperm.length_eq, List.length_range]
  rw [random_exchange_proposed exp log_weight nrep permutation wp beta uniform_01 s hlen]
  refine ⟨rfl, ?_, rfl, rfl, ?_⟩
  · intro p hp
    rw [hperm.count_eq]
    exact List.count_eq_one_of_mem (List.nodup_range _) (List.mem_range.mpr hp)
  · intro i _
    unfold random_exchange_steps
    rw [List.range_succ, List.foldl_append]
    rfl

end proposals

/-! ## Order independence of the alternating exchange -/

section order_independence

variable {W F : Type} [Zero W] [Zero F] [Add F] [Sub F] [LT F] [∀ a b : F, Decidable (a < b)]

theorem random_body_stream_congr (exp : F → F) (log_weight : W → F → F) (wp : List W)
    (beta : List F) (u v : Nat → F) (p : Nat) (s : exchange_state)
    (h : u s.uniform_calls = v s.uniform_calls) :
    random_exchange_body exp log_weight wp beta u p s =
      random_exchange_body exp log_weight wp beta v p s := by
  unfold random_exchange_body
  rw [h]

theorem alternating_loop_bound_step (exp : F → F) (log_weight : W → F → F) (wp : List W)
    (beta : List F) (u : Nat → F) (q0 q : Nat) (t : exchange_state)
    (hq : q ≤ q0) (hpar : (q0 - q) % 2 = 0) :
    alternating_exchange_loop exp log_weight (q0 + 3) wp beta u q t =
      random_exchange_body exp log_weight wp beta u q0
        (alternating_exchange_loop exp log_weight (q0 + 1) wp beta u q t) := by
  induction q using alternating_pairs.induct (q0 + 1) generalizing t with
  | case1 q hlt ih =>
    have h1 : q < q0 + 3 - 1 := by omega
    rw [alternating_exchange_loop, if_pos h1]
    conv => rhs; rw [alternating_exchange_loop, if_pos hlt]
    exact ih _ (by omega) (by omega)
  | case2 q hge =>
    have hq0 : q = q0 := by omega
    subst hq0
    have h1 : q < q + 3 - 1 := by omega
    have h2 : ¬ (q + 2 < q + 3 - 1) := by omega
    rw [alternating_exchange_loop, if_pos h1, alternating_exchange_loop, if_neg h2]
    conv => rhs; rw [alternating_exchange_loop, if_neg hge]
    exact alternating_body_eq_random_body exp log_weight wp beta u q t

/-- In increasing order, giving each pair the draw `alternating_draw` is the
same as reading the stream of draws. -/
theorem foldl_alternating_draw (exp : F → F) (log_weight : W → F → F) (nrep mcs interval : Nat)
    (wp : List W) (beta : List F) (u : Nat → F) (s : exchange_state) (q0 : Nat)
    (hq : alternating_start mcs interval ≤ q0)
    (hpar : (q0 - alternating_start mcs interval) % 2 = 0) :
    (alternating_pairs nrep q0).foldl
        (fun s q => random_exchange_body exp log_weight wp beta u q s)
        (alternating_exchange_loop exp log_weight (q0 + 1) wp beta u
          (alternating_start mcs interval) s) =
      (alternating_pairs nrep q0).foldl
        (fun t q => random_exchange_body exp log_weight wp beta
          (fun _ => alternating_draw exp log_weight mcs interval wp beta u s q) q t)
        (alternating_exchange_loop exp log_weight (q0 + 1) wp beta u
          (alternating_start mcs interval) s) := by
  induction q0 using alternating_pairs.induct nrep with
  | case1 q0 hlt ih =>
    rw [alternating_pairs, if_pos hlt, List.foldl_cons, List.foldl_cons]
    have hd : random_exchange_body exp log_weight wp beta
        (fun _ => alternating_draw exp log_weight mcs interval wp beta u s q0) q0
        (alternating_exchange_loop exp log_weight (q0 + 1) wp beta u
          (alternating_start mcs interval) s) =
        random_exchange_body exp log_weight wp beta u q0
        (alternating_exchange_loop exp log_weight (q0 + 1) wp beta u
          (alternating_start mcs interval) s) :=
      random_body_stream_congr exp log_weight wp beta _ u q0 _ rfl
    rw [hd, ← alternating_loop_bound_step exp log_weight wp beta u q0 _ s hq hpar]
    exact ih (by omega) (by omega)
  | case2 q0 hge =>
    rw [alternating_pairs, if_neg hge, List.foldl_nil, List.foldl_nil]

theorem alternating_exchange_eq_resolve (exp : F → F) (log_weight : W → F → F)
    (nrep mcs interval : Nat) (wp : List W) (beta : List F) (u : Nat → F) (s : exchange_state) :
    alternating_exchange exp log_weight nrep mcs interval wp beta u s =
      resolve_in_order exp log_weight wp beta
        (alternating_draw exp log_weight mcs interval wp beta u s)
        (alternating_pairs nrep (alternating_start mcs interval)) s := by
  have h := foldl_alternating_draw exp log_weight nrep mcs interval wp beta u s
    (alternating_start mcs interval) (Nat.le_refl _) (by simp)
  have h0 : alternating_exchange_loop exp log_weight (alternating_start mcs interval + 1) wp beta u
      (alternating_start mcs interval) s = s := by
    rw [alternating_exchange_loop, if_neg (by omega)]
  rw [h0] at h
  unfold alternating_exchange
  rw [alternating_loop_eq_foldl, h]
  rfl

end order_independence

theorem list_ext_getD (l1 l2 : List Nat) (hl : l1.length = l2.length)
    (h : ∀ k, k < l1.length → l1.getD k 0 = l2.getD k 0) : l1 = l2 := by
  apply List.ext_getElem hl
  intro k h1 h2
  have := h k h1
  rw [List.getD_eq_getElem l1 0 h1, List.getD_eq_getElem l2 0 h2] at this
  exact this

theorem swap_at_getD_of_ne (v : List Nat) (i j k : Nat) (hi : k ≠ i) (hj : k ≠ j) :
    (swap_at v i j).getD k 0 = v.getD k 0 := by
  unfold swap_at
  have h1 : ¬ j = k := fun h => hj h.symm
  have h2 : ¬ i = k := fun h => hi h.symm
  simp [List.getD_eq_getElem?_getD, List.getElem?_set, h1, h2]

theorem swap_at_comm (v : List Nat) (a b c d : Nat)
    (ha : a < v.length) (hb : b < v.length) (hc : c < v.length) (hd : d < v.length)
    (hac : a ≠ c) (had : a ≠ d) (hbc : b ≠ c) (hbd : b ≠ d) :
    swap_at (swap_at v a b) c d = swap_at (swap_at v c d) a b := by
  have hca : c ≠ a := fun h => hac h.symm
  have hcb : c ≠ b := fun h => hbc h.symm
  have hda : d ≠ a := fun h => had h.symm
  have hdb : d ≠ b := fun h => hbd h.symm
  apply list_ext_getD
  · simp only [swap_at_length]
  · intro k _
    have hl : (swap_at (swap_at v a b) c d).getD k 0 =
        if k = d then v.getD c 0 else if k = c then v.getD d 0 else (swap_at v a b).getD k 0 := by
      rw [swap_at_getD (swap_at v a b) c d k (by rw [swap_at_length]; exact hc)
        (by rw [swap_at_length]; exact hd),
        swap_at_getD_of_ne v a b c hca hcb, swap_at_getD_of_ne v a b d hda hdb]
    have hr : (swap_at (swap_at v c d) a b).getD k 0 =
        if k = b then v.getD a 0 else if k = a then v.getD b 0 else (swap_at v c d).getD k 0 := by
      rw [swap_at_getD (swap_at v c d) a b k (by rw [swap_at_length]; exact ha)
        (by rw [swap_at_length]; exact hb),
        swap_at_getD_of_ne v c d a hac had, swap_at_getD_of_ne v c d b hbc hbd]
    rw [hl, hr, swap_at_getD v a b k ha hb, swap_at_getD v c d k hc hd]
    by_cases k1 : k = d
    · subst k1
      simp only [if_pos rfl, if_neg hdb, if_neg hda]
    · by_cases k2 : k = c
      · subst k2
        simp only [if_neg k1, if_pos rfl, if_neg hcb, if_neg hca]
      · simp only [if_neg k1, if_neg k2]

theorem exchange_accepted_congr {W F : Type} [Zero W] [Zero F] [Add F] [Sub F] [LT F]
    (exp : F → F) (log_weight : W → F → F) (wp : List W)
    (beta : List F) (x : F) (p : Nat) (a b : exchange_state)
    (h0 : a.wid.getD p 0 = b.wid.getD p 0) (h1 : a.wid.getD (p + 1) 0 = b.wid.getD (p + 1) 0) :
    exchange_accepted exp log_weight wp beta (fun _ => x) p a ↔
      exchange_accepted exp log_weight wp beta (fun _ => x) p b := by
  unfold exchange_accepted exchange_logp
  rw [h0, h1]

section order_independence_perm

variable {W F : Type} [Zero W] [Zero F] [Add F] [Sub F] [LT F] [∀ a b : F, Decidable (a < b)]

theorem random_body_eq_ite (exp : F → F) (log_weight : W → F → F) (wp : List W)
    (beta : List F) (u : Nat → F) (p : Nat) (s : exchange_state) :
    (random_exchange_body exp log_weight wp beta u p s).tid =
      (if exchange_accepted exp log_weight wp beta u p s then
        swap_at s.tid (s.wid.getD p 0) (s.wid.getD (p + 1) 0) else s.tid) ∧
    (random_exchange_body exp log_weight wp beta u p s).wid =
      (if exchange_accepted exp log_weight wp beta u p s then
        swap_at s.wid p (p + 1) else s.wid) ∧
    (random_exchange_body exp log_weight wp beta u p s).acceptance_rate =
      s.acceptance_rate ++ [(p, decide (exchange_accepted exp log_weight wp beta u p s))] := by
  by_cases ha : exchange_accepted exp log_weight wp beta u p s
  · obtain ⟨h1, h2, h3⟩ := random_body_of_accepted exp log_weight wp beta u p s ha
    rw [h1, h2, h3, if_pos ha, if_pos ha, decide_eq_true ha]
    exact ⟨rfl, rfl, rfl⟩
  · obtain ⟨h1, h2, h3⟩ := random_body_of_not_accepted exp log_weight wp beta u p s ha
    rw [h1, h2, h3, if_neg ha, if_neg ha, decide_eq_false ha]
    exact ⟨rfl, rfl, rfl⟩

theorem same_outcome_refl (a : exchange_state) : same_outcome a a :=
  ⟨rfl, rfl, List.Perm.refl _⟩

theorem same_outcome_trans {a b c : exchange_state} (h1 : same_outcome a b)
    (h2 : same_outcome b c) : same_outcome a c :=
  ⟨h1.1.trans h2.1, h1.2.1.trans h2.2.1, h1.2.2.trans h2.2.2⟩

theorem body_same_outcome (exp : F → F) (log_weight : W → F → F) (wp : List W)
    (beta : List F) (x : F) (p : Nat) (a b : exchange_state) (h : same_outcome a b) :
    same_outcome (random_exchange_body exp log_weight wp beta (fun _ => x) p a)
      (random_exchange_body exp log_weight wp beta (fun _ => x) p b) := by
  obtain ⟨ht, hw, hl⟩ := h
  have hacc := exchange_accepted_congr exp log_weight wp beta x p a b (by rw [hw]) (by rw [hw])
  obtain ⟨a1, a2, a3⟩ := random_body_eq_ite exp log_weight wp beta (fun _ => x) p a
  obtain ⟨b1, b2, b3⟩ := random_body_eq_ite exp log_weight wp beta (fun _ => x) p b
  refine ⟨?_, ?_, ?_⟩
  · rw [a1, b1, ht, hw]
    by_cases hb : exchange_accepted exp log_weight wp beta (fun _ => x) p b
    · rw [if_pos hb, if_pos (hacc.mpr hb)]
    · rw [if_neg hb, if_neg (fun h => hb (hacc.mp h))]
  · rw [a2, b2, hw]
    by_cases hb : exchange_accepted exp log_weight wp beta (fun _ => x) p b
    · rw [if_pos hb, if_pos (hacc.mpr hb)]
    · rw [if_neg hb, if_neg (fun h => hb (hacc.mp h))]
  · rw [a3, b3]
    have hd : decide (exchange_accepted exp log_weight wp beta (fun _ => x) p a) =
        decide (exchange_accepted exp log_weight wp beta (fun _ => x) p b) := by
      by_cases hb : exchange_accepted exp log_weight wp beta (fun _ => x) p b
      · rw [decide_eq_true hb, decide_eq_true (hacc.mpr hb)]
      · rw [decide_eq_false hb, decide_eq_false (fun h => hb (hacc.mp h))]
    rw [hd]
    exact List.Perm.append_right _ hl

theorem foldl_same_outcome (exp : F → F) (log_weight : W → F → F) (wp : List W)
    (beta : List F) (d : Nat → F) (l : List Nat) (a b : exchange_state)
    (h : same_outcome a b) :
    same_outcome
      (l.foldl (fun t p => random_exchange_body exp log_weight wp beta (fun _ => d p) p t) a)
      (l.foldl (fun t p => random_exchange_body exp log_weight wp beta (fun _ => d p) p t) b) := by
  induction l generalizing a b with
  | nil => exact h
  | cons p l ih =>
    rw [List.foldl_cons, List.foldl_cons]
    exact ih _ _ (body_same_outcome exp log_weight wp beta (d p) p a b h)

end order_independence_perm

section order_independence_main

variable {W F : Type} [Zero W] [Zero F] [Add F] [Sub F] [LT F] [∀ a b : F, Decidable (a < b)]

/-- Two pair resolutions on disjoint rungs commute, up to the order of the
two samples written. -/
theorem body_comm (exp : F → F) (log_weight : W → F → F) (wp : List W) (beta : List F)
    (x y : F) (N p q : Nat) (a : exchange_state) (hinv : tables_inverse N a.tid a.wid)
    (hp : p + 1 < N) (hq : q + 1 < N) (hpq : rungs_apart p q) :
    same_outcome
      (random_exchange_body exp log_weight wp beta (fun _ => y) q
        (random_exchange_body exp log_weight wp beta (fun _ => x) p a))
      (random_exchange_body exp log_weight wp beta (fun _ => x) p
        (random_exchange_body exp log_weight wp beta (fun _ => y) q a)) := by
  obtain ⟨ht, hw, h1, _⟩ := hinv
  have hne1 : q ≠ p := by unfold rungs_apart at hpq; omega
  have hne2 : q ≠ p + 1 := by unfold rungs_apart at hpq; omega
  have hne3 : q + 1 ≠ p := by unfold rungs_apart at hpq; omega
  have hne4 : q + 1 ≠ p + 1 := by unfold rungs_apart at hpq; omega
  have hne5 : p ≠ q := fun h => hne1 h.symm
  have hne6 : p ≠ q + 1 := fun h => hne3 h.symm
  have hne7 : p + 1 ≠ q := fun h => hne2 h.symm
  have hne8 : p + 1 ≠ q + 1 := fun h => hne4 h.symm
  obtain ⟨hwp0, htp0⟩ := h1 p (by omega)
  obtain ⟨hwp1, htp1⟩ := h1 (p + 1) hp
  obtain ⟨hwq0, htq0⟩ := h1 q (by omega)
  obtain ⟨hwq1, htq1⟩ := h1 (q + 1) hq
  -- the occupants of the four rungs are four different replicas
  have d1 : a.wid.getD p 0 ≠ a.wid.getD q 0 := by
    intro h; rw [h] at htp0; omega
  have d2 : a.wid.getD p 0 ≠ a.wid.getD (q + 1) 0 := by
    intro h; rw [h] at htp0; omega
  have d3 : a.wid.getD (p + 1) 0 ≠ a.wid.getD q 0 := by
    intro h; rw [h] at htp1; omega
  have d4 : a.wid.getD (p + 1) 0 ≠ a.wid.getD (q + 1) 0 := by
    intro h; rw [h] at htp1; omega
  obtain ⟨p1, p2, p3⟩ := random_body_eq_ite exp log_weight wp beta (fun _ => x) p a
  obtain ⟨q1, q2, q3⟩ := random_body_eq_ite exp log_weight wp beta (fun _ => y) q a
  -- the occupants of one pair are not moved by the resolution of the other
  have wq0 : (random_exchange_body exp log_weight wp beta (fun _ => x) p a).wid.getD q 0 =
      a.wid.getD q 0 := by
    rw [p2]; split
    · exact swap_at_getD_of_ne _ _ _ _ hne1 hne2
    · rfl
  have wq1 : (random_exchange_body exp log_weight wp beta (fun _ => x) p a).wid.getD (q + 1) 0 =
      a.wid.getD (q + 1) 0 := by
    rw [p2]; split
    · exact swap_at_getD_of_ne _ _ _ _ hne3 hne4
    · rfl
  have wp0 : (random_exchange_body exp log_weight wp beta (fun _ => y) q a).wid.getD p 0 =
      a.wid.getD p 0 := by
    rw [q2]; split
    · exact swap_at_getD_of_ne _ _ _ _ hne5 hne6
    · rfl
  have wp1 : (random_exchange_body exp log_weight wp beta (fun _ => y) q a).wid.getD (p + 1) 0 =
      a.wid.getD (p + 1) 0 := by
    rw [q2]; split
    · exact swap_at_getD_of_ne _ _ _ _ hne7 hne8
    · rfl
  have accq := exchange_accepted_congr exp log_weight wp beta y q
    (random_exchange_body exp log_weight wp beta (fun _ => x) p a) a wq0 wq1
  have accp := exchange_accepted_congr exp log_weight wp beta x p
    (random_exchange_body exp log_weight wp beta (fun _ => y) q a) a wp0 wp1
  obtain ⟨l1, l2, l3⟩ := random_body_eq_ite exp log_weight wp beta (fun _ => y) q
    (random_exchange_body exp log_weight wp beta (fun _ => x) p a)
  obtain ⟨r1, r2, r3⟩ := random_body_eq_ite exp log_weight wp beta (fun _ => x) p
    (random_exchange_body exp log_weight wp beta (fun _ => y) q a)
  have dq : decide (exchange_accepted exp log_weight wp beta (fun _ => y) q
      (random_exchange_body exp log_weight wp beta (fun _ => x) p a)) =
      decide (exchange_accepted exp log_weight wp beta (fun _ => y) q a) := by
    by_cases h : exchange_accepted exp log_weight wp beta (fun _ => y) q a
    · rw [decide_eq_true h, decide_eq_true (accq.mpr h)]
    · rw [decide_eq_false h, decide_eq_false (fun h2 => h (accq.mp h2))]
  have dp : decide (exchange_accepted exp log_weight wp beta (fun _ => x) p
      (random_exchange_body exp log_weight wp beta (fun _ => y) q a)) =
      decide (exchange_accepted exp log_weight wp beta (fun _ => x) p a) := by
    by_cases h : exchange_accepted exp log_weight wp beta (fun _ => x) p a
    · rw [decide_eq_true h, decide_eq_true (accp.mpr h)]
    · rw [decide_eq_false h, decide_eq_false (fun h2 => h (accp.mp h2))]
  refine ⟨?_, ?_, ?_⟩
  · rw [l1, r1, wq0, wq1, wp0, wp1, p1, q1]
    by_cases hA : exchange_accepted exp log_weight wp beta (fun _ => x) p a
    · by_cases hB : exchange_accepted exp log_weight wp beta (fun _ => y) q a
      · rw [if_pos (accq.mpr hB), if_pos (accp.mpr hA), if_pos hA, if_pos hB]
        exact swap_at_comm a.tid _ _ _ _ (by omega) (by omega) (by omega) (by omega) d1 d2 d3 d4
      · rw [if_neg (fun h => hB (accq.mp h)), if_pos (accp.mpr hA), if_pos hA, if_neg hB]
    · by_cases hB : exchange_accepted exp log_weight wp beta (fun _ => y) q a
      · rw [if_pos (accq.mpr hB), if_neg (fun h => hA (accp.mp h)), if_neg hA, if_pos hB]
      · rw [if_neg (fun h => hB (accq.mp h)), if_neg (fun h => hA (accp.mp h)), if_neg hA,
          if_neg hB]
  · rw [l2, r2, p2, q2]
    by_cases hA : exchange_accepted exp log_weight wp beta (fun _ => x) p a
    · by_cases hB : exchange_accepted exp log_weight wp beta (fun _ => y) q a
      · rw [if_pos (accq.mpr hB), if_pos (accp.mpr hA), if_pos hA, if_pos hB]
        exact swap_at_comm a.wid _ _ _ _ (by omega) (by omega) (by omega) (by omega)
          hne5 hne6 hne7 hne8
      · rw [if_neg (fun h => hB (accq.mp h)), if_pos (accp.mpr hA), if_pos hA, if_neg hB]
    · by_cases hB : exchange_accepted exp log_weight wp beta (fun _ => y) q a
      · rw [if_pos (accq.mpr hB), if_neg (fun h => hA (accp.mp h)), if_neg hA, if_pos hB]
      · rw [if_neg (fun h => hB (accq.mp h)), if_neg (fun h => hA (accp.mp h)), if_neg hA,
          if_neg hB]
  · rw [l3, r3, p3, q3, dq, dp, List.append_assoc, List.append_assoc]
    exact List.Perm.append_left _ (List.Perm.swap _ _ [])

end order_independence_main

theorem rungs_apart_symm {a b : Nat} (h : rungs_apart a b) : rungs_apart b a := by
  unfold rungs_apart at *
  omega

section order_independence_claim

variable {W F : Type} [Zero W] [Zero F] [Add F] [Sub F] [LT F] [∀ a b : F, Decidable (a < b)]

theorem resolve_perm (exp : F → F) (log_weight : W → F → F) (wp : List W) (beta : List F)
    (d : Nat → F) (N : Nat) {l1 l2 : List Nat} (hperm : List.Perm l1 l2)
    (hr : ∀ x, x ∈ l1 → x + 1 < N) (hpw : List.Pairwise rungs_apart l1)
    (a : exchange_state) (hinv : tables_inverse N a.tid a.wid) :
    same_outcome
      (l1.foldl (fun t p => random_exchange_body exp log_weight wp beta (fun _ => d p) p t) a)
      (l2.foldl (fun t p => random_exchange_body exp log_weight wp beta (fun _ => d p) p t) a) := by
  induction hperm generalizing a with
  | nil => exact same_outcome_refl a
  | cons x _ ih =>
    rw [List.foldl_cons, List.foldl_cons]
    apply ih
    · intro y hy
      exact hr y (List.mem_cons_of_mem x hy)
    · exact (List.pairwise_cons.mp hpw).2
    · exact random_body_tables_inverse exp log_weight wp beta _ N x a hinv
        (hr x (List.mem_cons_self x _))
  | swap x y l =>
    rw [List.foldl_cons, List.foldl_cons, List.foldl_cons, List.foldl_cons]
    apply foldl_same_outcome
    have hyx : rungs_apart y x := (List.pairwise_cons.mp hpw).1 x (List.mem_cons_self x l)
    exact body_comm exp log_weight wp beta (d y) (d x) N y x a hinv
      (hr y (List.mem_cons_self y _))
      (hr x (List.mem_cons_of_mem y (List.mem_cons_self x l))) hyx
  | trans h1 _ ih1 ih2 =>
    have e1 := ih1 hr hpw a hinv
    have e2 := ih2 (fun x hx => hr x (h1.mem_iff.mpr hx))
      ((h1.pairwise_iff (fun h => rungs_apart_symm h)).mp hpw) a hinv
    exact same_outcome_trans e1 e2

theorem foldl_body_log_prefix (exp : F → F) (log_weight : W → F → F) (wp : List W)
    (beta : List F) (d : Nat → F) (l : List Nat) (a : exchange_state) :
    ∃ tail,
      (l.foldl (fun t p => random_exchange_body exp log_weight wp beta (fun _ => d p) p t)
        a).acceptance_rate = a.acceptance_rate ++ tail := by
  induction l generalizing a with
  | nil => exact ⟨[], by simp⟩
  | cons p l ih =>
    rw [List.foldl_cons]
    obtain ⟨tail, ht⟩ := ih (random_exchange_body exp log_weight wp beta (fun _ => d p) p a)
    rw [ht, (random_body_eq_ite exp log_weight wp beta (fun _ => d p) p a).2.2,
      List.append_assoc]
    exact ⟨_, rfl⟩

/-- Claim C12.  In alternating mode, with mutually inverse tables at the
start of the interval, resolve the pairs of the interval in any order
`order` (a reordering of the list of pairs that the code proposes), each
pair being given the uniform draw it receives in the code's increasing
order.  Then the final `tid` and `wid` equal those of the code, and the
samples written, one `(p, accepted)` per pair, are those of the code up to
their order, so every pair has the same accept decision. -/
theorem alternating_order_independent (exp : F → F) (log_weight : W → F → F)
    (nrep mcs interval : Nat) (wp : List W) (beta : List F) (uniform_01 : Nat → F)
    (s : exchange_state) (order : List Nat)
    (hinv : tables_inverse nrep s.tid s.wid)
    (hord : List.Perm order
      (proposed_between s
        (alternating_exchange exp log_weight nrep mcs interval wp beta uniform_01 s))) :
    (resolve_in_order exp log_weight wp beta
        (alternating_draw exp log_weight mcs interval wp beta uniform_01 s) order s).tid =
      (alternating_exchange exp log_weight nrep mcs interval wp beta uniform_01 s).tid ∧
    (resolve_in_order exp log_weight wp beta
        (alternating_draw exp log_weight mcs interval wp beta uniform_01 s) order s).wid =
      (alternating_exchange exp log_weight nrep mcs interval wp beta uniform_01 s).wid ∧
    List.Perm
      ((resolve_in_order exp log_weight wp beta
        (alternating_draw exp log_weight mcs interval wp beta uniform_01 s)
        order s).acceptance_rate.drop s.acceptance_rate.length)
      ((alternating_exchange exp log_weight nrep mcs interval wp beta
        uniform_01 s).acceptance_rate.drop s.acceptance_rate.length) := by
  rw [proposed_between_alternating] at hord
  rw [alternating_exchange_eq_resolve]
  have hr : ∀ x, x ∈ order → x + 1 < nrep := by
    intro x hx
    have := (mem_alternating_pairs nrep _ x).mp (hord.mem_iff.mp hx)
    omega
  have hpw0 : List.Pairwise rungs_apart
      (alternating_pairs nrep (alternating_start mcs interval)) :=
    (pairwise_alternating_pairs nrep _).imp (fun h => Or.inl h)
  have hpw : List.Pairwise rungs_apart order :=
    (hord.pairwise_iff (fun h => rungs_apart_symm h)).mpr hpw0
  obtain ⟨h1, h2, h3⟩ := resolve_perm exp log_weight wp beta
    (alternating_draw exp log_weight mcs interval wp beta uniform_01 s) nrep hord hr hpw s hinv
  obtain ⟨t1, e1⟩ := foldl_body_log_prefix exp log_weight wp beta
    (alternating_draw exp log_weight mcs interval wp beta uniform_01 s) order s
  obtain ⟨t2, e2⟩ := foldl_body_log_prefix exp log_weight wp beta
    (alternating_draw exp log_weight mcs interval wp beta uniform_01 s)
    (alternating_pairs nrep (alternating_start mcs interval)) s
  refine ⟨h1, h2, ?_⟩
  show List.Perm
    ((order.foldl (fun t p => random_exchange_body exp log_weight wp beta
      (fun _ => alternating_draw exp log_weight mcs interval wp beta uniform_01 s p) p t)
      s).acceptance_rate.drop s.acceptance_rate.length)
    (((alternating_pairs nrep (alternating_start mcs interval)).foldl
      (fun t p => random_exchange_body exp log_weight wp beta
      (fun _ => alternating_draw exp log_weight mcs interval wp beta uniform_01 s p) p t)
      s).acceptance_rate.drop s.acceptance_rate.length)
  rw [e1, e2] at h3
  rw [e1, e2, List.drop_left, List.drop_left]
  exact (List.perm_append_left_iff _).mp h3

end order_independence_claim

/-! ## Lemmas on vectors -/

theorem getD_set_self {α : Type} (l : List α) (i : Nat) (a d : α) (h : i < l.length) :
    (l.set i a).getD i d = a := by
  simp [List.getD_eq_getElem?_getD, List.getElem?_set, h]

theorem getD_set_ne {α : Type} (l : List α) (i k : Nat) (a d : α) (h : i ≠ k) :
    (l.set i a).getD k d = l.getD k d := by
  simp [List.getD_eq_getElem?_getD, List.getElem?_set, h]

theorem assign_each_length {α : Type} (n : Nat) (f : Nat → α) (v : List α) :
    (assign_each n f v).length = v.length := by
  unfold assign_each
  induction n with
  | zero => simp
  | succ n ih => rw [List.range_succ, List.foldl_append]; simp [ih]

theorem assign_each_getElem? {α : Type} (n : Nat) (f : Nat → α) (v : List α) (k : Nat) :
    (assign_each n f v)[k]? = if k < n ∧ k < v.length then some (f k) else v[k]? := by
  induction n with
  | zero => simp [assign_each]
  | succ n ih =>
    have hl := assign_each_length n f v
    unfold assign_each at ih hl ⊢
    rw [List.range_succ, List.foldl_append]
    simp only [List.foldl_cons, List.foldl_nil]
    rw [List.getElem?_set, hl]
    by_cases hk : n = k
    · subst hk
      by_cases hv : n < v.length
      · simp [hv]
      · have hle : v.length ≤ n := by omega
        simp [hv]
        exact hle
    · rw [if_neg hk, ih]
      by_cases h1 : k < n ∧ k < v.length
      · rw [if_pos h1, if_pos ⟨by omega, h1.2⟩]
      · rw [if_neg h1, if_neg (by omega)]

theorem assign_each_const_zero {α : Type} [Zero α] (n : Nat) (v : List α) (h : v.length = n) :
    assign_each n (fun _ => (0 : α)) v = List.replicate n 0 := by
  apply List.ext_getElem?
  intro k
  rw [assign_each_getElem?, h]
  by_cases hk : k < n
  · simp [hk]
  · have hle : v.length ≤ k := by omega
    have hle2 : (List.replicate n (0 : α)).length ≤ k := by rw [List.length_replicate]; omega
    rw [if_neg (by omega), List.getElem?_eq_none hle, List.getElem?_eq_none hle2]

theorem unlabeled_count_eq_zero (nrep : Nat) (direc : List walker_direc) :
    unlabeled_count nrep direc = 0 ↔
      ∀ r, r < nrep → direc.getD r walker_direc.unlabeled ≠ walker_direc.unlabeled := by
  unfold unlabeled_count
  rw [List.length_eq_zero, List.filter_eq_nil_iff]
  constructor
  · intro h r hr
    have := h r (List.mem_range.mpr hr)
    simpa using this
  · intro h r hr
    have := h r (List.mem_range.mp hr)
    simpa using this

/-! ## The round-trip bookkeeping and the stage evaluation -/

section coordinator_lemmas

variable {W F S : Type}

theorem round_trip_stage_frame [Zero F] [Add F] [Div F] [LT F] [∀ a b : F, Decidable (a < b)]
    (K : exmc_collaborators W F S) (nrep : Nat) (steps : S)
    (c : coordinator W F) :
    (round_trip_stage_evaluation K nrep steps c).1.direc = c.direc ∧
    (round_trip_stage_evaluation K nrep steps c).1.ex.tid = c.ex.tid ∧
    (round_trip_stage_evaluation K nrep steps c).1.ex.wid = c.ex.wid ∧
    (round_trip_stage_evaluation K nrep steps c).1.inverse_round_trip_time =
      c.inverse_round_trip_time ∧
    (round_trip_stage_evaluation K nrep steps c).1.weight_parameters = c.weight_parameters := by
  unfold round_trip_stage_evaluation
  dsimp only
  split_ifs <;> exact ⟨rfl, rfl, rfl, rfl, rfl⟩

theorem stage_evaluation_frame [Zero W] [Zero F] [Add F] [Div F] [LT F]
    [∀ a b : F, Decidable (a < b)] (K : exmc_collaborators W F S) (nrep : Nat) (steps : S)
    (c : coordinator W F) :
    (stage_evaluation K nrep steps c).1.direc = c.direc ∧
    (stage_evaluation K nrep steps c).1.ex.tid = c.ex.tid ∧
    (stage_evaluation K nrep steps c).1.ex.wid = c.ex.wid ∧
    (stage_evaluation K nrep steps c).1.inverse_round_trip_time = c.inverse_round_trip_time := by
  unfold stage_evaluation
  dsimp only
  split
  · split
    · exact ⟨rfl, rfl, rfl, rfl⟩
    · obtain ⟨h1, h2, h3, h4, _⟩ := round_trip_stage_frame K nrep steps c
      exact ⟨h1, h2, h3, h4⟩
  · exact ⟨rfl, rfl, rfl, rfl⟩

theorem thermalization_check_next (K : exmc_collaborators W F S) (nrep : Nat) (steps : S)
    (c : coordinator W F) (flags : stage_flags) :
    (thermalization_check K nrep steps c flags).next_stage = flags.next_stage ∧
    (flags.continue_stage = true →
      (thermalization_check K nrep steps c flags).continue_stage = true) := by
  unfold thermalization_check
  split
  · split
    · exact ⟨rfl, fun h => h⟩
    · exact ⟨rfl, fun _ => rfl⟩
  · exact ⟨rfl, fun h => h⟩

theorem round_trip_precondition_iff (nrep : Nat) (c : coordinator W F) :
    round_trip_precondition nrep c = true ↔
      (nrep ≤ c.num_returnee ∧
        ∀ r, r < nrep → c.direc.getD r walker_direc.unlabeled ≠ walker_direc.unlabeled) := by
  unfold round_trip_precondition
  rw [← unlabeled_count_eq_zero]
  split
  · constructor
    · intro h; cases h
    · intro h; omega
  · constructor
    · intro h; exact ⟨of_decide_eq_true h, by omega⟩
    · intro h; exact decide_eq_true h.1

end coordinator_lemmas

section bookkeeping_claims

variable {W F S : Type}

/-- Claim C14.  For the state `b` reached when the pairs of an interval are
resolved and `f = wid[0]`: if `direc[f]` is `up`, the bookkeeping increases
`num_returnee` by one and writes the inverse-round-trip-time sample `1/N`;
otherwise `num_returnee` is unchanged and the sample written is `0`.  One
exchange interval on the coordinator writes exactly that one sample. -/
theorem round_trip_counting [Zero W] [Add W] [Zero F] [Add F] [Sub F] [Div F] [LT F]
    [∀ a b : F, Decidable (a < b)] (K : exmc_collaborators W F S) (exp : F → F)
    (log_weight : W → F → F) (nrep : Nat) (inp : coordinator_input W F S)
    (b c : coordinator W F) :
    (b.direc.getD (b.ex.wid.getD 0 0) walker_direc.unlabeled = walker_direc.up →
      (round_trip_bookkeeping nrep b).num_returnee = b.num_returnee + 1 ∧
      (round_trip_bookkeeping nrep b).inverse_round_trip_time =
        b.inverse_round_trip_time ++ [1 / (nrep : ℚ)]) ∧
    (b.direc.getD (b.ex.wid.getD 0 0) walker_direc.unlabeled ≠ walker_direc.up →
      (round_trip_bookkeeping nrep b).num_returnee = b.num_returnee ∧
      (round_trip_bookkeeping nrep b).inverse_round_trip_time =
        b.inverse_round_trip_time ++ [0]) ∧
    (coordinator_interval K exp log_weight nrep inp c).1.inverse_round_trip_time =
      c.inverse_round_trip_time ++
        [if (before_bookkeeping exp log_weight nrep inp.iv c).direc.getD
            ((before_bookkeeping exp log_weight nrep inp.iv c).ex.wid.getD 0 0)
            walker_direc.unlabeled = walker_direc.up
          then 1 / (nrep : ℚ) else 0] := by
  refine ⟨?_, ?_, ?_⟩
  · intro h
    unfold round_trip_bookkeeping
    simp only [if_pos h, and_self]
  · intro h
    unfold round_trip_bookkeeping
    simp only [if_neg h, and_self]
  · unfold coordinator_interval
    rw [(stage_evaluation_frame K nrep inp.steps _).2.2.2]
    rfl

/-- Claim C16.  With mutually inverse tables and one label per replica, let
`f = wid[0]` and `l = wid[N-1]`.  The bookkeeping leaves the label of every
replica other than `f` and `l` unchanged.  When `f` and `l` differ (always
so for `N ≥ 2`), the label of `f` becomes `down`, a label `down` of `l`
becomes `up`, and a label `unlabeled` or `up` of `l` is kept.  When they
coincide (`N = 1`) the label is set to `down` and then flipped to `up`. -/
theorem round_trip_labels (nrep : Nat) (c : coordinator W F)
    (hinv : tables_inverse nrep c.ex.tid c.ex.wid) (hdirec : c.direc.length = nrep)
    (hN : 1 ≤ nrep) :
    (∀ r, r ≠ c.ex.wid.getD 0 0 → r ≠ c.ex.wid.getD (nrep - 1) 0 →
      (round_trip_bookkeeping nrep c).direc.getD r walker_direc.unlabeled =
        c.direc.getD r walker_direc.unlabeled) ∧
    (c.ex.wid.getD 0 0 ≠ c.ex.wid.getD (nrep - 1) 0 →
      (round_trip_bookkeeping nrep c).direc.getD (c.ex.wid.getD 0 0) walker_direc.unlabeled =
        walker_direc.down) ∧
    (c.ex.wid.getD 0 0 ≠ c.ex.wid.getD (nrep - 1) 0 →
      c.direc.getD (c.ex.wid.getD (nrep - 1) 0) walker_direc.unlabeled = walker_direc.down →
      (round_trip_bookkeeping nrep c).direc.getD (c.ex.wid.getD (nrep - 1) 0)
        walker_direc.unlabeled = walker_direc.up) ∧
    (c.ex.wid.getD 0 0 ≠ c.ex.wid.getD (nrep - 1) 0 →
      c.direc.getD (c.ex.wid.getD (nrep - 1) 0) walker_direc.unlabeled ≠ walker_direc.down →
      (round_trip_bookkeeping nrep c).direc.getD (c.ex.wid.getD (nrep - 1) 0)
        walker_direc.unlabeled =
        c.direc.getD (c.ex.wid.getD (nrep - 1) 0) walker_direc.unlabeled) ∧
    (2 ≤ nrep → c.ex.wid.getD 0 0 ≠ c.ex.wid.getD (nrep - 1) 0) ∧
    (c.ex.wid.getD 0 0 = c.ex.wid.getD (nrep - 1) 0 →
      (round_trip_bookkeeping nrep c).direc.getD (c.ex.wid.getD 0 0) walker_direc.unlabeled =
        walker_direc.up) ∧
    (round_trip_bookkeeping nrep c).direc.length = c.direc.length := by
  obtain ⟨_, hw, h1, _⟩ := hinv
  obtain ⟨hf, htf⟩ := h1 0 (by omega)
  obtain ⟨hl, htl⟩ := h1 (nrep - 1) (by omega)
  have hdir : (round_trip_bookkeeping nrep c).direc =
      if (c.direc.set (c.ex.wid.getD 0 0) walker_direc.down).getD
          (c.ex.wid.getD (nrep - 1) 0) walker_direc.unlabeled = walker_direc.down then
        (c.direc.set (c.ex.wid.getD 0 0) walker_direc.down).set (c.ex.wid.getD (nrep - 1) 0)
          walker_direc.up
      else c.direc.set (c.ex.wid.getD 0 0) walker_direc.down := by
    unfold round_trip_bookkeeping
    simp only [hw]
  rw [hdir]
  refine ⟨?_, ?_, ?_, ?_, ?_, ?_, ?_⟩
  · intro r hr0 hr1
    split
    · rw [getD_set_ne _ _ _ _ _ (fun h => hr1 h.symm), getD_set_ne _ _ _ _ _ (fun h => hr0 h.symm)]
    · rw [getD_set_ne _ _ _ _ _ (fun h => hr0 h.symm)]
  · intro hne
    split
    · rw [getD_set_ne _ _ _ _ _ (fun h => hne h.symm),
        getD_set_self _ _ _ _ (by rw [hdirec]; exact hf)]
    · rw [getD_set_self _ _ _ _ (by rw [hdirec]; exact hf)]
  · intro hne hdown
    rw [getD_set_ne _ _ _ _ _ hne, if_pos hdown,
      getD_set_self _ _ _ _ (by rw [List.length_set, hdirec]; exact hl)]
  · intro hne hnd
    rw [getD_set_ne _ _ _ _ _ hne, if_neg hnd, getD_set_ne _ _ _ _ _ hne]
  · intro h2 heq
    rw [heq] at htf
    omega
  · intro heq
    rw [← heq, getD_set_self _ _ _ _ (by rw [hdirec]; exact hf), if_pos rfl,
      getD_set_self _ _ _ _ (by rw [List.length_set, hdirec]; exact hf)]
  · split
    · simp only [List.length_set]
    · simp only [List.length_set]

end bookkeeping_claims

section stage_claims

variable {W F S : Type}

theorem stage_evaluation_round_trip [Zero W] [Zero F] [Add F] [Div F] [LT F]
    [∀ a b : F, Decidable (a < b)] (K : exmc_collaborators W F S) (nrep : Nat) (steps : S)
    (c : coordinator W F)
    (hdo : K.doing_optimization steps = true)
    (hcount : K.stage_count steps = K.stage_sweeps steps)
    (hrt : K.optimization_type_is_rate steps = false) :
    stage_evaluation K nrep steps c =
      ((round_trip_stage_evaluation K nrep steps c).1,
        thermalization_check K nrep steps (round_trip_stage_evaluation K nrep steps c).1
          (round_trip_stage_evaluation K nrep steps c).2) := by
  unfold stage_evaluation
  simp [hdo, hcount, hrt]

theorem stage_evaluation_rate [Zero W] [Zero F] [Add F] [Div F] [LT F]
    [∀ a b : F, Decidable (a < b)] (K : exmc_collaborators W F S) (nrep : Nat) (steps : S)
    (c : coordinator W F)
    (hdo : K.doing_optimization steps = true)
    (hcount : K.stage_count steps = K.stage_sweeps steps)
    (hrate : K.optimization_type_is_rate steps = true) :
    stage_evaluation K nrep steps c =
      ((rate_stage_evaluation K nrep steps c).1,
        thermalization_check K nrep steps (rate_stage_evaluation K nrep steps c).1
          (rate_stage_evaluation K nrep steps c).2) := by
  unfold stage_evaluation
  simp [hdo, hcount, hrate]

/-- The round-trip branch when the optimiser is not called or reports failure. -/
theorem round_trip_stage_of_failure [Zero F] [Add F] [Div F] [LT F]
    [∀ a b : F, Decidable (a < b)] (K : exmc_collaborators W F S) (nrep : Nat) (steps : S)
    (c : coordinator W F)
    (h : round_trip_precondition nrep c = false ∨
      (K.stage steps ≠ 0 ∧ (K.optimize2 c.beta (upward_ratios K nrep c)).1 = false)) :
    (round_trip_stage_evaluation K nrep steps c).2 =
        { continue_stage := true, next_stage := false } ∧
    (round_trip_stage_evaluation K nrep steps c).1.ex = c.ex ∧
    (round_trip_stage_evaluation K nrep steps c).1.num_returnee = c.num_returnee ∧
    (round_trip_stage_evaluation K nrep steps c).1.upward_samples = c.upward_samples ∧
    (round_trip_stage_evaluation K nrep steps c).1.downward_samples = c.downward_samples ∧
    (round_trip_precondition nrep c = false →
      (round_trip_stage_evaluation K nrep steps c).1.optimize2_calls = c.optimize2_calls ∧
      (round_trip_stage_evaluation K nrep steps c).1.beta = c.beta) := by
  unfold round_trip_stage_evaluation
  dsimp only
  rcases h with h | ⟨h1, h2⟩
  · simp [h]
  · by_cases hp : round_trip_precondition nrep c = true
    · simp [hp, h1, h2]
    · have hp2 : round_trip_precondition nrep c = false := by simpa using hp
      simp [hp2]

/-- The round-trip branch signals `next_stage` only under the precondition. -/
theorem round_trip_stage_next [Zero F] [Add F] [Div F] [LT F]
    [∀ a b : F, Decidable (a < b)] (K : exmc_collaborators W F S) (nrep : Nat) (steps : S)
    (c : coordinator W F)
    (h : (round_trip_stage_evaluation K nrep steps c).2.next_stage = true) :
    round_trip_precondition nrep c = true := by
  by_cases hp : round_trip_precondition nrep c = true
  · exact hp
  · have hp2 : round_trip_precondition nrep c = false := by simpa using hp
    rw [(round_trip_stage_of_failure K nrep steps c (Or.inl hp2)).1] at h
    cases h

/-- Claim C17.  In round-trip optimisation mode, at a stage evaluation:
`next_stage` is signalled only if `num_returnee ≥ N` and no replica is
unlabeled; if either condition fails, `optimize2` is not called (no call is
recorded and the ladder is unchanged), `continue_stage` is signalled and
`next_stage` is not. -/
theorem round_trip_stage_precondition [Zero W] [Zero F] [Add F] [Div F] [LT F]
    [∀ a b : F, Decidable (a < b)] (K : exmc_collaborators W F S) (nrep : Nat) (steps : S)
    (c : coordinator W F)
    (hdo : K.doing_optimization steps = true)
    (hcount : K.stage_count steps = K.stage_sweeps steps)
    (hrt : K.optimization_type_is_rate steps = false) :
    ((stage_evaluation K nrep steps c).2.next_stage = true →
      nrep ≤ c.num_returnee ∧
      ∀ r, r < nrep → c.direc.getD r walker_direc.unlabeled ≠ walker_direc.unlabeled) ∧
    (¬ (nrep ≤ c.num_returnee ∧
        ∀ r, r < nrep → c.direc.getD r walker_direc.unlabeled ≠ walker_direc.unlabeled) →
      (stage_evaluation K nrep steps c).1.optimize2_calls = c.optimize2_calls ∧
      (stage_evaluation K nrep steps c).1.beta = c.beta ∧
      (stage_evaluation K nrep steps c).2.continue_stage = true ∧
      (stage_evaluation K nrep steps c).2.next_stage = false) := by
  rw [stage_evaluation_round_trip K nrep steps c hdo hcount hrt]
  constructor
  · intro h
    rw [(thermalization_check_next K nrep steps _ _).1] at h
    exact (round_trip_precondition_iff nrep c).mp (round_trip_stage_next K nrep steps c h)
  · intro h
    have hp : round_trip_precondition nrep c = false := by
      by_cases hp : round_trip_precondition nrep c = true
      · exact absurd ((round_trip_precondition_iff nrep c).mp hp) h
      · simpa using hp
    obtain ⟨e1, _, _, _, _, e6⟩ := round_trip_stage_of_failure K nrep steps c (Or.inl hp)
    obtain ⟨t1, t2⟩ := thermalization_check_next K nrep steps
      (round_trip_stage_evaluation K nrep steps c).1 (round_trip_stage_evaluation K nrep steps c).2
    refine ⟨(e6 hp).1, (e6 hp).2, ?_, ?_⟩
    · exact t2 (by rw [e1])
    · show (thermalization_check K nrep steps _ _).next_stage = false
      rw [t1, e1]

/-- Claim C18.  In round-trip mode, when a stage evaluation fails, because
the precondition (`num_returnee ≥ N` and no unlabeled replica) is unmet or
because `optimize2` is called and reports failure: the weight accumulators,
`num_returnee`, the direction labels, `tid`, `wid` and the samples of the
observables are as before the evaluation, `next_stage` is not signalled,
`continue_stage` is signalled, and of the two members of `mcs_` only
`continue_stage()` is called. -/
theorem round_trip_stage_failure [Zero W] [Zero F] [Add F] [Div F] [LT F]
    [∀ a b : F, Decidable (a < b)] (K : exmc_collaborators W F S) (nrep : Nat) (steps : S)
    (c : coordinator W F)
    (hdo : K.doing_optimization steps = true)
    (hcount : K.stage_count steps = K.stage_sweeps steps)
    (hrt : K.optimization_type_is_rate steps = false)
    (hfail :
      ¬ (nrep ≤ c.num_returnee ∧
        ∀ r, r < nrep → c.direc.getD r walker_direc.unlabeled ≠ walker_direc.unlabeled) ∨
      (K.stage steps ≠ 0 ∧ (K.optimize2 c.beta (upward_ratios K nrep c)).1 = false)) :
    (stage_evaluation K nrep steps c).1.weight_parameters = c.weight_parameters ∧
    (stage_evaluation K nrep steps c).1.num_returnee = c.num_returnee ∧
    (stage_evaluation K nrep steps c).1.direc = c.direc ∧
    (stage_evaluation K nrep steps c).1.ex.tid = c.ex.tid ∧
    (stage_evaluation K nrep steps c).1.ex.wid = c.ex.wid ∧
    (stage_evaluation K nrep steps c).1.ex.acceptance_rate = c.ex.acceptance_rate ∧
    (stage_evaluation K nrep steps c).1.upward_samples = c.upward_samples ∧
    (stage_evaluation K nrep steps c).1.downward_samples = c.downward_samples ∧
    (stage_evaluation K nrep steps c).2.next_stage = false ∧
    (stage_evaluation K nrep steps c).2.continue_stage = true ∧
    broadcast_results K steps (stage_evaluation K nrep steps c).2 = K.continue_stage steps := by
  have hfail2 : round_trip_precondition nrep c = false ∨
      (K.stage steps ≠ 0 ∧ (K.optimize2 c.beta (upward_ratios K nrep c)).1 = false) := by
    rcases hfail with h | h
    · left
      by_cases hp : round_trip_precondition nrep c = true
      · exact absurd ((round_trip_precondition_iff nrep c).mp hp) h
      · simpa using hp
    · exact Or.inr h
  obtain ⟨e1, e2, e3, e4, e5, _⟩ := round_trip_stage_of_failure K nrep steps c hfail2
  obtain ⟨f1, _, _, _, f5⟩ := round_trip_stage_frame K nrep steps c
  obtain ⟨t1, t2⟩ := thermalization_check_next K nrep steps
    (round_trip_stage_evaluation K nrep steps c).1 (round_trip_stage_evaluation K nrep steps c).2
  have hnext : (stage_evaluation K nrep steps c).2.next_stage = false := by
    rw [stage_evaluation_round_trip K nrep steps c hdo hcount hrt]
    show (thermalization_check K nrep steps _ _).next_stage = false
    rw [t1, e1]
  have hcont : (stage_evaluation K nrep steps c).2.continue_stage = true := by
    rw [stage_evaluation_round_trip K nrep steps c hdo hcount hrt]
    exact t2 (by rw [e1])
  have hb : broadcast_results K steps (stage_evaluation K nrep steps c).2 =
      K.continue_stage steps := by
    unfold broadcast_results
    simp [hnext, hcont]
  rw [stage_evaluation_round_trip K nrep steps c hdo hcount hrt] at hnext hcont hb ⊢
  refine ⟨f5, e3, f1, ?_, ?_, ?_, e4, e5, hnext, hcont, hb⟩
  · show (round_trip_stage_evaluation K nrep steps c).1.ex.tid = c.ex.tid
    rw [e2]
  · show (round_trip_stage_evaluation K nrep steps c).1.ex.wid = c.ex.wid
    rw [e2]
  · show (round_trip_stage_evaluation K nrep steps c).1.ex.acceptance_rate = c.ex.acceptance_rate
    rw [e2]

/-- Claim C19.  In rate optimisation mode every stage evaluation signals
`next_stage`, whatever the statistics are, and afterwards the vector of
weight accumulators is `N` copies of the zero weight parameter. -/
theorem rate_stage_always_advances [Zero W] [Zero F] [Add F] [Div F] [LT F]
    [∀ a b : F, Decidable (a < b)] (K : exmc_collaborators W F S) (nrep : Nat) (steps : S)
    (c : coordinator W F)
    (hdo : K.doing_optimization steps = true)
    (hcount : K.stage_count steps = K.stage_sweeps steps)
    (hrate : K.optimization_type_is_rate steps = true)
    (hlen : c.weight_parameters.length = nrep) :
    (stage_evaluation K nrep steps c).2.next_stage = true ∧
    (stage_evaluation K nrep steps c).1.weight_parameters = List.replicate nrep 0 ∧
    (∀ p, p < nrep → (stage_evaluation K nrep steps c).1.weight_parameters.getD p 0 = 0) := by
  rw [stage_evaluation_rate K nrep steps c hdo hcount hrate]
  have hw : (rate_stage_evaluation K nrep steps c).1.weight_parameters = List.replicate nrep 0 :=
    assign_each_const_zero nrep c.weight_parameters hlen
  refine ⟨?_, hw, ?_⟩
  · show (thermalization_check K nrep steps _ _).next_stage = true
    rw [(thermalization_check_next K nrep steps _ _).1]
    rfl
  · intro p hp
    show (rate_stage_evaluation K nrep steps c).1.weight_parameters.getD p 0 = 0
    rw [hw]
    simp [List.getD_eq_getElem?_getD, hp]

end stage_claims

/-! ## Round trips and the history of `wid_` -/

theorem most_recent_at_rung0 (history : List (List Nat)) (r : Nat)
    (h : ∃ x, x ∈ history ∧ x.getD 0 0 = r) :
    ∃ since earlier : List (List Nat), ∃ at0 : List Nat,
      history = since ++ at0 :: earlier ∧ at0.getD 0 0 = r ∧
      (∀ w, w ∈ since → w.getD 0 0 ≠ r) := by
  induction history with
  | nil =>
    obtain ⟨x, hx, _⟩ := h
    cases hx
  | cons w rest ih =>
    by_cases hw : w.getD 0 0 = r
    · exact ⟨[], rest, w, rfl, hw, fun _ hx => by cases hx⟩
    · obtain ⟨x, hx, hxr⟩ := h
      have hx2 : x ∈ rest := by
        rcases List.mem_cons.mp hx with h1 | h1
        · rw [h1] at hxr
          exact absurd hxr hw
        · exact h1
      obtain ⟨since, earlier, at0, e1, e2, e3⟩ := ih ⟨x, hx2, hxr⟩
      refine ⟨w :: since, earlier, at0, by rw [e1]; rfl, e2, ?_⟩
      intro y hy
      rcases List.mem_cons.mp hy with h1 | h1
      · rw [h1]; exact hw
      · exact e3 y h1

theorem round_trip_completed_cons (N : Nat) (w : List Nat) (history : List (List Nat))
    (r : Nat) :
    round_trip_completed N (w :: history) r ↔
      w.getD 0 0 ≠ r ∧
        ((w.getD (N - 1) 0 = r ∧ ∃ x, x ∈ history ∧ x.getD 0 0 = r) ∨
          round_trip_completed N history r) := by
  constructor
  · rintro ⟨since, earlier, at0, e1, e2, e3, x, hx, hxr⟩
    cases since with
    | nil => cases hx
    | cons y since =>
      rw [List.cons_append] at e1
      injection e1 with e1a e1b
      subst e1a
      refine ⟨e3 w (List.mem_cons_self _ _), ?_⟩
      rcases List.mem_cons.mp hx with h1 | h1
      · left
        rw [h1] at hxr
        refine ⟨hxr, at0, ?_, e2⟩
        rw [e1b]
        simp
      · right
        exact ⟨since, earlier, at0, e1b, e2,
          fun z hz => e3 z (List.mem_cons_of_mem _ hz), x, h1, hxr⟩
  · rintro ⟨hw, h | h⟩
    · obtain ⟨hl, hx⟩ := h
      obtain ⟨since, earlier, at0, e1, e2, e3⟩ := most_recent_at_rung0 history r hx
      refine ⟨w :: since, earlier, at0, by rw [e1]; rfl, e2, ?_, w, List.mem_cons_self _ _, hl⟩
      intro y hy
      rcases List.mem_cons.mp hy with h1 | h1
      · rw [h1]; exact hw
      · exact e3 y h1
    · obtain ⟨since, earlier, at0, e1, e2, e3, x, hx, hxr⟩ := h
      refine ⟨w :: since, earlier, at0, by rw [e1]; rfl, e2, ?_, x,
        List.mem_cons_of_mem _ hx, hxr⟩
      intro y hy
      rcases List.mem_cons.mp hy with h1 | h1
      · rw [h1]; exact hw
      · exact e3 y h1

theorem round_trip_completed_imp_visited (N : Nat) (history : List (List Nat)) (r : Nat)
    (h : round_trip_completed N history r) : ∃ x, x ∈ history ∧ x.getD 0 0 = r := by
  obtain ⟨since, earlier, at0, e1, e2, _⟩ := h
  refine ⟨at0, ?_, e2⟩
  rw [e1]
  simp

/-- One bookkeeping step keeps the labels in agreement with the history. -/
theorem labels_follow_history_step (N : Nat) (history : List (List Nat))
    (direc direc2 : List walker_direc) (w : List Nat)
    (hinv : labels_follow_history N history direc)
    (hne : w.getD 0 0 ≠ w.getD (N - 1) 0)
    (h1 : ∀ r, r ≠ w.getD 0 0 → r ≠ w.getD (N - 1) 0 →
      direc2.getD r walker_direc.unlabeled = direc.getD r walker_direc.unlabeled)
    (h2 : direc2.getD (w.getD 0 0) walker_direc.unlabeled = walker_direc.down)
    (h3 : direc.getD (w.getD (N - 1) 0) walker_direc.unlabeled = walker_direc.down →
      direc2.getD (w.getD (N - 1) 0) walker_direc.unlabeled = walker_direc.up)
    (h4 : direc.getD (w.getD (N - 1) 0) walker_direc.unlabeled ≠ walker_direc.down →
      direc2.getD (w.getD (N - 1) 0) walker_direc.unlabeled =
        direc.getD (w.getD (N - 1) 0) walker_direc.unlabeled) :
    labels_follow_history N (w :: history) direc2 := by
  intro r hr
  obtain ⟨iu, iun⟩ := hinv r hr
  rw [round_trip_completed_cons]
  by_cases hrf : r = w.getD 0 0
  · subst hrf
    rw [h2]
    constructor
    · constructor
      · intro h; cases h
      · intro h; exact absurd rfl h.1
    · constructor
      · intro h; cases h
      · intro h; exact absurd rfl (h w (List.mem_cons_self _ _))
  · by_cases hrl : r = w.getD (N - 1) 0
    · subst hrl
      have hwf : w.getD 0 0 ≠ w.getD (N - 1) 0 := hne
      by_cases hd : direc.getD (w.getD (N - 1) 0) walker_direc.unlabeled = walker_direc.down
      · rw [h3 hd]
        have hvis : ∃ x, x ∈ history ∧ x.getD 0 0 = w.getD (N - 1) 0 := by
          by_contra hc
          have : direc.getD (w.getD (N - 1) 0) walker_direc.unlabeled = walker_direc.unlabeled :=
            iun.mpr (fun x hx hxr => hc ⟨x, hx, hxr⟩)
          rw [this] at hd
          cases hd
        constructor
        · constructor
          · intro _; exact ⟨hwf, Or.inl ⟨rfl, hvis⟩⟩
          · intro _; rfl
        · constructor
          · intro h; cases h
          · intro h
            obtain ⟨x, hx, hxr⟩ := hvis
            exact absurd hxr (h x (List.mem_cons_of_mem _ hx))
      · rw [h4 hd]
        constructor
        · constructor
          · intro h; exact ⟨hwf, Or.inr (iu.mp h)⟩
          · rintro ⟨_, h | h⟩
            · obtain ⟨_, x, hx, hxr⟩ := h
              have hnu : direc.getD (w.getD (N - 1) 0) walker_direc.unlabeled ≠
                  walker_direc.unlabeled := fun hc => iun.mp hc x hx hxr
              cases hcase : direc.getD (w.getD (N - 1) 0) walker_direc.unlabeled with
              | up => rfl
              | down => exact absurd hcase hd
              | unlabeled => exact absurd hcase hnu
            · exact iu.mpr h
        · constructor
          · intro h x hx
            rcases List.mem_cons.mp hx with e | e
            · rw [e]; exact hwf
            · exact iun.mp h x e
          · intro h
            exact iun.mpr (fun x hx => h x (List.mem_cons_of_mem _ hx))
    · rw [h1 r hrf hrl]
      constructor
      · constructor
        · intro h; exact ⟨fun e => hrf e.symm, Or.inr (iu.mp h)⟩
        · rintro ⟨_, h | h⟩
          · exact absurd h.1.symm hrl
          · exact iu.mpr h
      · constructor
        · intro h x hx
          rcases List.mem_cons.mp hx with e | e
          · rw [e]; exact fun e2 => hrf e2.symm
          · exact iun.mp h x e
        · intro h
          exact iun.mpr (fun x hx => h x (List.mem_cons_of_mem _ hx))

section round_trip_history

variable {W F S : Type}

theorem bookkeeping_labels_frame (nrep : Nat) (c : coordinator W F)
    (hinv : tables_inverse nrep c.ex.tid c.ex.wid) (hdirec : c.direc.length = nrep)
    (hN : 2 ≤ nrep) :
    c.ex.wid.getD 0 0 ≠ c.ex.wid.getD (nrep - 1) 0 ∧
    (∀ r, r ≠ c.ex.wid.getD 0 0 → r ≠ c.ex.wid.getD (nrep - 1) 0 →
      (round_trip_bookkeeping nrep c).direc.getD r walker_direc.unlabeled =
        c.direc.getD r walker_direc.unlabeled) ∧
    (round_trip_bookkeeping nrep c).direc.getD (c.ex.wid.getD 0 0) walker_direc.unlabeled =
        walker_direc.down ∧
    (c.direc.getD (c.ex.wid.getD (nrep - 1) 0) walker_direc.unlabeled = walker_direc.down →
      (round_trip_bookkeeping nrep c).direc.getD (c.ex.wid.getD (nrep - 1) 0)
        walker_direc.unlabeled = walker_direc.up) ∧
    (c.direc.getD (c.ex.wid.getD (nrep - 1) 0) walker_direc.unlabeled ≠ walker_direc.down →
      (round_trip_bookkeeping nrep c).direc.getD (c.ex.wid.getD (nrep - 1) 0)
        walker_direc.unlabeled =
        c.direc.getD (c.ex.wid.getD (nrep - 1) 0) walker_direc.unlabeled) ∧
    (round_trip_bookkeeping nrep c).direc.length = nrep := by
  obtain ⟨_, hw, h1, _⟩ := hinv
  obtain ⟨hf, htf⟩ := h1 0 (by omega)
  obtain ⟨hl, htl⟩ := h1 (nrep - 1) (by omega)
  have hne : c.ex.wid.getD 0 0 ≠ c.ex.wid.getD (nrep - 1) 0 := by
    intro heq
    rw [heq] at htf
    omega
  have hdir : (round_trip_bookkeeping nrep c).direc =
      if (c.direc.set (c.ex.wid.getD 0 0) walker_direc.down).getD
          (c.ex.wid.getD (nrep - 1) 0) walker_direc.unlabeled = walker_direc.down then
        (c.direc.set (c.ex.wid.getD 0 0) walker_direc.down).set (c.ex.wid.getD (nrep - 1) 0)
          walker_direc.up
      else c.direc.set (c.ex.wid.getD 0 0) walker_direc.down := by
    unfold round_trip_bookkeeping
    simp only [hw]
  rw [hdir, getD_set_ne _ _ _ _ _ hne]
  refine ⟨hne, ?_, ?_, ?_, ?_, ?_⟩
  · intro r hr0 hr1
    split
    · rw [getD_set_ne _ _ _ _ _ (fun h => hr1 h.symm), getD_set_ne _ _ _ _ _ (fun h => hr0 h.symm)]
    · rw [getD_set_ne _ _ _ _ _ (fun h => hr0 h.symm)]
  · split
    · rw [getD_set_ne _ _ _ _ _ (fun h => hne h.symm),
        getD_set_self _ _ _ _ (by rw [hdirec]; exact hf)]
    · rw [getD_set_self _ _ _ _ (by rw [hdirec]; exact hf)]
  · intro hdown
    rw [if_pos hdown, getD_set_self _ _ _ _ (by rw [List.length_set, hdirec]; exact hl)]
  · intro hnd
    rw [if_neg hnd, getD_set_ne _ _ _ _ _ hne]
  · split
    · simp only [List.length_set, hdirec]
    · simp only [List.length_set, hdirec]

theorem coordinator_interval_invariant [Zero W] [Add W] [Zero F] [Add F] [Sub F] [Div F]
    [LT F] [∀ a b : F, Decidable (a < b)] (K : exmc_collaborators W F S) (exp : F → F)
    (log_weight : W → F → F) (nrep : Nat) (inp : coordinator_input W F S)
    (c : coordinator W F) (history : List (List Nat)) (hN : 2 ≤ nrep)
    (hinv : tables_inverse nrep c.ex.tid c.ex.wid) (hdirec : c.direc.length = nrep)
    (hlab : labels_follow_history nrep history c.direc)
    (hperm : inp.iv.is_random = true →
      List.Perm inp.iv.permutation (List.range (nrep - 1))) :
    tables_inverse nrep (coordinator_interval K exp log_weight nrep inp c).1.ex.tid
      (coordinator_interval K exp log_weight nrep inp c).1.ex.wid ∧
    (coordinator_interval K exp log_weight nrep inp c).1.direc.length = nrep ∧
    labels_follow_history nrep
      ((coordinator_interval K exp log_weight nrep inp c).1.ex.wid :: history)
      (coordinator_interval K exp log_weight nrep inp c).1.direc := by
  have hb : tables_inverse nrep (before_bookkeeping exp log_weight nrep inp.iv c).ex.tid
      (before_bookkeeping exp log_weight nrep inp.iv c).ex.wid :=
    exchange_block_tables_inverse exp log_weight nrep _ c.ex hinv hperm
  have hbd : (before_bookkeeping exp log_weight nrep inp.iv c).direc = c.direc := rfl
  obtain ⟨f1, f2, f3, _⟩ := stage_evaluation_frame K nrep inp.steps
    (round_trip_bookkeeping nrep (before_bookkeeping exp log_weight nrep inp.iv c))
  obtain ⟨g0, g1, g2, g3, g4, g5⟩ := bookkeeping_labels_frame nrep
    (before_bookkeeping exp log_weight nrep inp.iv c) hb (by rw [hbd]; exact hdirec) hN
  unfold coordinator_interval
  rw [f1, f2, f3]
  refine ⟨hb, g5, ?_⟩
  rw [hbd] at g1 g3 g4
  exact labels_follow_history_step nrep history c.direc _ _ hlab g0 g1 g2 g3 g4

theorem run_with_history_invariant [Zero W] [Add W] [Zero F] [Add F] [Sub F] [Div F]
    [LT F] [∀ a b : F, Decidable (a < b)] (K : exmc_collaborators W F S) (exp : F → F)
    (log_weight : W → F → F) (nrep : Nat) (hN : 2 ≤ nrep)
    (inps : List (coordinator_input W F S))
    (st : coordinator W F × List (List Nat))
    (hinv : tables_inverse nrep st.1.ex.tid st.1.ex.wid) (hdirec : st.1.direc.length = nrep)
    (hlab : labels_follow_history nrep st.2 st.1.direc)
    (hperm : ∀ i, i ∈ inps → i.iv.is_random = true →
      List.Perm i.iv.permutation (List.range (nrep - 1))) :
    tables_inverse nrep
      (inps.foldl (fun st inp =>
        ((coordinator_interval K exp log_weight nrep inp st.1).1,
          (coordinator_interval K exp log_weight nrep inp st.1).1.ex.wid :: st.2)) st).1.ex.tid
      (inps.foldl (fun st inp =>
        ((coordinator_interval K exp log_weight nrep inp st.1).1,
          (coordinator_interval K exp log_weight nrep inp st.1).1.ex.wid :: st.2)) st).1.ex.wid ∧
    (inps.foldl (fun st inp =>
        ((coordinator_interval K exp log_weight nrep inp st.1).1,
          (coordinator_interval K exp log_weight nrep inp st.1).1.ex.wid :: st.2))
        st).1.direc.length = nrep ∧
    labels_follow_history nrep
      (inps.foldl (fun st inp =>
        ((coordinator_interval K exp log_weight nrep inp st.1).1,
          (coordinator_interval K exp log_weight nrep inp st.1).1.ex.wid :: st.2)) st).2
      (inps.foldl (fun st inp =>
        ((coordinator_interval K exp log_weight nrep inp st.1).1,
          (coordinator_interval K exp log_weight nrep inp st.1).1.ex.wid :: st.2)) st).1.direc := by
  induction inps generalizing st with
  | nil => exact ⟨hinv, hdirec, hlab⟩
  | cons inp inps ih =>
    rw [List.foldl_cons]
    obtain ⟨a1, a2, a3⟩ := coordinator_interval_invariant K exp log_weight nrep inp st.1 st.2 hN
      hinv hdirec hlab (hperm inp (List.mem_cons_self _ _))
    exact ih _ a1 a2 a3 (fun i hi => hperm i (List.mem_cons_of_mem _ hi))

theorem construct_ok_direc [Zero W] (nrep size : Nat) (w : parallel_exchange_worker W)
    (hw : construct W nrep size 0 true = Except.ok w) :
    w.direc = (List.range nrep).map
      (fun p => if p = 0 then walker_direc.down else walker_direc.unlabeled) := by
  unfold construct at hw
  by_cases h0 : (calc_nrep nrep size 0).1 = 0
  · simp [h0] at hw
  · simp only [h0, if_false, if_true, Except.ok.injEq] at hw
    rw [← hw]
    simp

theorem initial_labels_follow_history (nrep : Nat) (hN : 1 ≤ nrep) :
    labels_follow_history nrep [List.range nrep]
      ((List.range nrep).map
        (fun p => if p = 0 then walker_direc.down else walker_direc.unlabeled)) := by
  intro r hr
  have hd : ((List.range nrep).map
      (fun p => if p = 0 then walker_direc.down else walker_direc.unlabeled)).getD r
        walker_direc.unlabeled = if r = 0 then walker_direc.down else walker_direc.unlabeled := by
    simp [List.getD_eq_getElem?_getD, List.getElem?_range hr]
  have h0 : (List.range nrep).getD 0 0 = 0 := by
    have hpos : 0 < nrep := hN
    simp [List.getD_eq_getElem?_getD, List.getElem?_range hpos]
  rw [hd]
  constructor
  · constructor
    · intro h
      split at h <;> cases h
    · rintro ⟨since, earlier, at0, e1, _, _, x, hx, _⟩
      cases since with
      | nil => cases hx
      | cons y since =>
        rw [List.cons_append] at e1
        injection e1 with _ e1b
        cases since <;> cases e1b
  · constructor
    · intro h x hx
      rw [List.mem_singleton.mp hx, h0]
      intro e
      rw [← e] at h
      simp at h
    · intro h
      have := h (List.range nrep) (List.mem_singleton.mpr rfl)
      rw [h0] at this
      rw [if_neg (fun e => this e.symm)]

end round_trip_history

section round_trip_claim

variable {W F S : Type}

/-- Claim C15.  For `N ≥ 2`, run any sequence `inps` of exchange intervals
from the constructor's state on the coordinator, then one more interval
`inp`, and let `r` be the replica at rung `0` when the pairs of `inp` are
resolved.  The bookkeeping of `inp` increments `num_returnee` if and only
if `r` has completed a round trip: at the end of an earlier interval (or at
construction) `r` was at rung `0`, and since the most recent such time it
was at rung `N - 1` at the end of some interval.  Otherwise `num_returnee`
is left unchanged. -/
theorem round_trip_counted_once [Zero W] [Add W] [Zero F] [Add F] [Sub F] [Div F]
    [LT F] [∀ a b : F, Decidable (a < b)] (K : exmc_collaborators W F S) (exp : F → F)
    (log_weight : W → F → F) (nrep size : Nat) (w : parallel_exchange_worker W)
    (beta : List F) (inps : List (coordinator_input W F S)) (inp : coordinator_input W F S)
    (hN : 2 ≤ nrep) (hw : construct W nrep size 0 true = Except.ok w)
    (hperm : ∀ i, i ∈ inps ++ [inp] → i.iv.is_random = true →
      List.Perm i.iv.permutation (List.range (nrep - 1))) :
    ((round_trip_bookkeeping nrep
        (before_bookkeeping exp log_weight nrep inp.iv
          (run_with_history K exp log_weight nrep inps
            (initial_coordinator w beta)).1)).num_returnee =
        (before_bookkeeping exp log_weight nrep inp.iv
          (run_with_history K exp log_weight nrep inps
            (initial_coordinator w beta)).1).num_returnee + 1 ↔
      round_trip_completed nrep
        (run_with_history K exp log_weight nrep inps (initial_coordinator w beta)).2
        ((before_bookkeeping exp log_weight nrep inp.iv
          (run_with_history K exp log_weight nrep inps
            (initial_coordinator w beta)).1).ex.wid.getD 0 0)) ∧
    (¬ round_trip_completed nrep
        (run_with_history K exp log_weight nrep inps (initial_coordinator w beta)).2
        ((before_bookkeeping exp log_weight nrep inp.iv
          (run_with_history K exp log_weight nrep inps
            (initial_coordinator w beta)).1).ex.wid.getD 0 0) →
      (round_trip_bookkeeping nrep
        (before_bookkeeping exp log_weight nrep inp.iv
          (run_with_history K exp log_weight nrep inps
            (initial_coordinator w beta)).1)).num_returnee =
        (before_bookkeeping exp log_weight nrep inp.iv
          (run_with_history K exp log_weight nrep inps
            (initial_coordinator w beta)).1).num_returnee) := by
  obtain ⟨t1, t2⟩ := construct_ok_tables nrep size true w hw
  have hd := construct_ok_direc nrep size w hw
  have i1 : tables_inverse nrep (initial_coordinator w beta).ex.tid
      (initial_coordinator w beta).ex.wid := by
    show tables_inverse nrep w.tid w.wid
    rw [t1, t2]
    exact tables_inverse_range nrep
  have i2 : (initial_coordinator w beta).direc.length = nrep := by
    show w.direc.length = nrep
    rw [hd]
    simp
  have i3 : labels_follow_history nrep [(initial_coordinator w beta).ex.wid]
      (initial_coordinator w beta).direc := by
    show labels_follow_history nrep [w.wid] w.direc
    rw [t2, hd]
    exact initial_labels_follow_history nrep (by omega)
  have hrun : tables_inverse nrep
        (run_with_history K exp log_weight nrep inps (initial_coordinator w beta)).1.ex.tid
        (run_with_history K exp log_weight nrep inps (initial_coordinator w beta)).1.ex.wid ∧
      (run_with_history K exp log_weight nrep inps
        (initial_coordinator w beta)).1.direc.length = nrep ∧
      labels_follow_history nrep
        (run_with_history K exp log_weight nrep inps (initial_coordinator w beta)).2
        (run_with_history K exp log_weight nrep inps (initial_coordinator w beta)).1.direc :=
    run_with_history_invariant K exp log_weight nrep hN inps
      (initial_coordinator w beta, [(initial_coordinator w beta).ex.wid]) i1 i2 i3
      (fun i hi => hperm i (List.mem_append_left _ hi))
  generalize run_with_history K exp log_weight nrep inps (initial_coordinator w beta) = st
    at hrun ⊢
  obtain ⟨a1, _, a3⟩ := hrun
  have hb : tables_inverse nrep
      (before_bookkeeping exp log_weight nrep inp.iv st.1).ex.tid
      (before_bookkeeping exp log_weight nrep inp.iv st.1).ex.wid :=
    exchange_block_tables_inverse exp log_weight nrep _ _ a1
      (hperm inp (List.mem_append_right _ (List.mem_singleton.mpr rfl)))
  have hbd : (before_bookkeeping exp log_weight nrep inp.iv st.1).direc = st.1.direc := rfl
  generalize before_bookkeeping exp log_weight nrep inp.iv st.1 = b at hb hbd ⊢
  have hf := (hb.2.2.1 0 (by omega)).1
  have hlab := (a3 _ hf).1
  rw [← hbd] at hlab
  have hnum : (round_trip_bookkeeping nrep b).num_returnee =
      if b.direc.getD (b.ex.wid.getD 0 0) walker_direc.unlabeled = walker_direc.up then
        b.num_returnee + 1 else b.num_returnee := rfl
  rw [hnum]
  constructor
  · constructor
    · intro h
      apply hlab.mp
      by_contra hc
      rw [if_neg hc] at h
      omega
    · intro h
      rw [if_pos (hlab.mpr h)]
  · intro h
    rw [if_neg (fun hc => h (hlab.mp hc))]

end round_trip_claim

/-! ## The checkpoint -/

section checkpoint

variable {W F S K D : Type}

theorem load_walkers_saved (walker_save : K → D) (walker_load : K → D → K)
    (saved : List K) (current : List K) (rest : List (dump_item W F S D))
    (h : current.length = saved.length) :
    ∃ ks, load_walkers walker_load saved.length current
      (saved.map (fun k => dump_item.walker (walker_save k)) ++ rest) = some ks := by
  induction saved generalizing current with
  | nil => exact ⟨current, rfl⟩
  | cons k saved ih =>
    cases current with
    | nil => simp at h
    | cons c current =>
      obtain ⟨ks, hks⟩ := ih current (by simpa using h)
      refine ⟨walker_load c (walker_save k) :: ks, ?_⟩
      show Option.map (fun r => walker_load c (walker_save k) :: r)
        (load_walkers walker_load saved.length current
          (saved.map (fun k => dump_item.walker (walker_save k)) ++ rest)) = _
      rw [hks]
      rfl

/-- Claim C20.  Let `saved` be the members of a worker on some process and
`loader` those of a worker on the same process (same rank, same number of
local replicas, one walker per local replica).  Loading the record that
`save` wrote succeeds and restores the ladder values, the stage state and
`tid_local`, and on the coordinator also `tid`, `wid`, the direction labels,
`num_returnee` and the weight accumulators, to the saved values; so `tid`
and `wid` are mutually inverse after the load whenever they were so when
saved.  Neither `save` nor `load` depends on the exchange mode. -/
theorem checkpoint_round_trip (walker_save : K → D) (walker_load : K → D → K)
    (saved loader : worker_image W F S K)
    (hrank : loader.rank = saved.rank) (hn : loader.w.nrep_local = saved.w.nrep_local)
    (hk1 : saved.walkers.length = saved.w.nrep_local)
    (hk2 : loader.walkers.length = loader.w.nrep_local) :
    ∃ r : worker_image W F S K,
      load walker_load loader (save walker_save saved) = some r ∧
      r.beta = saved.beta ∧ r.mcs = saved.mcs ∧ r.w.tid_local = saved.w.tid_local ∧
      (saved.rank = 0 →
        r.w.tid = saved.w.tid ∧ r.w.wid = saved.w.wid ∧ r.w.direc = saved.w.direc ∧
        r.w.num_returnee = saved.w.num_returnee ∧
        r.w.weight_parameters = saved.w.weight_parameters) ∧
      (saved.rank = 0 → ∀ N, tables_inverse N saved.w.tid saved.w.wid →
        tables_inverse N r.w.tid r.w.wid) := by
  have htake : saved.walkers.take saved.w.nrep_local = saved.walkers := by
    rw [← hk1]
    exact List.take_length _
  have hlen : loader.walkers.length = saved.walkers.length := by
    rw [hk2, hn, hk1]
  have hcount : loader.w.nrep_local = saved.walkers.length := by
    rw [hn, hk1]
  obtain ⟨ks, hks⟩ := load_walkers_saved walker_save walker_load saved.walkers
    loader.walkers ([] : List (dump_item W F S D)) hlen
  rw [List.append_nil] at hks
  by_cases h0 : saved.rank = 0
  · have hl0 : loader.rank = 0 := by rw [hrank, h0]
    refine ⟨{ loader with
        beta := saved.beta
        mcs := saved.mcs
        walkers := ks
        w := { loader.w with
          tid_local := saved.w.tid_local
          tid := saved.w.tid
          wid := saved.w.wid
          direc := saved.w.direc
          num_returnee := saved.w.num_returnee
          weight_parameters := saved.w.weight_parameters } },
      ?_, rfl, rfl, rfl, fun _ => ⟨rfl, rfl, rfl, rfl, rfl⟩, fun _ N hN => hN⟩
    unfold save load
    simp only [h0, if_true, hl0, htake, hcount, List.cons_append, List.nil_append, hks,
      Option.map_some']
  · have hl0 : ¬ loader.rank = 0 := by rw [hrank]; exact h0
    refine ⟨{ loader with
        beta := saved.beta
        mcs := saved.mcs
        walkers := ks
        w := { loader.w with tid_local := saved.w.tid_local } },
      ?_, rfl, rfl, rfl, fun h => absurd h h0, fun h => absurd h h0⟩
    unfold save load
    simp only [h0, if_false, hl0, htake, hcount, List.cons_append, List.nil_append,
      List.append_nil, hks, Option.map_some']

end checkpoint

/-! ## Worked instances of the interval, bookkeeping, stage and checkpoint theorems -/

theorem example_order_perm :
    List.Perm [2, 0]
      (proposed_between example_state5
        (alternating_exchange example_exp example_log_weight 5 0 1 example_wp5 example_beta5
          example_uniform example_state5)) := by
  rw [proposed_between_alternating]
  have h : alternating_pairs 5 (alternating_start 0 1) = [0, 2] := by
    simp [alternating_pairs, alternating_start]
  rw [h]
  decide

theorem alternating_order_independent_witness :
    tables_inverse 5 example_state5.tid example_state5.wid ∧
    List.Perm [2, 0]
      (proposed_between example_state5
        (alternating_exchange example_exp example_log_weight 5 0 1 example_wp5 example_beta5
          example_uniform example_state5)) ∧
    (resolve_in_order example_exp example_log_weight example_wp5 example_beta5
        (alternating_draw example_exp example_log_weight 0 1 example_wp5 example_beta5
          example_uniform example_state5) [2, 0] example_state5).tid =
      (alternating_exchange example_exp example_log_weight 5 0 1 example_wp5 example_beta5
        example_uniform example_state5).tid ∧
    (resolve_in_order example_exp example_log_weight example_wp5 example_beta5
        (alternating_draw example_exp example_log_weight 0 1 example_wp5 example_beta5
          example_uniform example_state5) [2, 0] example_state5).wid =
      (alternating_exchange example_exp example_log_weight 5 0 1 example_wp5 example_beta5
        example_uniform example_state5).wid :=
  have h1 : tables_inverse 5 example_state5.tid example_state5.wid := tables_inverse_range 5
  have h := alternating_order_independent example_exp example_log_weight 5 0 1 example_wp5
    example_beta5 example_uniform example_state5 [2, 0] h1 example_order_perm
  ⟨h1, example_order_perm, h.1, h.2.1⟩

theorem random_proposes_in_permutation_order_witness :
    List.Perm [1, 0] (List.range (3 - 1)) ∧
    proposed_between (initial_exchange_state example_worker)
        (random_exchange example_exp example_log_weight 3 [1, 0] example_wp example_beta
          example_uniform (initial_exchange_state example_worker)) = [1, 0] ∧
    (∀ p, p < 3 - 1 →
      (proposed_between (initial_exchange_state example_worker)
        (random_exchange example_exp example_log_weight 3 [1, 0] example_wp example_beta
          example_uniform (initial_exchange_state example_worker))).count p = 1) :=
  have hp : List.Perm [1, 0] (List.range (3 - 1)) := by decide
  have h := random_proposes_in_permutation_order example_exp example_log_weight 3 [1, 0]
    example_wp example_beta example_uniform (initial_exchange_state example_worker) hp
  ⟨hp, h.1, h.2.1⟩

theorem example_round_trip_perm :
    ∀ i, i ∈ example_round_trip ++ [example_return] → i.iv.is_random = true →
      List.Perm i.iv.permutation (List.range (3 - 1)) := by
  intro i hi _
  simp only [example_round_trip, example_return, List.cons_append, List.nil_append,
    List.mem_cons, List.mem_singleton, List.not_mem_nil, or_false] at hi
  rcases hi with rfl | rfl | rfl | rfl <;> decide

/-- On a ladder of three rungs replica `0` is driven from rung `0` to rung
`2` and back; the interval that brings it back to rung `0` increments the
counter. -/
theorem round_trip_counted_once_witness :
    2 ≤ 3 ∧ construct Int 3 1 0 true = Except.ok example_worker ∧
    (run_with_history example_collaborators example_exp example_log_weight 3 example_round_trip
      (initial_coordinator example_worker example_beta)).2 =
      [[1, 0, 2], [1, 2, 0], [1, 0, 2], [0, 1, 2]] ∧
    (before_bookkeeping example_exp example_log_weight 3 example_return.iv
      (run_with_history example_collaborators example_exp example_log_weight 3 example_round_trip
        (initial_coordinator example_worker example_beta)).1).ex.wid = [0, 1, 2] ∧
    (round_trip_bookkeeping 3
      (before_bookkeeping example_exp example_log_weight 3 example_return.iv
        (run_with_history example_collaborators example_exp example_log_weight 3
          example_round_trip (initial_coordinator example_worker example_beta)).1)).num_returnee =
      (before_bookkeeping example_exp example_log_weight 3 example_return.iv
        (run_with_history example_collaborators example_exp example_log_weight 3
          example_round_trip (initial_coordinator example_worker example_beta)).1).num_returnee
        + 1 :=
  have hH : (run_with_history example_collaborators example_exp example_log_weight 3
      example_round_trip (initial_coordinator example_worker example_beta)).2 =
      [[1, 0, 2], [1, 2, 0], [1, 0, 2], [0, 1, 2]] := by decide
  have hf : (before_bookkeeping example_exp example_log_weight 3 example_return.iv
      (run_with_history example_collaborators example_exp example_log_weight 3 example_round_trip
        (initial_coordinator example_worker example_beta)).1).ex.wid = [0, 1, 2] := by decide
  have hc : round_trip_completed 3
      (run_with_history example_collaborators example_exp example_log_weight 3 example_round_trip
        (initial_coordinator example_worker example_beta)).2
      ((before_bookkeeping example_exp example_log_weight 3 example_return.iv
        (run_with_history example_collaborators example_exp example_log_weight 3
          example_round_trip (initial_coordinator example_worker example_beta)).1).ex.wid.getD
        0 0) := by
    rw [hH, hf]
    exact ⟨[[1, 0, 2], [1, 2, 0], [1, 0, 2]], [], [0, 1, 2], rfl, rfl, by decide,
      [1, 2, 0], by decide, rfl⟩
  ⟨by decide, rfl, hH, hf,
    (round_trip_counted_once example_collaborators example_exp example_log_weight 3 1
      example_worker example_beta example_round_trip example_return (by decide) rfl
      example_round_trip_perm).1.mpr hc⟩

theorem round_trip_labels_witness :
    tables_inverse 3 example_coordinator.ex.tid example_coordinator.ex.wid ∧
    example_coordinator.direc.length = 3 ∧ 1 ≤ 3 ∧
    (∀ r, r ≠ example_coordinator.ex.wid.getD 0 0 →
      r ≠ example_coordinator.ex.wid.getD (3 - 1) 0 →
      (round_trip_bookkeeping 3 example_coordinator).direc.getD r walker_direc.unlabeled =
        example_coordinator.direc.getD r walker_direc.unlabeled) ∧
    (round_trip_bookkeeping 3 example_coordinator).direc.length =
      example_coordinator.direc.length :=
  have h1 : tables_inverse 3 example_coordinator.ex.tid example_coordinator.ex.wid :=
    tables_inverse_range 3
  have h := round_trip_labels 3 example_coordinator h1 rfl (by decide)
  ⟨h1, rfl, by decide, h.1, h.2.2.2.2.2.2⟩

theorem example_precondition_unmet :
    ¬ (3 ≤ example_coordinator.num_returnee ∧
      ∀ r, r < 3 →
        example_coordinator.direc.getD r walker_direc.unlabeled ≠ walker_direc.unlabeled) := by
  decide

theorem round_trip_stage_precondition_witness :
    example_collaborators.doing_optimization 2 = true ∧
    example_collaborators.stage_count 2 = example_collaborators.stage_sweeps 2 ∧
    example_collaborators.optimization_type_is_rate 2 = false ∧
    (stage_evaluation example_collaborators 3 2 example_coordinator).1.optimize2_calls =
      example_coordinator.optimize2_calls ∧
    (stage_evaluation example_collaborators 3 2 example_coordinator).2.continue_stage = true ∧
    (stage_evaluation example_collaborators 3 2 example_coordinator).2.next_stage = false :=
  have h := (round_trip_stage_precondition example_collaborators 3 2 example_coordinator
    rfl rfl rfl).2 example_precondition_unmet
  ⟨rfl, rfl, rfl, h.1, h.2.2.1, h.2.2.2⟩

theorem round_trip_stage_failure_witness :
    example_collaborators.doing_optimization 2 = true ∧
    example_collaborators.stage_count 2 = example_collaborators.stage_sweeps 2 ∧
    example_collaborators.optimization_type_is_rate 2 = false ∧
    (stage_evaluation example_collaborators 3 2 example_coordinator).1.weight_parameters =
      example_coordinator.weight_parameters ∧
    (stage_evaluation example_collaborators 3 2 example_coordinator).1.num_returnee =
      example_coordinator.num_returnee ∧
    (stage_evaluation example_collaborators 3 2 example_coordinator).1.direc =
      example_coordinator.direc ∧
    broadcast_results example_collaborators 2
      (stage_evaluation example_collaborators 3 2 example_coordinator).2 =
      example_collaborators.continue_stage 2 :=
  have h := round_trip_stage_failure example_collaborators 3 2 example_coordinator
    rfl rfl rfl (Or.inl example_precondition_unmet)
  ⟨rfl, rfl, rfl, h.1, h.2.1, h.2.2.1, h.2.2.2.2.2.2.2.2.2.2⟩

theorem rate_stage_always_advances_witness :
    example_collaborators.doing_optimization 1 = true ∧
    example_collaborators.stage_count 1 = example_collaborators.stage_sweeps 1 ∧
    example_collaborators.optimization_type_is_rate 1 = true ∧
    example_coordinator.weight_parameters.length = 3 ∧
    (stage_evaluation example_collaborators 3 1 example_coordinator).2.next_stage = true ∧
    (stage_evaluation example_collaborators 3 1 example_coordinator).1.weight_parameters =
      List.replicate 3 0 :=
  have h := rate_stage_always_advances example_collaborators 3 1 example_coordinator
    rfl rfl rfl rfl
  ⟨rfl, rfl, rfl, rfl, h.1, h.2.1⟩

theorem checkpoint_round_trip_witness :
    example_loader.rank = example_saved.rank ∧
    example_loader.w.nrep_local = example_saved.w.nrep_local ∧
    example_saved.walkers.length = example_saved.w.nrep_local ∧
    example_loader.walkers.length = example_loader.w.nrep_local ∧
    ∃ r : worker_image Int Int Nat Nat,
      load (fun _ d => d) example_loader (save (fun k => k) example_saved) = some r ∧
      r.beta = example_saved.beta ∧ r.mcs = example_saved.mcs ∧
      r.w.tid_local = example_saved.w.tid_local ∧
      (example_saved.rank = 0 →
        r.w.tid = example_saved.w.tid ∧ r.w.wid = example_saved.w.wid ∧
        r.w.direc = example_saved.w.direc ∧
        r.w.num_returnee = example_saved.w.num_returnee ∧
        r.w.weight_parameters = example_saved.w.weight_parameters) ∧
      (example_saved.rank = 0 → ∀ N, tables_inverse N example_saved.w.tid example_saved.w.wid →
        tables_inverse N r.w.tid r.w.wid) :=
  ⟨rfl, rfl, rfl, rfl,
    checkpoint_round_trip (fun k => k) (fun _ d => d) example_saved example_loader
      rfl rfl rfl rfl⟩

/-! ## One replica per process -/

/-- Claim C28.  For `P ≥ 1` processes and `R ≥ P` replicas every process
`p < P` receives at least one replica from `calc_nrep`, so the constructor
does not raise the configuration error on any process: it returns a worker. -/
theorem construct_succeeds (W : Type) [Zero W] (P R p : Nat) (exchange : Bool)
    (hP : 1 ≤ P) (hR : P ≤ R) (_hp : p < P) :
    1 ≤ (calc_nrep R P p).1 ∧
    construct W R P p exchange ≠ Except.error too_few_replicas ∧
    ∃ w, construct W R P p exchange = Except.ok w := by
  have hc : 1 ≤ (calc_nrep R P p).1 := count_pos R P p hP hR
  have hne : ¬ (calc_nrep R P p).1 = 0 := by omega
  refine ⟨hc, ?_, ?_⟩
  · rw [Ne, construct_error_iff]
    exact hne
  · unfold construct
    simp only [hne, if_false]
    exact ⟨_, rfl⟩

theorem construct_succeeds_witness :
    (1 ≤ 3 ∧ 3 ≤ 8 ∧ 2 < 3) ∧
    (1 ≤ (calc_nrep 8 3 2).1 ∧
    construct Int 8 3 2 true ≠ Except.error too_few_replicas ∧
    ∃ w, construct Int 8 3 2 true = Except.ok w) :=
  ⟨by decide, construct_succeeds Int 3 8 2 true (by decide) (by decide) (by decide)⟩

/-! ## The aggregate step -/

section aggregate_claim

variable {W F : Type}

theorem aggregate_prefix [Zero W] [Add W] (N : Nat) (tid wid : List Nat) (wp acc : List W)
    (hinv : tables_inverse N tid wid) (hacc : acc.length = N) (k : Nat) (hk : k ≤ N) :
    ((List.range k).foldl
        (fun acc w => acc.set (tid.getD w 0) (acc.getD (tid.getD w 0) 0 + wp.getD w 0))
        acc).length = N ∧
    ∀ p, p < N →
      ((List.range k).foldl
        (fun acc w => acc.set (tid.getD w 0) (acc.getD (tid.getD w 0) 0 + wp.getD w 0))
        acc).getD p 0 =
      if wid.getD p 0 < k then acc.getD p 0 + wp.getD (wid.getD p 0) 0 else acc.getD p 0 := by
  obtain ⟨_, _, h1, h2⟩ := hinv
  induction k with
  | zero =>
    refine ⟨hacc, ?_⟩
    intro p _
    simp
  | succ k ih =>
    obtain ⟨il, iv⟩ := ih (by omega)
    obtain ⟨htk, hwk⟩ := h2 k (by omega)
    rw [List.range_succ, List.foldl_append]
    simp only [List.foldl_cons, List.foldl_nil]
    refine ⟨by rw [List.length_set]; exact il, ?_⟩
    intro p hp
    obtain ⟨hwp, htp⟩ := h1 p hp
    by_cases hpk : tid.getD k 0 = p
    · have hwid : wid.getD p 0 = k := by rw [← hpk]; exact hwk
      rw [hpk, getD_set_self _ _ _ _ (by rw [il]; exact hp), iv p hp, hwid,
        if_neg (Nat.lt_irrefl k), if_pos (Nat.lt_succ_self k)]
    · have hwid : wid.getD p 0 ≠ k := by
        intro h
        rw [h] at htp
        exact hpk htp
      rw [getD_set_ne _ _ _ _ _ hpk, iv p hp]
      by_cases hlt : wid.getD p 0 < k
      · rw [if_pos hlt, if_pos (by omega)]
      · rw [if_neg hlt, if_neg (by omega)]

theorem one_replica_per_rung (N : Nat) (tid wid : List Nat) (hinv : tables_inverse N tid wid)
    (p : Nat) (hp : p < N) :
    (List.range N).filter (fun w => decide (tid.getD w 0 = p)) = [wid.getD p 0] := by
  obtain ⟨_, _, h1, h2⟩ := hinv
  obtain ⟨hwp, htp⟩ := h1 p hp
  have hiff : ∀ w, w ∈ List.range N → (decide (tid.getD w 0 = p) = decide (w = wid.getD p 0)) := by
    intro w hw
    have hwN := List.mem_range.mp hw
    by_cases h : w = wid.getD p 0
    · rw [h, htp]
      simp
    · have : tid.getD w 0 ≠ p := by
        intro h3
        apply h
        rw [← h3]
        exact ((h2 w hwN).2).symm
      rw [decide_eq_false this, decide_eq_false h]
  rw [List.filter_congr hiff]
  have hnd : (List.range N).Nodup := List.nodup_range N
  have hmem : wid.getD p 0 ∈ List.range N := List.mem_range.mpr hwp
  have hcount : ((List.range N).filter (fun w => decide (w = wid.getD p 0))).length = 1 := by
    have := List.count_eq_one_of_mem hnd hmem
    rw [List.count_eq_countP, List.countP_eq_length_filter] at this
    simpa [eq_comm] using this
  match hf : (List.range N).filter (fun w => decide (w = wid.getD p 0)), hcount with
  | [x], _ =>
    have hx : x ∈ (List.range N).filter (fun w => decide (w = wid.getD p 0)) := by
      rw [hf]
      exact List.mem_singleton.mpr rfl
    have := of_decide_eq_true (List.mem_filter.mp hx).2
    rw [this]

/-- Claim C22.  With `tid` and `wid` mutually inverse and one accumulator per
rung, the aggregate step of lines 175-178 leaves on every rung `p < N` the
old accumulator plus `wp[wid[p]]`, the weight parameter gathered from the
replica at rung `p`: exactly one replica, `wid[p]`, contributes to rung `p`.
In an exchange interval the step uses the tables as they are before any
pair is resolved. -/
theorem aggregate_adds_occupant [Zero W] [Add W] [Zero F] [Add F] [Sub F] [LT F]
    [∀ a b : F, Decidable (a < b)] (exp : F → F) (log_weight : W → F → F) (N : Nat)
    (iv : exchange_interval W F) (c : coordinator W F)
    (hinv : tables_inverse N c.ex.tid c.ex.wid) (hacc : c.weight_parameters.length = N) :
    (∀ p, p < N →
      (aggregate N c.ex.tid iv.wp c.weight_parameters).getD p 0 =
        c.weight_parameters.getD p 0 + iv.wp.getD (c.ex.wid.getD p 0) 0) ∧
    (aggregate N c.ex.tid iv.wp c.weight_parameters).length = N ∧
    (∀ p, p < N →
      (List.range N).filter (fun w => decide (c.ex.tid.getD w 0 = p)) = [c.ex.wid.getD p 0]) ∧
    (before_bookkeeping exp log_weight N iv c).weight_parameters =
      aggregate N c.ex.tid iv.wp c.weight_parameters := by
  obtain ⟨hl, hv⟩ := aggregate_prefix N c.ex.tid c.ex.wid iv.wp c.weight_parameters hinv hacc N
    (Nat.le_refl N)
  refine ⟨?_, hl, fun p hp => one_replica_per_rung N c.ex.tid c.ex.wid hinv p hp, rfl⟩
  intro p hp
  have hw := (hinv.2.2.1 p hp).1
  unfold aggregate
  rw [hv p hp, if_pos hw]

end aggregate_claim

/-! ## The uniform draw and `std::exp` are used only when needed -/

section lazy_draw

variable {W F : Type}

theorem random_body_positive [Zero W] [Zero F] [Add F] [Sub F] [LT F]
    [∀ a b : F, Decidable (a < b)] (exp exp2 : F → F) (log_weight : W → F → F) (wp : List W)
    (beta : List F) (u u2 : Nat → F) (p : Nat) (s : exchange_state)
    (h : 0 < exchange_logp log_weight wp beta s.wid p) :
    (random_exchange_body exp log_weight wp beta u p s).uniform_calls = s.uniform_calls ∧
    random_exchange_body exp2 log_weight wp beta u2 p s =
      random_exchange_body exp log_weight wp beta u p s := by
  unfold exchange_logp at h
  unfold random_exchange_body
  simp only [if_pos h, and_self]

theorem random_body_not_positive [Zero W] [Zero F] [Add F] [Sub F] [LT F]
    [∀ a b : F, Decidable (a < b)] (exp exp2 : F → F) (log_weight : W → F → F) (wp : List W)
    (beta : List F) (u u2 : Nat → F) (p : Nat) (s : exchange_state)
    (h : ¬ 0 < exchange_logp log_weight wp beta s.wid p) :
    (random_exchange_body exp log_weight wp beta u p s).uniform_calls = s.uniform_calls + 1 ∧
    (exp2 (exchange_logp log_weight wp beta s.wid p) =
        exp (exchange_logp log_weight wp beta s.wid p) →
      u2 s.uniform_calls = u s.uniform_calls →
      random_exchange_body exp2 log_weight wp beta u2 p s =
        random_exchange_body exp log_weight wp beta u p s) := by
  unfold exchange_logp at h ⊢
  unfold random_exchange_body
  simp only [if_neg h]
  constructor
  · split <;> rfl
  · intro h1 h2
    rw [h1, h2]

/-- Claim C23, evaluated in `double` for a pair whose `logp` is NaN (the
energy of replica `0` is NaN): `logp <= 0` is false and `logp > 0` is false,
and the loop body of either mode consumes a uniform draw: the test
`uniform_01() < std::exp(logp)` is evaluated. -/
theorem nan_logp_consumes_draw :
    exchange_logp energy_log_weight nan_test_E acceptance_test_beta64
      acceptance_test_state.wid 0 = binary64.nan ∧
    ¬ (exchange_logp energy_log_weight nan_test_E acceptance_test_beta64
      acceptance_test_state.wid 0 ≤ 0) ∧
    ¬ (0 < exchange_logp energy_log_weight nan_test_E acceptance_test_beta64
      acceptance_test_state.wid 0) ∧
    acceptance_test_state.uniform_calls = 0 ∧
    (exchange_body rounding_test_exp energy_log_weight true nan_test_E acceptance_test_beta64
      rounding_test_uniform 0 acceptance_test_state).uniform_calls = 1 ∧
    (exchange_body rounding_test_exp energy_log_weight false nan_test_E acceptance_test_beta64
      rounding_test_uniform 0 acceptance_test_state).uniform_calls = 1 := by
  refine ⟨by decide, by decide, by decide, rfl, by decide, by decide⟩

/-- Claim C23, as the code has it.  In both modes, for a pair with `logp > 0`
the exchange is accepted, no uniform draw is consumed and the outcome is the
same whatever `exp` and the stream of draws are: neither is evaluated.
Whenever `logp > 0` is false (for a `double`: `logp <= 0` or `logp` is NaN)
exactly one draw is consumed, and the outcome depends on `exp` and on the
stream only through `exp(logp)` and that one draw. -/
theorem draw_and_exp_only_when_needed [Zero W] [Zero F] [Add F] [Sub F] [LT F]
    [∀ a b : F, Decidable (a < b)] (exp : F → F) (log_weight : W → F → F) (is_random : Bool) (wp : List W) (beta : List F)
    (uniform_01 : Nat → F) (p : Nat) (s : exchange_state) :
    (0 < exchange_logp log_weight wp beta s.wid p →
      (exchange_body exp log_weight is_random wp beta uniform_01 p s).uniform_calls =
        s.uniform_calls ∧
      (exchange_body exp log_weight is_random wp beta uniform_01 p s).acceptance_rate =
        s.acceptance_rate ++ [(p, true)] ∧
      ∀ (exp2 : F → F) (u2 : Nat → F),
        exchange_body exp2 log_weight is_random wp beta u2 p s =
          exchange_body exp log_weight is_random wp beta uniform_01 p s) ∧
    (¬ 0 < exchange_logp log_weight wp beta s.wid p →
      (exchange_body exp log_weight is_random wp beta uniform_01 p s).uniform_calls =
        s.uniform_calls + 1 ∧
      ∀ (exp2 : F → F) (u2 : Nat → F),
        exp2 (exchange_logp log_weight wp beta s.wid p) =
          exp (exchange_logp log_weight wp beta s.wid p) →
        u2 s.uniform_calls = uniform_01 s.uniform_calls →
        exchange_body exp2 log_weight is_random wp beta u2 p s =
          exchange_body exp log_weight is_random wp beta uniform_01 p s) := by
  constructor
  · intro h
    have ha : exchange_accepted exp log_weight wp beta uniform_01 p s := Or.inl h
    refine ⟨?_, ?_, ?_⟩
    · rw [exchange_body_eq]
      exact (random_body_positive exp exp log_weight wp beta uniform_01 uniform_01 p s h).1
    · rw [exchange_body_eq]
      exact (random_body_of_accepted exp log_weight wp beta uniform_01 p s ha).2.2
    · intro exp2 u2
      rw [exchange_body_eq, exchange_body_eq]
      exact (random_body_positive exp exp2 log_weight wp beta uniform_01 u2 p s h).2
  · intro hn
    refine ⟨?_, ?_⟩
    · rw [exchange_body_eq]
      exact (random_body_not_positive exp exp log_weight wp beta uniform_01 uniform_01 p s hn).1
    · intro exp2 u2 h1 h2
      rw [exchange_body_eq, exchange_body_eq]
      exact (random_body_not_positive exp exp2 log_weight wp beta uniform_01 u2 p s hn).2 h1 h2

end lazy_draw

/-! ## `load` does not validate the record -/

section load_unchecked

variable {W F S K D : Type}

theorem load_walkers_prefix (walker_save : K → D) (walker_load : K → D → K) (n : Nat)
    (saved : List K) (current : List K) (rest : List (dump_item W F S D))
    (h1 : n ≤ current.length) (h2 : n ≤ saved.length) :
    ∃ ks, load_walkers walker_load n current
      (saved.map (fun k => dump_item.walker (walker_save k)) ++ rest) = some ks := by
  induction n generalizing saved current with
  | zero => exact ⟨current, by cases current <;> rfl⟩
  | succ n ih =>
    cases current with
    | nil => simp at h1
    | cons c current =>
      cases saved with
      | nil => simp at h2
      | cons k saved =>
        obtain ⟨ks, hks⟩ := ih saved current (by simpa using h1) (by simpa using h2)
        refine ⟨walker_load c (walker_save k) :: ks, ?_⟩
        show Option.map (fun r => walker_load c (walker_save k) :: r)
          (load_walkers walker_load n current
            (saved.map (fun k => dump_item.walker (walker_save k)) ++ rest)) = _
        rw [hks]
        rfl

/-- Claim C21, refuted as stated.  A coordinator configured for three
replicas, with three local replicas, loads a record written for four
replicas: `load` succeeds and installs a ladder of four values and a local
slice and a `tid` of four entries. -/
theorem load_accepts_mismatched_record :
    example_loader3.beta.length = 3 ∧ example_loader3.w.nrep_local = 3 ∧
    (load (fun _ d => d) example_loader3 (save (fun k => k) example_saved4)).map
        (fun r => (r.beta, r.w.tid_local, r.w.tid)) =
      some ([4, 3, 2, 1], [0, 1, 2, 3], [0, 1, 2, 3]) := by
  refine ⟨rfl, rfl, ?_⟩
  rfl

/-- Claim C21, amended.  `load` makes no comparison with the configuration:
on a process of the same rank, whenever the record holds at least as many
walker payloads as the loading process has local replicas, `load` succeeds
and installs the stored ladder, stage state and `tid_local`, and on the
coordinator the stored `tid`, `wid`, labels, `num_returnee` and
accumulators, whatever their sizes. -/
theorem load_installs_unchecked (walker_save : K → D) (walker_load : K → D → K)
    (saved loader : worker_image W F S K)
    (hrank : loader.rank = saved.rank)
    (hk : loader.w.nrep_local ≤ loader.walkers.length)
    (hrec : loader.w.nrep_local ≤ (saved.walkers.take saved.w.nrep_local).length) :
    ∃ r : worker_image W F S K,
      load walker_load loader (save walker_save saved) = some r ∧
      r.beta = saved.beta ∧ r.mcs = saved.mcs ∧ r.w.tid_local = saved.w.tid_local ∧
      (saved.rank = 0 →
        r.w.tid = saved.w.tid ∧ r.w.wid = saved.w.wid ∧ r.w.direc = saved.w.direc ∧
        r.w.num_returnee = saved.w.num_returnee ∧
        r.w.weight_parameters = saved.w.weight_parameters) := by
  obtain ⟨ks, hks⟩ := load_walkers_prefix walker_save walker_load loader.w.nrep_local
    (saved.walkers.take saved.w.nrep_local) loader.walkers
    ([] : List (dump_item W F S D)) hk hrec
  rw [List.append_nil] at hks
  by_cases h0 : saved.rank = 0
  · have hl0 : loader.rank = 0 := by rw [hrank, h0]
    refine ⟨{ loader with
        beta := saved.beta
        mcs := saved.mcs
        walkers := ks
        w := { loader.w with
          tid_local := saved.w.tid_local
          tid := saved.w.tid
          wid := saved.w.wid
          direc := saved.w.direc
          num_returnee := saved.w.num_returnee
          weight_parameters := saved.w.weight_parameters } },
      ?_, rfl, rfl, rfl, fun _ => ⟨rfl, rfl, rfl, rfl, rfl⟩⟩
    unfold save load
    simp only [h0, if_true, hl0, List.cons_append, List.nil_append, hks, Option.map_some']
  · have hl0 : ¬ loader.rank = 0 := by rw [hrank]; exact h0
    refine ⟨{ loader with
        beta := saved.beta
        mcs := saved.mcs
        walkers := ks
        w := { loader.w with tid_local := saved.w.tid_local } },
      ?_, rfl, rfl, rfl, fun h => absurd h h0⟩
    unfold save load
    simp only [h0, if_false, hl0, List.cons_append, List.nil_append, List.append_nil, hks,
      Option.map_some']

theorem load_installs_unchecked_witness :
    example_loader3.rank = example_saved4.rank ∧
    example_loader3.w.nrep_local ≤ example_loader3.walkers.length ∧
    example_loader3.w.nrep_local ≤
      (example_saved4.walkers.take example_saved4.w.nrep_local).length ∧
    ∃ r : worker_image Int Int Nat Nat,
      load (fun _ d => d) example_loader3 (save (fun k => k) example_saved4) = some r ∧
      r.beta = example_saved4.beta ∧ r.mcs = example_saved4.mcs ∧
      r.w.tid_local = example_saved4.w.tid_local ∧
      (example_saved4.rank = 0 →
        r.w.tid = example_saved4.w.tid ∧ r.w.wid = example_saved4.w.wid ∧
        r.w.direc = example_saved4.w.direc ∧
        r.w.num_returnee = example_saved4.w.num_returnee ∧
        r.w.weight_parameters = example_saved4.w.weight_parameters) :=
  ⟨rfl, by decide, by decide,
    load_installs_unchecked (fun k => k) (fun _ d => d) example_saved4 example_loader3
      rfl (by decide) (by decide)⟩

end load_unchecked

/-! ## The local slices of the assignment -/

theorem construct_ok_fields (W : Type) [Zero W] (R P p : Nat) (exchange : Bool)
    (w : parallel_exchange_worker W) (hw : construct W R P p exchange = Except.ok w) :
    w.tid_local = (List.range (calc_nrep R P p).1).map (fun i => i + (calc_nrep R P p).2) ∧
    (p = 0 →
      w.nreps = (List.range P).map (fun q => (calc_nrep R P q).1) ∧
      w.offsets = (List.range P).map (fun q => (calc_nrep R P q).2) ∧
      w.tid = List.range R) := by
  unfold construct at hw
  by_cases h0 : (calc_nrep R P p).1 = 0
  · simp [h0] at hw
  · simp only [h0, if_false, Except.ok.injEq] at hw
    rw [← hw]
    refine ⟨rfl, ?_⟩
    intro hp
    simp only [hp, if_true]
    exact ⟨trivial, trivial, trivial⟩

theorem construct_ok_exists (W : Type) [Zero W] (R P p : Nat) (exchange : Bool)
    (hP : 1 ≤ P) (hR : P ≤ R) : ∃ w, construct W R P p exchange = Except.ok w := by
  have hc : 1 ≤ count R P p := count_pos R P p hP hR
  have hne : ¬ (calc_nrep R P p).1 = 0 := by
    show ¬ count R P p = 0
    omega
  unfold construct
  simp only [hne, if_false]
  exact ⟨_, rfl⟩

theorem getD_map_range (f : Nat → Nat) (n p : Nat) (hp : p < n) :
    ((List.range n).map f).getD p 0 = f p := by
  simp [List.getD_eq_getElem?_getD, List.getElem?_range hp]

theorem getD_range (n p : Nat) (hp : p < n) : (List.range n).getD p 0 = p := by
  simp [List.getD_eq_getElem?_getD, List.getElem?_range hp]

theorem slice_getD (tid : List Nat) (o c i : Nat) (hi : i < c) :
    ((tid.drop o).take c).getD i 0 = tid.getD (o + i) 0 := by
  simp [List.getD_eq_getElem?_getD, List.getElem?_take, List.getElem?_drop, hi]

theorem flatten_slices (R P : Nat) (tid : List Nat) (k : Nat) :
    ((List.range k).map
        (fun p => (tid.drop (offset R P p)).take (count R P p))).flatten =
      tid.take (offset R P k) := by
  induction k with
  | zero => simp [offset_zero]
  | succ k ih =>
    rw [List.range_succ, List.map_append, List.flatten_append, ih, offset_succ, List.take_add]
    simp

theorem flatten_constructed (R P : Nat) (k : Nat) :
    ((List.range k).map
        (fun p => (List.range (count R P p)).map (fun i => i + offset R P p))).flatten =
      List.range (offset R P k) := by
  induction k with
  | zero => simp [offset_zero]
  | succ k ih =>
    rw [List.range_succ, List.map_append, List.flatten_append, ih, offset_succ, List.range_add]
    have hm : (List.range (count R P k)).map (fun i => i + offset R P k) =
        (List.range (count R P k)).map (fun i => offset R P k + i) :=
      List.map_congr_left (fun i _ => Nat.add_comm _ _)
    simp [hm]

/-- Claim C29.  For `P ≥ 1` processes and `R ≥ P` replicas, with `w0` the
worker constructed on the coordinator.  At construction every process
`p < P` holds a `tid_local` of `count_p` entries with
`tid_local[i] = tid[offset_p + i]`, and the local slices concatenated in
process order are the global `tid`.  The same holds after the scatter of
any `tid` of `R` entries, the slice of process `p` being what
`distribute_vector` hands to it. -/
theorem local_slices (W : Type) [Zero W] (P R : Nat) (exchange : Bool)
    (w0 : parallel_exchange_worker W) (hP : 1 ≤ P) (hR : P ≤ R)
    (h0 : construct W R P 0 exchange = Except.ok w0) :
    (∀ p, p < P →
      (tid_local_of (construct W R P p exchange)).length = (calc_nrep R P p).1 ∧
      ∀ i, i < (calc_nrep R P p).1 →
        (tid_local_of (construct W R P p exchange)).getD i 0 =
          w0.tid.getD ((calc_nrep R P p).2 + i) 0) ∧
    ((List.range P).map (fun p => tid_local_of (construct W R P p exchange))).flatten = w0.tid ∧
    (∀ tid : List Nat, tid.length = R →
      (∀ p, p < P →
        (distribute_vector w0.nreps w0.offsets tid p).length = (calc_nrep R P p).1 ∧
        ∀ i, i < (calc_nrep R P p).1 →
          (distribute_vector w0.nreps w0.offsets tid p).getD i 0 =
            tid.getD ((calc_nrep R P p).2 + i) 0) ∧
      ((List.range P).map (fun p => distribute_vector w0.nreps w0.offsets tid p)).flatten =
        tid) := by
  obtain ⟨_, hf⟩ := construct_ok_fields W R P 0 exchange w0 h0
  obtain ⟨hn, ho, ht⟩ := hf rfl
  have hlocal : ∀ p, p < P →
      tid_local_of (construct W R P p exchange) =
        (List.range (count R P p)).map (fun i => i + offset R P p) := by
    intro p hp
    obtain ⟨w, hw⟩ := construct_ok_exists W R P p exchange hP hR
    rw [hw]
    exact (construct_ok_fields W R P p exchange w hw).1
  have hdist : ∀ (tid : List Nat) (p : Nat), p < P →
      distribute_vector w0.nreps w0.offsets tid p =
        (tid.drop (offset R P p)).take (count R P p) := by
    intro tid p hp
    unfold distribute_vector
    rw [hn, ho, getD_map_range _ P p hp, getD_map_range _ P p hp]
    rfl
  have hbound : ∀ p, p < P → offset R P p + count R P p ≤ R :=
    fun p hp => (calc_nrep_intermediates_le R P p hP hp).2
  refine ⟨?_, ?_, ?_⟩
  · intro p hp
    rw [hlocal p hp, ht]
    refine ⟨by simp [count], ?_⟩
    intro i hi
    have hb := hbound p hp
    have hi2 : i < count R P p := hi
    show ((List.range (count R P p)).map (fun i => i + offset R P p)).getD i 0 =
      (List.range R).getD (offset R P p + i) 0
    rw [getD_map_range _ _ i hi2, getD_range R _ (by omega)]
    omega
  · have hm : (List.range P).map (fun p => tid_local_of (construct W R P p exchange)) =
        (List.range P).map
          (fun p => (List.range (count R P p)).map (fun i => i + offset R P p)) :=
      List.map_congr_left (fun p hp => hlocal p (List.mem_range.mp hp))
    rw [hm, flatten_constructed, offset_last R P hP, ht]
  · intro tid htid
    constructor
    · intro p hp
      rw [hdist tid p hp]
      have hb := hbound p hp
      constructor
      · show ((tid.drop (offset R P p)).take (count R P p)).length = count R P p
        rw [List.length_take, List.length_drop, htid]
        omega
      · intro i hi
        exact slice_getD tid _ _ i hi
    · have hm : (List.range P).map (fun p => distribute_vector w0.nreps w0.offsets tid p) =
          (List.range P).map (fun p => (tid.drop (offset R P p)).take (count R P p)) :=
        List.map_congr_left (fun p hp => hdist tid p (List.mem_range.mp hp))
      rw [hm, flatten_slices, offset_last R P hP]
      exact List.take_of_length_le (by omega)

/-! ## The upward ratio -/

theorem filter_range_eq (n p : Nat) (hp : p < n) :
    (List.range n).filter (fun q => decide (q = p)) = [p] := by
  induction n with
  | zero => omega
  | succ n ih =>
    rw [List.range_succ, List.filter_append]
    by_cases h : p = n
    · subst h
      have hnone : (List.range p).filter (fun q => decide (q = p)) = [] := by
        rw [List.filter_eq_nil_iff]
        intro q hq
        have := List.mem_range.mp hq
        simp
        omega
      rw [hnone]
      simp
    · rw [ih (by omega)]
      have : ¬ n = p := fun e => h e.symm
      simp [this]

theorem samples_at_append (l1 l2 : List (Nat × Bool)) (p : Nat) :
    samples_at (l1 ++ l2) p = samples_at l1 p ++ samples_at l2 p := by
  unfold samples_at
  rw [List.filter_append, List.map_append]

theorem samples_at_range (n : Nat) (g : Nat → Bool) (p : Nat) (hp : p < n) :
    samples_at ((List.range n).map (fun q => (q, g q))) p = [g p] := by
  unfold samples_at
  rw [List.filter_map]
  have hf : (fun e : Nat × Bool => decide (e.1 = p)) ∘ (fun q => (q, g q)) =
      fun q => decide (q = p) := rfl
  rw [hf, filter_range_eq n p hp]
  rfl

section sample_means

variable {F : Type} [LinearOrderedField F]

theorem sample_mean_nonneg (l : List Bool) : (0 : F) ≤ sample_mean l := by
  unfold sample_mean
  exact div_nonneg (Nat.cast_nonneg _) (Nat.cast_nonneg _)

theorem sample_mean_pos_iff (l : List Bool) (hl : l ≠ []) :
    (0 : F) < sample_mean l ↔ true ∈ l := by
  have hlen : (0 : F) < (l.length : F) := by
    have : 0 < l.length := List.length_pos.mpr hl
    exact Nat.cast_pos.mpr this
  unfold sample_mean
  constructor
  · intro h
    by_contra hc
    have h0 : l.count true = 0 := List.count_eq_zero.mpr hc
    rw [h0] at h
    simp at h
  · intro h
    have hc : 0 < l.count true := List.count_pos_iff.mpr h
    exact div_pos (Nat.cast_pos.mpr hc) hlen

theorem sum_eq_zero_iff_all_false (l1 l2 : List Bool) (h1 : l1 ≠ []) (h2 : l2 ≠ []) :
    ((sample_mean l1 : F) + sample_mean l2 = 0) ↔
      (∀ s, s ∈ l1 → s = false) ∧ (∀ s, s ∈ l2 → s = false) := by
  have n1 : (0 : F) ≤ sample_mean l1 := sample_mean_nonneg l1
  have n2 : (0 : F) ≤ sample_mean l2 := sample_mean_nonneg l2
  have p1 := @sample_mean_pos_iff F _ l1 h1
  have p2 := @sample_mean_pos_iff F _ l2 h2
  constructor
  · intro h
    have z1 : ¬ (0 : F) < sample_mean l1 := by
      intro hc
      have : (0 : F) < sample_mean l1 + sample_mean l2 := add_pos_of_pos_of_nonneg hc n2
      rw [h] at this
      exact lt_irrefl _ this
    have z2 : ¬ (0 : F) < sample_mean l2 := by
      intro hc
      have : (0 : F) < sample_mean l1 + sample_mean l2 := add_pos_of_nonneg_of_pos n1 hc
      rw [h] at this
      exact lt_irrefl _ this
    constructor
    · intro s hs
      cases s with
      | false => rfl
      | true => exact absurd (p1.mpr hs) z1
    · intro s hs
      cases s with
      | false => rfl
      | true => exact absurd (p2.mpr hs) z2
  · rintro ⟨a1, a2⟩
    have z1 : (sample_mean l1 : F) = 0 := by
      apply le_antisymm _ n1
      apply not_lt.mp
      intro hc
      have := a1 true (p1.mp hc)
      cases this
    have z2 : (sample_mean l2 : F) = 0 := by
      apply le_antisymm _ n2
      apply not_lt.mp
      intro hc
      have := a2 true (p2.mp hc)
      cases this
    rw [z1, z2, add_zero]

end sample_means

section upward_ratio

variable {W F S : Type}

theorem bookkeeping_samples (nrep : Nat) (b : coordinator W F) (p : Nat) (hp : p < nrep) :
    samples_at (round_trip_bookkeeping nrep b).upward_samples p =
      samples_at b.upward_samples p ++
        [decide ((round_trip_bookkeeping nrep b).direc.getD (b.ex.wid.getD p 0)
          walker_direc.unlabeled = walker_direc.up)] ∧
    samples_at (round_trip_bookkeeping nrep b).downward_samples p =
      samples_at b.downward_samples p ++
        [decide ((round_trip_bookkeeping nrep b).direc.getD (b.ex.wid.getD p 0)
          walker_direc.unlabeled = walker_direc.down)] := by
  constructor
  · have h : (round_trip_bookkeeping nrep b).upward_samples =
        b.upward_samples ++ (List.range nrep).map (fun q =>
          (q, decide ((round_trip_bookkeeping nrep b).direc.getD (b.ex.wid.getD q 0)
            walker_direc.unlabeled = walker_direc.up))) := rfl
    rw [h, samples_at_append, samples_at_range nrep _ p hp]
  · have h : (round_trip_bookkeeping nrep b).downward_samples =
        b.downward_samples ++ (List.range nrep).map (fun q =>
          (q, decide ((round_trip_bookkeeping nrep b).direc.getD (b.ex.wid.getD q 0)
            walker_direc.unlabeled = walker_direc.down))) := rfl
    rw [h, samples_at_append, samples_at_range nrep _ p hp]

theorem upward_ratios_getD [LinearOrderedField F] (K : exmc_collaborators W F S) (nrep : Nat)
    (c : coordinator W F) (p : Nat) (hp : p < nrep) (hlen : c.upward.length = nrep) :
    (upward_ratios K nrep c).getD p 0 =
      if 0 < stage_up K c p + stage_down K c p then
        stage_up K c p / (stage_up K c p + stage_down K c p)
      else K.nan := by
  unfold upward_ratios
  rw [List.getD_eq_getElem?_getD, assign_each_getElem?, if_pos ⟨hp, by rw [hlen]; exact hp⟩]
  rfl

theorem ratio_in_unit_interval [LinearOrderedField F] (up down : F) (hu : 0 ≤ up)
    (hd : 0 ≤ down) (h : 0 < up + down) :
    0 ≤ up / (up + down) ∧ up / (up + down) ≤ 1 := by
  constructor
  · exact div_nonneg hu (le_of_lt h)
  · rw [div_le_one h]
    exact le_add_of_nonneg_right hd

/-- Claim C24.  At the stage evaluation that follows the bookkeeping of an
interval, with `up` and `down` the stage means of the upward and downward
samples of rung `p` (each observable holds at least the sample of this
interval, so the means are taken of non-empty observables): `up + down` is
never negative; when it is positive the upward ratio is `up / (up + down)`,
a division by a non-zero number; when it is zero the upward ratio is
`alps::nan()`, and this happens exactly when every sample of the stage at
rung `p` was written for an unlabeled replica.  Since the ratio lies in
`[0, 1]`, the entry is NaN only in that case. -/
theorem upward_ratio_value [LinearOrderedField F] (K : exmc_collaborators W F S) (nrep : Nat)
    (b : coordinator W F) (p : Nat)
    (hmean : ∀ l, l ≠ [] → K.mean l = sample_mean l)
    (hp : p < nrep) (hlen : b.upward.length = nrep) :
    samples_at (round_trip_bookkeeping nrep b).upward_samples p ≠ [] ∧
    samples_at (round_trip_bookkeeping nrep b).downward_samples p ≠ [] ∧
    0 ≤ stage_up K (round_trip_bookkeeping nrep b) p +
      stage_down K (round_trip_bookkeeping nrep b) p ∧
    (0 < stage_up K (round_trip_bookkeeping nrep b) p +
        stage_down K (round_trip_bookkeeping nrep b) p →
      (upward_ratios K nrep (round_trip_bookkeeping nrep b)).getD p 0 =
        stage_up K (round_trip_bookkeeping nrep b) p /
          (stage_up K (round_trip_bookkeeping nrep b) p +
            stage_down K (round_trip_bookkeeping nrep b) p) ∧
      stage_up K (round_trip_bookkeeping nrep b) p +
        stage_down K (round_trip_bookkeeping nrep b) p ≠ 0) ∧
    (stage_up K (round_trip_bookkeeping nrep b) p +
        stage_down K (round_trip_bookkeeping nrep b) p = 0 →
      (upward_ratios K nrep (round_trip_bookkeeping nrep b)).getD p 0 = K.nan) ∧
    (stage_up K (round_trip_bookkeeping nrep b) p +
        stage_down K (round_trip_bookkeeping nrep b) p = 0 ↔
      (∀ s, s ∈ samples_at (round_trip_bookkeeping nrep b).upward_samples p → s = false) ∧
      (∀ s, s ∈ samples_at (round_trip_bookkeeping nrep b).downward_samples p → s = false)) ∧
    (¬ (0 ≤ K.nan ∧ K.nan ≤ 1) →
      ((upward_ratios K nrep (round_trip_bookkeeping nrep b)).getD p 0 = K.nan ↔
        stage_up K (round_trip_bookkeeping nrep b) p +
          stage_down K (round_trip_bookkeeping nrep b) p = 0)) := by
  obtain ⟨su, sd⟩ := bookkeeping_samples nrep b p hp
  have nu : samples_at (round_trip_bookkeeping nrep b).upward_samples p ≠ [] := by
    rw [su]; simp
  have nd : samples_at (round_trip_bookkeeping nrep b).downward_samples p ≠ [] := by
    rw [sd]; simp
  have eu : stage_up K (round_trip_bookkeeping nrep b) p =
      sample_mean (samples_at (round_trip_bookkeeping nrep b).upward_samples p) := hmean _ nu
  have ed : stage_down K (round_trip_bookkeeping nrep b) p =
      sample_mean (samples_at (round_trip_bookkeeping nrep b).downward_samples p) := hmean _ nd
  have hu : 0 ≤ stage_up K (round_trip_bookkeeping nrep b) p := by
    rw [eu]; exact sample_mean_nonneg _
  have hd : 0 ≤ stage_down K (round_trip_bookkeeping nrep b) p := by
    rw [ed]; exact sample_mean_nonneg _
  have hval := upward_ratios_getD K nrep (round_trip_bookkeeping nrep b) p hp hlen
  have hpos : ∀ h : 0 < stage_up K (round_trip_bookkeeping nrep b) p +
      stage_down K (round_trip_bookkeeping nrep b) p,
      (upward_ratios K nrep (round_trip_bookkeeping nrep b)).getD p 0 =
        stage_up K (round_trip_bookkeeping nrep b) p /
          (stage_up K (round_trip_bookkeeping nrep b) p +
            stage_down K (round_trip_bookkeeping nrep b) p) := by
    intro h
    rw [hval, if_pos h]
  have hzero : stage_up K (round_trip_bookkeeping nrep b) p +
      stage_down K (round_trip_bookkeeping nrep b) p = 0 →
      (upward_ratios K nrep (round_trip_bookkeeping nrep b)).getD p 0 = K.nan := by
    intro h
    rw [hval, if_neg (by rw [h]; exact lt_irrefl _)]
  refine ⟨nu, nd, add_nonneg hu hd, fun h => ⟨hpos h, ne_of_gt h⟩, hzero, ?_, ?_⟩
  · rw [eu, ed]
    exact sum_eq_zero_iff_all_false _ _ nu nd
  · intro hnan
    constructor
    · intro h
      by_contra hc
      have hlt : 0 < stage_up K (round_trip_bookkeeping nrep b) p +
          stage_down K (round_trip_bookkeeping nrep b) p :=
        lt_of_le_of_ne (add_nonneg hu hd) (fun e => hc e.symm)
      have hr := ratio_in_unit_interval _ _ hu hd hlt
      rw [← hpos hlt, h] at hr
      exact hnan hr
    · exact hzero

/-- Claim C30.  At the round-trip stage evaluation that follows the
bookkeeping of an interval, with mutually inverse tables, stage `≠ 0`,
`num_returnee ≥ N` and no unlabeled replica: `optimize2` is called with the
vector `upward_`, and every entry `upward_[p]`, `p < N`, is the quotient
`up / (up + down)` with `up + down > 0` and lies in `[0, 1]`; the NaN branch
is not taken, because the samples written in this same interval record a
labelled occupant at every rung. -/
theorem optimize2_receives_defined_ratios [LinearOrderedField F]
    (K : exmc_collaborators W F S) (nrep : Nat) (steps : S) (b : coordinator W F)
    (hmean : ∀ l, l ≠ [] → K.mean l = sample_mean l)
    (hinv : tables_inverse nrep b.ex.tid b.ex.wid) (hlen : b.upward.length = nrep)
    (hstage : K.stage steps ≠ 0)
    (hret : nrep ≤ (round_trip_bookkeeping nrep b).num_returnee)
    (hlab : ∀ r, r < nrep →
      (round_trip_bookkeeping nrep b).direc.getD r walker_direc.unlabeled ≠
        walker_direc.unlabeled) :
    (round_trip_stage_evaluation K nrep steps (round_trip_bookkeeping nrep b)).1.optimize2_calls =
      (round_trip_bookkeeping nrep b).optimize2_calls ++
        [upward_ratios K nrep (round_trip_bookkeeping nrep b)] ∧
    (upward_ratios K nrep (round_trip_bookkeeping nrep b)).length = nrep ∧
    ∀ p, p < nrep →
      0 < stage_up K (round_trip_bookkeeping nrep b) p +
        stage_down K (round_trip_bookkeeping nrep b) p ∧
      (upward_ratios K nrep (round_trip_bookkeeping nrep b)).getD p 0 =
        stage_up K (round_trip_bookkeeping nrep b) p /
          (stage_up K (round_trip_bookkeeping nrep b) p +
            stage_down K (round_trip_bookkeeping nrep b) p) ∧
      0 ≤ (upward_ratios K nrep (round_trip_bookkeeping nrep b)).getD p 0 ∧
      (upward_ratios K nrep (round_trip_bookkeeping nrep b)).getD p 0 ≤ 1 ∧
      (¬ (0 ≤ K.nan ∧ K.nan ≤ 1) →
        (upward_ratios K nrep (round_trip_bookkeeping nrep b)).getD p 0 ≠ K.nan) := by
  have hpre : round_trip_precondition nrep (round_trip_bookkeeping nrep b) = true :=
    (round_trip_precondition_iff nrep _).mpr ⟨hret, hlab⟩
  refine ⟨?_, ?_, ?_⟩
  · unfold round_trip_stage_evaluation
    dsimp only
    simp only [hpre, hstage, ne_eq, not_false_eq_true, decide_True, Bool.and_self, if_true]
    split <;> rfl
  · unfold upward_ratios
    rw [assign_each_length]
    exact hlen
  · intro p hp
    obtain ⟨su, sd⟩ := bookkeeping_samples nrep b p hp
    have nu : samples_at (round_trip_bookkeeping nrep b).upward_samples p ≠ [] := by
      rw [su]; simp
    have nd : samples_at (round_trip_bookkeeping nrep b).downward_samples p ≠ [] := by
      rw [sd]; simp
    have eu : stage_up K (round_trip_bookkeeping nrep b) p =
        sample_mean (samples_at (round_trip_bookkeeping nrep b).upward_samples p) := hmean _ nu
    have ed : stage_down K (round_trip_bookkeeping nrep b) p =
        sample_mean (samples_at (round_trip_bookkeeping nrep b).downward_samples p) :=
      hmean _ nd
    have hu : 0 ≤ stage_up K (round_trip_bookkeeping nrep b) p := by
      rw [eu]; exact sample_mean_nonneg _
    have hd : 0 ≤ stage_down K (round_trip_bookkeeping nrep b) p := by
      rw [ed]; exact sample_mean_nonneg _
    have hocc := (hinv.2.2.1 p hp).1
    have hlabel := hlab (b.ex.wid.getD p 0) hocc
    have hsum : 0 < stage_up K (round_trip_bookkeeping nrep b) p +
        stage_down K (round_trip_bookkeeping nrep b) p := by
      cases hcase : (round_trip_bookkeeping nrep b).direc.getD (b.ex.wid.getD p 0)
          walker_direc.unlabeled with
      | up =>
        have hmem : true ∈ samples_at (round_trip_bookkeeping nrep b).upward_samples p := by
          rw [su, hcase]
          simp
        have : 0 < stage_up K (round_trip_bookkeeping nrep b) p := by
          rw [eu]; exact (sample_mean_pos_iff _ nu).mpr hmem
        exact add_pos_of_pos_of_nonneg this hd
      | down =>
        have hmem : true ∈ samples_at (round_trip_bookkeeping nrep b).downward_samples p := by
          rw [sd, hcase]
          simp
        have : 0 < stage_down K (round_trip_bookkeeping nrep b) p := by
          rw [ed]; exact (sample_mean_pos_iff _ nd).mpr hmem
        exact add_pos_of_nonneg_of_pos hu this
      | unlabeled => exact absurd hcase hlabel
    have hval := upward_ratios_getD K nrep (round_trip_bookkeeping nrep b) p hp hlen
    rw [if_pos hsum] at hval
    have hr := ratio_in_unit_interval _ _ hu hd hsum
    rw [← hval] at hr
    refine ⟨hsum, hval, hr.1, hr.2, ?_⟩
    intro hnan he
    rw [he] at hr
    exact hnan hr

end upward_ratio

theorem upward_ratio_value_witness :
    (0 < 3 ∧ example_stage_coordinator.upward.length = 3) ∧
    (0 < stage_up (example_stage_collaborators true false 1 true)
          (round_trip_bookkeeping 3 example_stage_coordinator) 0 +
        stage_down (example_stage_collaborators true false 1 true)
          (round_trip_bookkeeping 3 example_stage_coordinator) 0 →
      (upward_ratios (example_stage_collaborators true false 1 true) 3
          (round_trip_bookkeeping 3 example_stage_coordinator)).getD 0 0 =
        stage_up (example_stage_collaborators true false 1 true)
            (round_trip_bookkeeping 3 example_stage_coordinator) 0 /
          (stage_up (example_stage_collaborators true false 1 true)
              (round_trip_bookkeeping 3 example_stage_coordinator) 0 +
            stage_down (example_stage_collaborators true false 1 true)
              (round_trip_bookkeeping 3 example_stage_coordinator) 0) ∧
      stage_up (example_stage_collaborators true false 1 true)
          (round_trip_bookkeeping 3 example_stage_coordinator) 0 +
        stage_down (example_stage_collaborators true false 1 true)
          (round_trip_bookkeeping 3 example_stage_coordinator) 0 ≠ 0) :=
  ⟨⟨by decide, rfl⟩,
    (upward_ratio_value (example_stage_collaborators true false 1 true) 3
      example_stage_coordinator 0 (fun _ _ => rfl) (by decide) rfl).2.2.2.1⟩

theorem optimize2_receives_defined_ratios_witness :
    tables_inverse 3 example_stage_coordinator.ex.tid example_stage_coordinator.ex.wid ∧
    example_stage_coordinator.upward.length = 3 ∧
    (example_stage_collaborators true false 1 true).stage 4 ≠ 0 ∧
    3 ≤ (round_trip_bookkeeping 3 example_stage_coordinator).num_returnee ∧
    (round_trip_stage_evaluation (example_stage_collaborators true false 1 true) 3 4
        (round_trip_bookkeeping 3 example_stage_coordinator)).1.optimize2_calls =
      (round_trip_bookkeeping 3 example_stage_coordinator).optimize2_calls ++
        [upward_ratios (example_stage_collaborators true false 1 true) 3
          (round_trip_bookkeeping 3 example_stage_coordinator)] ∧
    ∀ p, p < 3 →
      0 ≤ (upward_ratios (example_stage_collaborators true false 1 true) 3
        (round_trip_bookkeeping 3 example_stage_coordinator)).getD p 0 ∧
      (upward_ratios (example_stage_collaborators true false 1 true) 3
        (round_trip_bookkeeping 3 example_stage_coordinator)).getD p 0 ≤ 1 :=
  have h1 : tables_inverse 3 example_stage_coordinator.ex.tid
      example_stage_coordinator.ex.wid := tables_inverse_range 3
  have h := optimize2_receives_defined_ratios (example_stage_collaborators true false 1 true) 3 4
    example_stage_coordinator (fun _ _ => rfl) h1 rfl (by decide) (by decide) (by decide)
  ⟨h1, rfl, by decide, by decide, h.1,
    fun p hp => ⟨(h.2.2 p hp).2.2.1, (h.2.2 p hp).2.2.2.1⟩⟩

theorem aggregate_adds_occupant_witness :
    tables_inverse 3 example_swapped_coordinator.ex.tid example_swapped_coordinator.ex.wid ∧
    example_swapped_coordinator.weight_parameters.length = 3 ∧
    (aggregate 3 example_swapped_coordinator.ex.tid example_stage_interval.wp
        example_swapped_coordinator.weight_parameters).getD 0 0 =
      example_swapped_coordinator.weight_parameters.getD 0 0 +
        example_stage_interval.wp.getD (example_swapped_coordinator.ex.wid.getD 0 0) 0 ∧
    example_swapped_coordinator.ex.wid.getD 0 0 = 1 ∧
    (List.range 3).filter (fun w => decide (example_swapped_coordinator.ex.tid.getD w 0 = 0)) =
      [example_swapped_coordinator.ex.wid.getD 0 0] :=
  have h1 : tables_inverse 3 example_swapped_coordinator.ex.tid
      example_swapped_coordinator.ex.wid := by
    unfold tables_inverse
    decide
  have h := aggregate_adds_occupant (fun _ : ℚ => (0 : ℚ)) (fun e b : ℚ => -(e * b)) 3
    example_stage_interval example_swapped_coordinator h1 rfl
  ⟨h1, rfl, h.1 0 (by decide), rfl, h.2.2.1 0 (by decide)⟩

theorem local_slices_witness :
    (1 ≤ 2 ∧ 2 ≤ 5 ∧ construct Int 5 2 0 true = Except.ok example_worker5) ∧
    ((∀ p, p < 2 →
      (tid_local_of (construct Int 5 2 p true)).length = (calc_nrep 5 2 p).1 ∧
      ∀ i, i < (calc_nrep 5 2 p).1 →
        (tid_local_of (construct Int 5 2 p true)).getD i 0 =
          example_worker5.tid.getD ((calc_nrep 5 2 p).2 + i) 0) ∧
    ((List.range 2).map (fun p => tid_local_of (construct Int 5 2 p true))).flatten =
      example_worker5.tid ∧
    (∀ tid : List Nat, tid.length = 5 →
      (∀ p, p < 2 →
        (distribute_vector example_worker5.nreps example_worker5.offsets tid p).length =
          (calc_nrep 5 2 p).1 ∧
        ∀ i, i < (calc_nrep 5 2 p).1 →
          (distribute_vector example_worker5.nreps example_worker5.offsets tid p).getD i 0 =
            tid.getD ((calc_nrep 5 2 p).2 + i) 0) ∧
      ((List.range 2).map
        (fun p => distribute_vector example_worker5.nreps example_worker5.offsets tid p)).flatten =
        tid)) :=
  ⟨⟨by decide, by decide, rfl⟩,
    local_slices Int 2 5 true example_worker5 (by decide) (by decide) rfl⟩

/-! ## The rate-mode optimiser call, the accumulators and the thermalisation check -/

section stage_completion

variable {W F S : Type}

/-- Claim C27, at a concrete rate-mode stage evaluation of three replicas.
At stage `0` the optimiser `optimize_h1999` is not called and the ladder
stays `[3, 2, 1]`, although a call would have changed it.  At stage `1` the
single call receives the mean weight parameters `[1, 2, 3]`, while the
recomputed acceptance rates are `[1, 1/2]`. -/
theorem rate_stage_zero_skips_optimizer :
    (stage_evaluation (example_stage_collaborators true true 0 true) 3 4
      example_stage_coordinator).1.optimize_h1999_calls = [] ∧
    (stage_evaluation (example_stage_collaborators true true 0 true) 3 4
      example_stage_coordinator).1.beta = [3, 2, 1] ∧
    (example_stage_collaborators true true 0 true).optimize_h1999 [3, 2, 1] [1, 2, 3] =
      [4, 3, 2] ∧
    (stage_evaluation (example_stage_collaborators true true 1 true) 3 4
      example_stage_coordinator).1.optimize_h1999_calls = [[1, 2, 3]] ∧
    (stage_evaluation (example_stage_collaborators true true 1 true) 3 4
      example_stage_coordinator).1.accept = [1, 1 / 2] := by
  refine ⟨rfl, rfl, ?_, ?_, ?_⟩
  · simp [example_stage_collaborators]
    norm_num
  · simp [stage_evaluation, example_stage_collaborators, rate_stage_evaluation, assign_each,
      List.range_succ, example_stage_coordinator]
    norm_num
  · simp [stage_evaluation, example_stage_collaborators, rate_stage_evaluation, assign_each,
      List.range_succ, example_stage_coordinator, acceptance_means, samples_at, sample_mean]

/-- Claim C27, as the code has it.  At every rate-mode stage evaluation the
coordinator recomputes the `N - 1` mean acceptance rates into `accept_` and
the `N` mean weight parameters `wp_[p] = weight_parameters_[p] / stage_count`.
When the stage index is not `0` it calls `optimize_h1999` once, on the
current ladder, with the vector `wp_` of mean weight parameters as argument;
at stage `0` the optimiser is not called and the ladder is unchanged. -/
theorem rate_stage_optimizer_call [Zero W] [Zero F] [Add F] [Div F] [LT F]
    [∀ a b : F, Decidable (a < b)] (K : exmc_collaborators W F S) (nrep : Nat) (steps : S)
    (c : coordinator W F)
    (hdo : K.doing_optimization steps = true)
    (hcount : K.stage_count steps = K.stage_sweeps steps)
    (hrate : K.optimization_type_is_rate steps = true) :
    (∀ p, p < nrep - 1 → p < c.accept.length →
      (stage_evaluation K nrep steps c).1.accept.getD p 0 =
        K.mean (samples_at c.ex.acceptance_rate p)) ∧
    (∀ p, p < nrep → p < c.wp.length →
      (stage_evaluation K nrep steps c).1.wp.getD p 0 =
        K.divide (c.weight_parameters.getD p 0) (K.stage_count steps)) ∧
    (K.stage steps ≠ 0 →
      (stage_evaluation K nrep steps c).1.optimize_h1999_calls =
        c.optimize_h1999_calls ++ [(stage_evaluation K nrep steps c).1.wp] ∧
      (stage_evaluation K nrep steps c).1.beta =
        K.optimize_h1999 c.beta (stage_evaluation K nrep steps c).1.wp) ∧
    (K.stage steps = 0 →
      (stage_evaluation K nrep steps c).1.optimize_h1999_calls = c.optimize_h1999_calls ∧
      (stage_evaluation K nrep steps c).1.beta = c.beta) := by
  rw [stage_evaluation_rate K nrep steps c hdo hcount hrate]
  refine ⟨?_, ?_, ?_, ?_⟩
  · intro p hp hl
    show (acceptance_means K nrep c).getD p 0 = _
    unfold acceptance_means
    rw [List.getD_eq_getElem?_getD, assign_each_getElem?, if_pos ⟨hp, hl⟩]
    rfl
  · intro p hp hl
    show (assign_each nrep
      (fun p => K.divide (c.weight_parameters.getD p 0) (K.stage_count steps)) c.wp).getD p 0 = _
    rw [List.getD_eq_getElem?_getD, assign_each_getElem?, if_pos ⟨hp, hl⟩]
    rfl
  · intro hs
    constructor
    · show (rate_stage_evaluation K nrep steps c).1.optimize_h1999_calls = _
      unfold rate_stage_evaluation
      dsimp only
      rw [if_pos hs]
    · show (rate_stage_evaluation K nrep steps c).1.beta = _
      unfold rate_stage_evaluation
      dsimp only
      rw [if_pos hs]
  · intro hs
    constructor
    · show (rate_stage_evaluation K nrep steps c).1.optimize_h1999_calls = _
      unfold rate_stage_evaluation
      dsimp only
      rw [if_neg (fun h => h hs)]
    · show (rate_stage_evaluation K nrep steps c).1.beta = _
      unfold rate_stage_evaluation
      dsimp only
      rw [if_neg (fun h => h hs)]

theorem rate_stage_optimizer_call_witness :
    ((example_stage_collaborators true true 1 true).doing_optimization 4 = true ∧
      (example_stage_collaborators true true 1 true).stage_count 4 =
        (example_stage_collaborators true true 1 true).stage_sweeps 4 ∧
      (example_stage_collaborators true true 1 true).optimization_type_is_rate 4 = true ∧
      (example_stage_collaborators true true 1 true).stage 4 ≠ 0) ∧
    (stage_evaluation (example_stage_collaborators true true 1 true) 3 4
        example_stage_coordinator).1.optimize_h1999_calls =
      example_stage_coordinator.optimize_h1999_calls ++
        [(stage_evaluation (example_stage_collaborators true true 1 true) 3 4
          example_stage_coordinator).1.wp] ∧
    (stage_evaluation (example_stage_collaborators true true 1 true) 3 4
        example_stage_coordinator).1.beta =
      (example_stage_collaborators true true 1 true).optimize_h1999
        example_stage_coordinator.beta
        (stage_evaluation (example_stage_collaborators true true 1 true) 3 4
          example_stage_coordinator).1.wp :=
  ⟨⟨rfl, rfl, rfl, by decide⟩,
    (rate_stage_optimizer_call (example_stage_collaborators true true 1 true) 3 4
      example_stage_coordinator rfl rfl rfl).2.2.1 (by decide)⟩

/-- Claim C25, at a concrete round-trip-mode stage evaluation of three
replicas that completes the stage (stage `1`, three round trips counted, no
replica unlabeled, `optimize2` reports success): `next_stage` is signalled
and `num_returnee_` is reset, but the weight accumulators are still
`[4, 8, 12]`.  The rate-mode evaluation of the same state leaves `[0, 0, 0]`. -/
theorem round_trip_completion_keeps_accumulators :
    (stage_evaluation (example_stage_collaborators true false 1 true) 3 4
      example_stage_coordinator).2.next_stage = true ∧
    (stage_evaluation (example_stage_collaborators true false 1 true) 3 4
      example_stage_coordinator).1.num_returnee = 0 ∧
    (stage_evaluation (example_stage_collaborators true false 1 true) 3 4
      example_stage_coordinator).1.weight_parameters = [4, 8, 12] ∧
    (stage_evaluation (example_stage_collaborators true true 1 true) 3 4
      example_stage_coordinator).2.next_stage = true ∧
    (stage_evaluation (example_stage_collaborators true true 1 true) 3 4
      example_stage_coordinator).1.weight_parameters = [0, 0, 0] := by
  refine ⟨by decide, by decide, rfl, by decide, ?_⟩
  simp [stage_evaluation, example_stage_collaborators, rate_stage_evaluation, assign_each,
    List.range_succ, example_stage_coordinator]

/-- Claim C26, at two concrete exchange intervals whose sweep count `8`
equals the thermalisation target, with `perform_optimization()` false.
First, with `doing_optimization()` false, on a coordinator with no round
trip counted and two unlabeled replicas: the stage-evaluation block is
skipped, so neither flag is raised, although the check of lines 320-334 run
on this state raises `continue_stage`.  Second, with a round-trip stage
evaluation that completes the stage on a coordinator that meets the
criterion (three round trips counted, no replica unlabeled): the check reads
`num_returnee_` after line 309 has set it to `0`, and raises
`continue_stage` together with `next_stage`. -/
theorem thermalization_check_skipped :
    (example_stage_collaborators false false 1 false).perform_optimization 8 = false ∧
    (example_stage_collaborators false false 1 false).sweeps 8 =
      (example_stage_collaborators false false 1 false).thermalization 8 ∧
    example_cold_coordinator.num_returnee < 3 ∧
    unlabeled_count 3 example_cold_coordinator.direc = 2 ∧
    (stage_evaluation (example_stage_collaborators false false 1 false) 3 8
      example_cold_coordinator).2 = { continue_stage := false, next_stage := false } ∧
    thermalization_check (example_stage_collaborators false false 1 false) 3 8
      example_cold_coordinator { continue_stage := false, next_stage := false } =
      { continue_stage := true, next_stage := false } ∧
    (3 ≤ example_stage_coordinator.num_returnee ∧
      unlabeled_count 3 example_stage_coordinator.direc = 0) ∧
    (round_trip_stage_evaluation (example_stage_collaborators true false 1 false) 3 8
      example_stage_coordinator).2 = { continue_stage := false, next_stage := true } ∧
    (stage_evaluation (example_stage_collaborators true false 1 false) 3 8
      example_stage_coordinator).2 = { continue_stage := true, next_stage := true } := by
  refine ⟨rfl, rfl, by decide, by decide, by decide, by decide, by decide, by decide,
    by decide⟩

/-- Claim C25, as the code has it.  A stage evaluation in rate mode, which
always completes the stage, leaves every weight accumulator equal to the
zero weight parameter.  A stage evaluation in round-trip mode does not write
the weight accumulators, whether it completes the stage or not; when it
completes the stage it resets `num_returnee_`. -/
theorem accumulators_reset_in_rate_mode [Zero W] [Zero F] [Add F] [Div F] [LT F]
    [∀ a b : F, Decidable (a < b)] (K : exmc_collaborators W F S) (nrep : Nat) (steps : S)
    (c : coordinator W F)
    (hdo : K.doing_optimization steps = true)
    (hcount : K.stage_count steps = K.stage_sweeps steps)
    (hlen : c.weight_parameters.length = nrep) :
    (K.optimization_type_is_rate steps = true →
      (stage_evaluation K nrep steps c).2.next_stage = true ∧
      (stage_evaluation K nrep steps c).1.weight_parameters = List.replicate nrep 0 ∧
      ∀ p, p < nrep → (stage_evaluation K nrep steps c).1.weight_parameters.getD p 0 = 0) ∧
    (K.optimization_type_is_rate steps = false →
      (stage_evaluation K nrep steps c).1.weight_parameters = c.weight_parameters ∧
      ((stage_evaluation K nrep steps c).2.next_stage = true →
        (stage_evaluation K nrep steps c).1.num_returnee = 0)) := by
  constructor
  · intro hrate
    rw [stage_evaluation_rate K nrep steps c hdo hcount hrate]
    have hw : (rate_stage_evaluation K nrep steps c).1.weight_parameters =
        List.replicate nrep 0 := assign_each_const_zero nrep c.weight_parameters hlen
    refine ⟨?_, hw, ?_⟩
    · show (thermalization_check K nrep steps _ _).next_stage = true
      rw [(thermalization_check_next K nrep steps _ _).1]
      rfl
    · intro p hp
      show (rate_stage_evaluation K nrep steps c).1.weight_parameters.getD p 0 = 0
      rw [hw]
      simp [List.getD_eq_getElem?_getD, hp]
  · intro hrt
    rw [stage_evaluation_round_trip K nrep steps c hdo hcount hrt]
    refine ⟨(round_trip_stage_frame K nrep steps c).2.2.2.2, ?_⟩
    intro hnext
    have hn : (round_trip_stage_evaluation K nrep steps c).2.next_stage = true := by
      have := (thermalization_check_next K nrep steps
        (round_trip_stage_evaluation K nrep steps c).1
        (round_trip_stage_evaluation K nrep steps c).2).1
      rw [← this]
      exact hnext
    show (round_trip_stage_evaluation K nrep steps c).1.num_returnee = 0
    unfold round_trip_stage_evaluation at hn ⊢
    dsimp only at hn ⊢
    split_ifs at hn ⊢ <;> rfl

theorem accumulators_reset_in_rate_mode_witness :
    ((example_stage_collaborators true true 1 true).doing_optimization 4 = true ∧
      (example_stage_collaborators true true 1 true).stage_count 4 =
        (example_stage_collaborators true true 1 true).stage_sweeps 4 ∧
      example_stage_coordinator.weight_parameters.length = 3 ∧
      (example_stage_collaborators true true 1 true).optimization_type_is_rate 4 = true ∧
      (example_stage_collaborators true false 1 true).optimization_type_is_rate 4 = false) ∧
    (stage_evaluation (example_stage_collaborators true true 1 true) 3 4
      example_stage_coordinator).1.weight_parameters = List.replicate 3 0 ∧
    (stage_evaluation (example_stage_collaborators true false 1 true) 3 4
      example_stage_coordinator).1.weight_parameters =
      example_stage_coordinator.weight_parameters :=
  ⟨⟨rfl, rfl, rfl, rfl, rfl⟩,
    ((accumulators_reset_in_rate_mode (example_stage_collaborators true true 1 true) 3 4
      example_stage_coordinator rfl rfl rfl).1 rfl).2.1,
    ((accumulators_reset_in_rate_mode (example_stage_collaborators true false 1 true) 3 4
      example_stage_coordinator rfl rfl rfl).2 rfl).1⟩

end stage_completion

theorem draw_and_exp_only_when_needed_witness :
    0 < exchange_logp example_log_weight example_wp example_beta
      (initial_exchange_state example_worker).wid 0 ∧
    (exchange_body example_exp example_log_weight true example_wp example_beta example_uniform 0
      (initial_exchange_state example_worker)).uniform_calls =
        (initial_exchange_state example_worker).uniform_calls ∧
    (exchange_body example_exp example_log_weight true example_wp example_beta example_uniform 0
      (initial_exchange_state example_worker)).acceptance_rate =
        (initial_exchange_state example_worker).acceptance_rate ++ [(0, true)] ∧
    ¬ (0 < exchange_logp energy_log_weight nan_test_E acceptance_test_beta64
      acceptance_test_state.wid 0) ∧
    (exchange_body rounding_test_exp energy_log_weight true nan_test_E acceptance_test_beta64
      rounding_test_uniform 0 acceptance_test_state).uniform_calls =
        acceptance_test_state.uniform_calls + 1 :=
  have h0 : 0 < exchange_logp example_log_weight example_wp example_beta
      (initial_exchange_state example_worker).wid 0 := by decide
  have h := (draw_and_exp_only_when_needed example_exp example_log_weight true example_wp
    example_beta example_uniform 0 (initial_exchange_state example_worker)).1 h0
  have h2 := (draw_and_exp_only_when_needed rounding_test_exp energy_log_weight true nan_test_E
    acceptance_test_beta64 rounding_test_uniform 0 acceptance_test_state).2 (by decide)
  ⟨h0, h.1, h.2.1, by decide, h2.1⟩

/-! ## Order dependence of the random exchange -/

/-- Claim C31.  Three replicas with identity tables, energies `[3, 2, 1]` and
ladder `[3, 2, 1]`: every proposed pair is accepted, and the two orders
`[0, 1]` and `[1, 0]` of the same two pairs end with different tables,
`wid = [1, 2, 0]` for the first and `wid = [2, 0, 1]` for the second. -/
theorem random_order_dependent :
    List.Perm [0, 1] [1, 0] ∧
    (random_exchange example_exp example_log_weight 3 [0, 1] example_wp example_beta
      example_uniform (initial_exchange_state example_worker)).acceptance_rate =
        [(0, true), (1, true)] ∧
    (random_exchange example_exp example_log_weight 3 [1, 0] example_wp example_beta
      example_uniform (initial_exchange_state example_worker)).acceptance_rate =
        [(1, true), (0, true)] ∧
    (random_exchange example_exp example_log_weight 3 [0, 1] example_wp example_beta
      example_uniform (initial_exchange_state example_worker)).wid = [1, 2, 0] ∧
    (random_exchange example_exp example_log_weight 3 [1, 0] example_wp example_beta
      example_uniform (initial_exchange_state example_worker)).wid = [2, 0, 1] ∧
    (random_exchange example_exp example_log_weight 3 [0, 1] example_wp example_beta
      example_uniform (initial_exchange_state example_worker)).tid = [2, 0, 1] ∧
    (random_exchange example_exp example_log_weight 3 [1, 0] example_wp example_beta
      example_uniform (initial_exchange_state example_worker)).tid = [1, 2, 0] ∧
    (random_exchange example_exp example_log_weight 3 [0, 1] example_wp example_beta
      example_uniform (initial_exchange_state example_worker)).wid ≠
    (random_exchange example_exp example_log_weight 3 [1, 0] example_wp example_beta
      example_uniform (initial_exchange_state example_worker)).wid := by
  refine ⟨List.Perm.swap 1 0 [], by decide, by decide, by decide, by decide, by decide,
    by decide, by decide⟩

/-! ## Success of the round-trip stage evaluation -/

section round_trip_success

variable {W F S : Type}

/-- Claim C32.  In round-trip mode, at a stage evaluation whose precondition
holds and, when the stage index is not `0`, whose call of `optimize2`
returns `true`: the round-trip branch raises `next_stage` and not
`continue_stage`, sets `num_returnee_` to `0` and keeps the direction labels
and the two tables; the whole stage evaluation signals `next_stage` and
leaves that state. -/
theorem round_trip_stage_success [Zero W] [Zero F] [Add F] [Div F] [LT F]
    [∀ a b : F, Decidable (a < b)] (K : exmc_collaborators W F S) (nrep : Nat) (steps : S)
    (c : coordinator W F)
    (hdo : K.doing_optimization steps = true)
    (hcount : K.stage_count steps = K.stage_sweeps steps)
    (hrt : K.optimization_type_is_rate steps = false)
    (hpre : round_trip_precondition nrep c = true)
    (hopt : K.stage steps ≠ 0 → (K.optimize2 c.beta (upward_ratios K nrep c)).1 = true) :
    (round_trip_stage_evaluation K nrep steps c).2 =
      { continue_stage := false, next_stage := true } ∧
    (stage_evaluation K nrep steps c).2.next_stage = true ∧
    (stage_evaluation K nrep steps c).1.num_returnee = 0 ∧
    (stage_evaluation K nrep steps c).1.direc = c.direc ∧
    (stage_evaluation K nrep steps c).1.ex.tid = c.ex.tid ∧
    (stage_evaluation K nrep steps c).1.ex.wid = c.ex.wid := by
  have hflags : (round_trip_stage_evaluation K nrep steps c).2 =
      { continue_stage := false, next_stage := true } ∧
      (round_trip_stage_evaluation K nrep steps c).1.num_returnee = 0 := by
    unfold round_trip_stage_evaluation
    dsimp only
    by_cases hs : K.stage steps = 0
    · simp [hpre, hs]
    · simp [hpre, hs, hopt hs]
  obtain ⟨f1, f2, f3, _⟩ := stage_evaluation_frame K nrep steps c
  refine ⟨hflags.1, ?_, ?_, f1, f2, f3⟩
  · rw [stage_evaluation_round_trip K nrep steps c hdo hcount hrt]
    show (thermalization_check K nrep steps _ _).next_stage = true
    rw [(thermalization_check_next K nrep steps _ _).1, hflags.1]
  · rw [stage_evaluation_round_trip K nrep steps c hdo hcount hrt]
    exact hflags.2

end round_trip_success

theorem round_trip_stage_success_witness :
    ((example_stage_collaborators true false 1 true).doing_optimization 4 = true ∧
      (example_stage_collaborators true false 1 true).stage_count 4 =
        (example_stage_collaborators true false 1 true).stage_sweeps 4 ∧
      (example_stage_collaborators true false 1 true).optimization_type_is_rate 4 = false ∧
      round_trip_precondition 3 example_stage_coordinator = true) ∧
    (round_trip_stage_evaluation (example_stage_collaborators true false 1 true) 3 4
      example_stage_coordinator).2 = { continue_stage := false, next_stage := true } ∧
    (stage_evaluation (example_stage_collaborators true false 1 true) 3 4
      example_stage_coordinator).1.num_returnee = 0 ∧
    (stage_evaluation (example_stage_collaborators true false 1 true) 3 4
      example_stage_coordinator).1.direc = example_stage_coordinator.direc :=
  have h := round_trip_stage_success (example_stage_collaborators true false 1 true) 3 4
    example_stage_coordinator rfl rfl rfl (by decide) (fun _ => rfl)
  ⟨⟨rfl, rfl, rfl, by decide⟩, h.1, h.2.2.1, h.2.2.2.1⟩

/-! ## Unlabeled replicas and unlabeled rungs -/

theorem perm_range_of_inverse (N : Nat) (a b : List Nat) (hl : a.length = N)
    (ha : ∀ p, p < N → a.getD p 0 < N ∧ b.getD (a.getD p 0) 0 = p)
    (hb : ∀ r, r < N → b.getD r 0 < N ∧ a.getD (b.getD r 0) 0 = r) :
    List.Perm a (List.range N) := by
  have hmap : (List.range N).map (fun i => a.getD i 0) = a := by
    have := map_getD_range a
    rw [hl] at this
    exact this
  have hnd : a.Nodup := by
    rw [← hmap]
    refine List.Nodup.map_on ?_ (List.nodup_range N)
    intro x hx y hy hxy
    have hx2 := (ha x (List.mem_range.mp hx)).2
    have hy2 := (ha y (List.mem_range.mp hy)).2
    have hxy2 : a.getD x 0 = a.getD y 0 := hxy
    rw [hxy2, hy2] at hx2
    exact hx2.symm
  refine (List.perm_ext_iff_of_nodup hnd (List.nodup_range N)).mpr ?_
  intro x
  constructor
  · intro hx
    rw [← hmap] at hx
    obtain ⟨i, hi, hix⟩ := List.mem_map.mp hx
    have := (ha i (List.mem_range.mp hi)).1
    have hix2 : a.getD i 0 = x := hix
    rw [hix2] at this
    exact List.mem_range.mpr this
  · intro hx
    have hx2 := hb x (List.mem_range.mp hx)
    rw [← hmap]
    exact List.mem_map.mpr ⟨b.getD x 0, List.mem_range.mpr hx2.1, hx2.2⟩

theorem tables_inverse_perm (N : Nat) (tid wid : List Nat) (h : tables_inverse N tid wid) :
    List.Perm tid (List.range N) ∧ List.Perm wid (List.range N) :=
  ⟨perm_range_of_inverse N tid wid h.1 h.2.2.2 h.2.2.1,
    perm_range_of_inverse N wid tid h.2.1 h.2.2.1 h.2.2.2⟩

theorem unlabeled_count_eq_rungs (N : Nat) (tid wid : List Nat) (direc : List walker_direc)
    (h : tables_inverse N tid wid) :
    unlabeled_count N direc = spec_unlabeled_rungs N wid direc := by
  have hmap : (List.range N).map (fun i => wid.getD i 0) = wid := by
    have := map_getD_range wid
    rw [h.2.1] at this
    exact this
  have hperm := (tables_inverse_perm N tid wid h).2
  unfold unlabeled_count spec_unlabeled_rungs
  have h1 := (List.Perm.filter
    (fun r => decide (direc.getD r walker_direc.unlabeled = walker_direc.unlabeled))
    hperm).length_eq
  rw [← h1]
  have h2 : wid.filter
      (fun r => decide (direc.getD r walker_direc.unlabeled = walker_direc.unlabeled)) =
      ((List.range N).filter
        (fun p => decide (direc.getD (wid.getD p 0) walker_direc.unlabeled =
          walker_direc.unlabeled))).map (fun i => wid.getD i 0) := by
    conv_lhs => rw [← hmap]
    rw [List.filter_map]
    rfl
  rw [h2, List.length_map]

section unlabeled_rungs

variable {W F : Type}

/-- Claim C33.  With `tid` and `wid` mutually inverse, the number `nu` of
replica ids `r < N` with `direc[r] = unlabeled`, which the stage evaluation
computes, equals the number of rungs `p < N` whose occupant `wid[p]` is
unlabeled; so `nu = 0` exactly when no rung holds an unlabeled replica, and
the precondition of the round-trip stage evaluation is `num_returnee >= N`
together with no rung holding an unlabeled replica. -/
theorem unlabeled_replicas_are_unlabeled_rungs (N : Nat) (c : coordinator W F)
    (hinv : tables_inverse N c.ex.tid c.ex.wid) :
    unlabeled_count N c.direc = spec_unlabeled_rungs N c.ex.wid c.direc ∧
    (unlabeled_count N c.direc = 0 ↔
      ∀ p, p < N →
        c.direc.getD (c.ex.wid.getD p 0) walker_direc.unlabeled ≠ walker_direc.unlabeled) ∧
    (round_trip_precondition N c = true ↔
      N ≤ c.num_returnee ∧ spec_unlabeled_rungs N c.ex.wid c.direc = 0) := by
  have heq := unlabeled_count_eq_rungs N c.ex.tid c.ex.wid c.direc hinv
  have hz : unlabeled_count N c.direc = 0 ↔
      ∀ p, p < N →
        c.direc.getD (c.ex.wid.getD p 0) walker_direc.unlabeled ≠ walker_direc.unlabeled := by
    rw [unlabeled_count_eq_zero]
    constructor
    · intro hall p hp
      exact hall _ (hinv.2.2.1 p hp).1
    · intro hall r hr
      have := hall _ (hinv.2.2.2 r hr).1
      rw [(hinv.2.2.2 r hr).2] at this
      exact this
  refine ⟨heq, hz, ?_⟩
  rw [round_trip_precondition_iff, ← unlabeled_count_eq_zero, heq]

theorem unlabeled_replicas_are_unlabeled_rungs_witness :
    tables_inverse 3 example_swapped_coordinator.ex.tid example_swapped_coordinator.ex.wid ∧
    unlabeled_count 3 example_swapped_coordinator.direc =
      spec_unlabeled_rungs 3 example_swapped_coordinator.ex.wid
        example_swapped_coordinator.direc :=
  have h1 : tables_inverse 3 example_swapped_coordinator.ex.tid
      example_swapped_coordinator.ex.wid := by
    unfold tables_inverse
    decide
  ⟨h1, (unlabeled_replicas_are_unlabeled_rungs 3 example_swapped_coordinator h1).1⟩

end unlabeled_rungs

/-! ## The labels at the two ends of the ladder -/

section end_rungs

variable {W F S : Type}

theorem bookkeeping_end_rungs (nrep : Nat) (b : coordinator W F)
    (hinv : tables_inverse nrep b.ex.tid b.ex.wid) (hdirec : b.direc.length = nrep)
    (hN : 2 ≤ nrep) :
    (round_trip_bookkeeping nrep b).direc.getD (b.ex.wid.getD 0 0) walker_direc.unlabeled =
      walker_direc.down ∧
    (round_trip_bookkeeping nrep b).direc.getD (b.ex.wid.getD (nrep - 1) 0)
      walker_direc.unlabeled ≠ walker_direc.down ∧
    samples_at (round_trip_bookkeeping nrep b).upward_samples 0 =
      samples_at b.upward_samples 0 ++ [false] ∧
    samples_at (round_trip_bookkeeping nrep b).downward_samples (nrep - 1) =
      samples_at b.downward_samples (nrep - 1) ++ [false] := by
  obtain ⟨_, _, hfront, hback1, hback2, _⟩ := bookkeeping_labels_frame nrep b hinv hdirec hN
  have hback : (round_trip_bookkeeping nrep b).direc.getD (b.ex.wid.getD (nrep - 1) 0)
      walker_direc.unlabeled ≠ walker_direc.down := by
    by_cases hd : b.direc.getD (b.ex.wid.getD (nrep - 1) 0) walker_direc.unlabeled =
        walker_direc.down
    · rw [hback1 hd]
      decide
    · rw [hback2 hd]
      exact hd
  refine ⟨hfront, hback, ?_, ?_⟩
  · rw [(bookkeeping_samples nrep b 0 (by omega)).1, hfront]
    rfl
  · rw [(bookkeeping_samples nrep b (nrep - 1) (by omega)).2, decide_eq_false hback]

/-- Claim C35.  For `N ≥ 2`, run any sequence `inps` of exchange intervals
from the constructor's state on the coordinator, then one more interval
`inp`.  After the bookkeeping of `inp` the replica at rung `0` has the label
`down` and the replica at rung `N - 1` does not; the upward sample written
for rung `0` and the downward sample written for rung `N - 1` are both `0.`.
The labels and the table are the same at the end of the interval. -/
theorem end_rungs_labels [Zero W] [Add W] [Zero F] [Add F] [Sub F] [Div F]
    [LT F] [∀ a b : F, Decidable (a < b)] (K : exmc_collaborators W F S) (exp : F → F)
    (log_weight : W → F → F) (nrep size : Nat) (w : parallel_exchange_worker W)
    (beta : List F) (inps : List (coordinator_input W F S)) (inp : coordinator_input W F S)
    (hN : 2 ≤ nrep) (hw : construct W nrep size 0 true = Except.ok w)
    (hperm : ∀ i, i ∈ inps ++ [inp] → i.iv.is_random = true →
      List.Perm i.iv.permutation (List.range (nrep - 1))) :
    (round_trip_bookkeeping nrep
        (before_bookkeeping exp log_weight nrep inp.iv
          (run_with_history K exp log_weight nrep inps (initial_coordinator w beta)).1)).direc.getD
        ((round_trip_bookkeeping nrep
        (before_bookkeeping exp log_weight nrep inp.iv
          (run_with_history K exp log_weight nrep inps (initial_coordinator w beta)).1)).ex.wid.getD 0 0)
              walker_direc.unlabeled = walker_direc.down ∧
    (round_trip_bookkeeping nrep
        (before_bookkeeping exp log_weight nrep inp.iv
          (run_with_history K exp log_weight nrep inps (initial_coordinator w beta)).1)).direc.getD
        ((round_trip_bookkeeping nrep
        (before_bookkeeping exp log_weight nrep inp.iv
          (run_with_history K exp log_weight nrep inps (initial_coordinator w beta)).1)).ex.wid.getD (nrep - 1) 0)
              walker_direc.unlabeled ≠ walker_direc.down ∧
    samples_at (round_trip_bookkeeping nrep
        (before_bookkeeping exp log_weight nrep inp.iv
          (run_with_history K exp log_weight nrep inps (initial_coordinator w beta)).1)).upward_samples 0 =
      samples_at (before_bookkeeping exp log_weight nrep inp.iv
          (run_with_history K exp log_weight nrep inps (initial_coordinator w beta)).1).upward_samples 0
              ++ [false] ∧
    samples_at (round_trip_bookkeeping nrep
        (before_bookkeeping exp log_weight nrep inp.iv
          (run_with_history K exp log_weight nrep inps (initial_coordinator w beta)).1)).downward_samples (nrep - 1) =
      samples_at (before_bookkeeping exp log_weight nrep inp.iv
          (run_with_history K exp log_weight nrep inps (initial_coordinator w beta)).1).downward_samples (nrep - 1)
              ++ [false] ∧
    (coordinator_interval K exp log_weight nrep inp
        (run_with_history K exp log_weight nrep inps (initial_coordinator w beta)).1).1.direc.getD
        ((coordinator_interval K exp log_weight nrep inp
        (run_with_history K exp log_weight nrep inps (initial_coordinator w beta)).1).1.ex.wid.getD 0 0)
            walker_direc.unlabeled = walker_direc.down ∧
    (coordinator_interval K exp log_weight nrep inp
        (run_with_history K exp log_weight nrep inps (initial_coordinator w beta)).1).1.direc.getD
        ((coordinator_interval K exp log_weight nrep inp
        (run_with_history K exp log_weight nrep inps (initial_coordinator w beta)).1).1.ex.wid.getD (nrep - 1) 0)
            walker_direc.unlabeled ≠ walker_direc.down := by
  obtain ⟨t1, t2⟩ := construct_ok_tables nrep size true w hw
  have hd := construct_ok_direc nrep size w hw
  have i1 : tables_inverse nrep (initial_coordinator w beta).ex.tid
      (initial_coordinator w beta).ex.wid := by
    show tables_inverse nrep w.tid w.wid
    rw [t1, t2]
    exact tables_inverse_range nrep
  have i2 : (initial_coordinator w beta).direc.length = nrep := by
    show w.direc.length = nrep
    rw [hd]
    simp
  have i3 : labels_follow_history nrep [(initial_coordinator w beta).ex.wid]
      (initial_coordinator w beta).direc := by
    show labels_follow_history nrep [w.wid] w.direc
    rw [t2, hd]
    exact initial_labels_follow_history nrep (by omega)
  have hrun : tables_inverse nrep
        (run_with_history K exp log_weight nrep inps (initial_coordinator w beta)).1.ex.tid
        (run_with_history K exp log_weight nrep inps (initial_coordinator w beta)).1.ex.wid ∧
      (run_with_history K exp log_weight nrep inps
        (initial_coordinator w beta)).1.direc.length = nrep ∧
      labels_follow_history nrep
        (run_with_history K exp log_weight nrep inps (initial_coordinator w beta)).2
        (run_with_history K exp log_weight nrep inps (initial_coordinator w beta)).1.direc :=
    run_with_history_invariant K exp log_weight nrep hN inps
      (initial_coordinator w beta, [(initial_coordinator w beta).ex.wid]) i1 i2 i3
      (fun i hi => hperm i (List.mem_append_left _ hi))
  generalize run_with_history K exp log_weight nrep inps (initial_coordinator w beta) = st
    at hrun ⊢
  obtain ⟨a1, a2, _⟩ := hrun
  have hb : tables_inverse nrep
      (before_bookkeeping exp log_weight nrep inp.iv st.1).ex.tid
      (before_bookkeeping exp log_weight nrep inp.iv st.1).ex.wid :=
    exchange_block_tables_inverse exp log_weight nrep _ _ a1
      (hperm inp (List.mem_append_right _ (List.mem_singleton.mpr rfl)))
  have hbd : (before_bookkeeping exp log_weight nrep inp.iv st.1).direc.length = nrep := a2
  obtain ⟨f1, _, f3, _⟩ := stage_evaluation_frame K nrep inp.steps
    (round_trip_bookkeeping nrep (before_bookkeeping exp log_weight nrep inp.iv st.1))
  have e1 : (coordinator_interval K exp log_weight nrep inp st.1).1.direc =
      (round_trip_bookkeeping nrep (before_bookkeeping exp log_weight nrep inp.iv st.1)).direc :=
    f1
  have e2 : (coordinator_interval K exp log_weight nrep inp st.1).1.ex.wid =
      (before_bookkeeping exp log_weight nrep inp.iv st.1).ex.wid := f3
  have e3 : (round_trip_bookkeeping nrep
      (before_bookkeeping exp log_weight nrep inp.iv st.1)).ex.wid =
      (before_bookkeeping exp log_weight nrep inp.iv st.1).ex.wid := rfl
  rw [e1, e2, e3]
  generalize before_bookkeeping exp log_weight nrep inp.iv st.1 = b at hb hbd ⊢
  obtain ⟨g1, g2, g3, g4⟩ := bookkeeping_end_rungs nrep b hb hbd hN
  exact ⟨g1, g2, g3, g4, g1, g2⟩

end end_rungs

theorem end_rungs_labels_witness :
    2 ≤ 3 ∧ construct Int 3 1 0 true = Except.ok example_worker ∧
    (round_trip_bookkeeping 3
      (before_bookkeeping example_exp example_log_weight 3 example_return.iv
        (run_with_history example_collaborators example_exp example_log_weight 3
          example_round_trip (initial_coordinator example_worker example_beta)).1)).direc.getD
      ((round_trip_bookkeeping 3
        (before_bookkeeping example_exp example_log_weight 3 example_return.iv
          (run_with_history example_collaborators example_exp example_log_weight 3
            example_round_trip
            (initial_coordinator example_worker example_beta)).1)).ex.wid.getD 0 0)
      walker_direc.unlabeled = walker_direc.down :=
  ⟨by decide, rfl,
    (end_rungs_labels example_collaborators example_exp example_log_weight 3 1
      example_worker example_beta example_round_trip example_return (by decide) rfl
      example_round_trip_perm).1⟩

/-! ## Labels never return to `unlabeled` -/

theorem getD_set_eq_ite {α : Type} (l : List α) (i k : Nat) (a d : α) :
    (l.set i a).getD k d = if i = k ∧ i < l.length then a else l.getD k d := by
  by_cases hik : i = k
  · by_cases hl : i < l.length
    · rw [if_pos ⟨hik, hl⟩, ← hik]
      exact getD_set_self l i a d hl
    · rw [if_neg (fun h => hl h.2), List.set_eq_of_length_le (by omega)]
  · rw [if_neg (fun h => hik h.1)]
    exact getD_set_ne l i k a d hik

theorem initial_unlabeled_count (nrep : Nat) :
    unlabeled_count nrep ((List.range nrep).map
      (fun p => if p = 0 then walker_direc.down else walker_direc.unlabeled)) = nrep - 1 := by
  unfold unlabeled_count
  have hc : (List.range nrep).filter (fun p => decide (((List.range nrep).map
      (fun p => if p = 0 then walker_direc.down else walker_direc.unlabeled)).getD p
        walker_direc.unlabeled = walker_direc.unlabeled)) =
      (List.range nrep).filter (fun p => decide (p ≠ 0)) := by
    apply List.filter_congr
    intro p hp
    have hp2 := List.mem_range.mp hp
    rw [List.getD_eq_getElem?_getD, List.getElem?_map, List.getElem?_range hp2]
    by_cases h0 : p = 0 <;> simp [h0]
  rw [hc]
  cases nrep with
  | zero => rfl
  | succ n =>
    rw [List.range_succ_eq_map, List.filter_cons_of_neg (by simp), List.filter_map,
      List.length_map, List.filter_eq_self.mpr (by intro a _; simp)]
    simp

theorem unlabeled_count_mono (nrep : Nat) (d1 d2 : List walker_direc)
    (h : ∀ r, d1.getD r walker_direc.unlabeled ≠ walker_direc.unlabeled →
      d2.getD r walker_direc.unlabeled ≠ walker_direc.unlabeled) :
    unlabeled_count nrep d2 ≤ unlabeled_count nrep d1 := by
  unfold unlabeled_count
  apply List.Sublist.length_le
  apply List.monotone_filter_right
  intro r hr
  have hr2 := of_decide_eq_true hr
  apply decide_eq_true
  by_contra hc
  exact h r hc hr2

section labels_monotone

variable {W F S : Type}

theorem bookkeeping_keeps_labelled (nrep : Nat) (c : coordinator W F) (r : Nat) :
    (c.direc.getD r walker_direc.unlabeled ≠ walker_direc.unlabeled →
      (round_trip_bookkeeping nrep c).direc.getD r walker_direc.unlabeled ≠
        walker_direc.unlabeled) ∧
    (c.direc.getD r walker_direc.unlabeled = walker_direc.unlabeled →
      (round_trip_bookkeeping nrep c).direc.getD r walker_direc.unlabeled ≠
        walker_direc.unlabeled →
      c.ex.wid.getD 0 0 = r) := by
  have hd : (round_trip_bookkeeping nrep c).direc =
      if (c.direc.set (c.ex.wid.getD 0 0) walker_direc.down).getD
          (c.ex.wid.getD (c.ex.wid.length - 1) 0) walker_direc.unlabeled = walker_direc.down then
        (c.direc.set (c.ex.wid.getD 0 0) walker_direc.down).set
          (c.ex.wid.getD (c.ex.wid.length - 1) 0) walker_direc.up
      else c.direc.set (c.ex.wid.getD 0 0) walker_direc.down := rfl
  rw [hd]
  generalize c.ex.wid.getD 0 0 = front
  generalize c.ex.wid.getD (c.ex.wid.length - 1) 0 = back
  constructor
  · intro h
    split
    · rw [getD_set_eq_ite, getD_set_eq_ite]
      split
      · decide
      · split
        · decide
        · exact h
    · rw [getD_set_eq_ite]
      split
      · decide
      · exact h
  · intro h h2
    by_contra hne
    apply h2
    split
    · rename_i hb
      rw [getD_set_eq_ite] at hb
      have hbr : back ≠ r := by
        intro hbr
        rw [hbr, if_neg (fun hh => hne hh.1), h] at hb
        exact absurd hb (by decide)
      rw [getD_set_eq_ite, if_neg (fun hh => hbr hh.1), getD_set_eq_ite,
        if_neg (fun hh => hne hh.1)]
      exact h
    · rw [getD_set_eq_ite, if_neg (fun hh => hne hh.1)]
      exact h

theorem interval_keeps_labelled [Zero W] [Add W] [Zero F] [Add F] [Sub F] [Div F]
    [LT F] [∀ a b : F, Decidable (a < b)] (K : exmc_collaborators W F S) (exp : F → F)
    (log_weight : W → F → F) (nrep : Nat) (inp : coordinator_input W F S)
    (c : coordinator W F) (r : Nat) :
    (c.direc.getD r walker_direc.unlabeled ≠ walker_direc.unlabeled →
      (coordinator_interval K exp log_weight nrep inp c).1.direc.getD r
        walker_direc.unlabeled ≠ walker_direc.unlabeled) ∧
    (c.direc.getD r walker_direc.unlabeled = walker_direc.unlabeled →
      (coordinator_interval K exp log_weight nrep inp c).1.direc.getD r
        walker_direc.unlabeled ≠ walker_direc.unlabeled →
      (coordinator_interval K exp log_weight nrep inp c).1.ex.wid.getD 0 0 = r) := by
  obtain ⟨f1, _, f3, _⟩ := stage_evaluation_frame K nrep inp.steps
    (round_trip_bookkeeping nrep (before_bookkeeping exp log_weight nrep inp.iv c))
  have e1 : (coordinator_interval K exp log_weight nrep inp c).1.direc =
      (round_trip_bookkeeping nrep (before_bookkeeping exp log_weight nrep inp.iv c)).direc := f1
  have e2 : (coordinator_interval K exp log_weight nrep inp c).1.ex.wid =
      (before_bookkeeping exp log_weight nrep inp.iv c).ex.wid := f3
  rw [e1, e2]
  exact bookkeeping_keeps_labelled nrep (before_bookkeeping exp log_weight nrep inp.iv c) r

theorem intervals_keep_labelled [Zero W] [Add W] [Zero F] [Add F] [Sub F] [Div F]
    [LT F] [∀ a b : F, Decidable (a < b)] (K : exmc_collaborators W F S) (exp : F → F)
    (log_weight : W → F → F) (nrep : Nat) (more : List (coordinator_input W F S))
    (st : coordinator W F × List (List Nat)) (r : Nat)
    (h : st.1.direc.getD r walker_direc.unlabeled ≠ walker_direc.unlabeled) :
    (more.foldl (fun st inp =>
        ((coordinator_interval K exp log_weight nrep inp st.1).1,
          (coordinator_interval K exp log_weight nrep inp st.1).1.ex.wid :: st.2))
        st).1.direc.getD r walker_direc.unlabeled ≠ walker_direc.unlabeled := by
  induction more generalizing st with
  | nil => exact h
  | cons inp rest ih =>
    rw [List.foldl_cons]
    exact ih _ ((interval_keeps_labelled K exp log_weight nrep inp st.1 r).1 h)

theorem run_with_history_append [Zero W] [Add W] [Zero F] [Add F] [Sub F] [Div F]
    [LT F] [∀ a b : F, Decidable (a < b)] (K : exmc_collaborators W F S) (exp : F → F)
    (log_weight : W → F → F) (nrep : Nat) (inps more : List (coordinator_input W F S))
    (c : coordinator W F) :
    run_with_history K exp log_weight nrep (inps ++ more) c =
      more.foldl (fun st inp =>
        ((coordinator_interval K exp log_weight nrep inp st.1).1,
          (coordinator_interval K exp log_weight nrep inp st.1).1.ex.wid :: st.2))
        (run_with_history K exp log_weight nrep inps c) := by
  unfold run_with_history
  rw [List.foldl_append]

/-- Claim C36.  At construction the coordinator has `N - 1` unlabeled
replicas, replica `0` being `down`.  Over any sequence of exchange intervals
run from there, continued by any further intervals, the number of unlabeled
replicas does not increase and a labelled replica stays labelled.  A replica
that is unlabeled before an interval and labelled after it is the replica
at rung `0` at the end of that interval. -/
theorem labels_never_return_to_unlabeled [Zero W] [Add W] [Zero F] [Add F] [Sub F] [Div F]
    [LT F] [∀ a b : F, Decidable (a < b)] (K : exmc_collaborators W F S) (exp : F → F)
    (log_weight : W → F → F) (nrep size : Nat) (w : parallel_exchange_worker W)
    (beta : List F) (inps more : List (coordinator_input W F S))
    (inp : coordinator_input W F S) (r : Nat)
    (hw : construct W nrep size 0 true = Except.ok w) :
    unlabeled_count nrep (initial_coordinator w beta).direc = nrep - 1 ∧
    (initial_coordinator w beta).direc.getD 0 walker_direc.unlabeled = walker_direc.down ∧
    unlabeled_count nrep (run_with_history K exp log_weight nrep (inps ++ more) (initial_coordinator w beta)).1.direc ≤
      unlabeled_count nrep (run_with_history K exp log_weight nrep inps (initial_coordinator w beta)).1.direc ∧
    ((run_with_history K exp log_weight nrep inps (initial_coordinator w beta)).1.direc.getD r
        walker_direc.unlabeled ≠ walker_direc.unlabeled →
      (run_with_history K exp log_weight nrep (inps ++ more) (initial_coordinator w beta)).1.direc.getD r
          walker_direc.unlabeled ≠ walker_direc.unlabeled) ∧
    ((run_with_history K exp log_weight nrep inps (initial_coordinator w beta)).1.direc.getD r
        walker_direc.unlabeled = walker_direc.unlabeled →
      (run_with_history K exp log_weight nrep (inps ++ [inp]) (initial_coordinator w beta)).1.direc.getD r
          walker_direc.unlabeled ≠ walker_direc.unlabeled →
      (run_with_history K exp log_weight nrep (inps ++ [inp]) (initial_coordinator w beta)).1.ex.wid.getD 0 0 = r) := by
  have hd := construct_ok_direc nrep size w hw
  have hpos : 1 ≤ nrep := by
    by_contra hc
    have h0 : nrep = 0 := by omega
    rw [h0] at hw
    simp [construct, calc_nrep] at hw
  refine ⟨?_, ?_, ?_, ?_, ?_⟩
  · show unlabeled_count nrep w.direc = nrep - 1
    rw [hd]
    exact initial_unlabeled_count nrep
  · show w.direc.getD 0 walker_direc.unlabeled = walker_direc.down
    rw [hd, List.getD_eq_getElem?_getD, List.getElem?_map, List.getElem?_range (by omega)]
    rfl
  · rw [run_with_history_append]
    exact unlabeled_count_mono nrep _ _
      (fun q hq => intervals_keep_labelled K exp log_weight nrep more _ q hq)
  · intro h
    rw [run_with_history_append]
    exact intervals_keep_labelled K exp log_weight nrep more _ r h
  · intro h h2
    rw [run_with_history_append] at h2 ⊢
    exact (interval_keeps_labelled K exp log_weight nrep inp _ r).2 h h2

end labels_monotone

theorem labels_never_return_to_unlabeled_witness :
    construct Int 3 1 0 true = Except.ok example_worker ∧
    unlabeled_count 3 (initial_coordinator example_worker example_beta).direc = 3 - 1 ∧
    unlabeled_count 3
        (run_with_history example_collaborators example_exp example_log_weight 3
          (example_round_trip ++ [example_return])
          (initial_coordinator example_worker example_beta)).1.direc ≤
      unlabeled_count 3
        (run_with_history example_collaborators example_exp example_log_weight 3
          example_round_trip (initial_coordinator example_worker example_beta)).1.direc :=
  have h := labels_never_return_to_unlabeled example_collaborators example_exp
    example_log_weight 3 1 example_worker example_beta example_round_trip [example_return]
    example_return 1 rfl
  ⟨rfl, h.1, h.2.2.1⟩

/-! ## Every rung is simulated by one walker -/

section one_walker_per_rung

variable {W F S : Type}

theorem coordinator_interval_tables [Zero W] [Add W] [Zero F] [Add F] [Sub F] [Div F]
    [LT F] [∀ a b : F, Decidable (a < b)] (K : exmc_collaborators W F S) (exp : F → F)
    (log_weight : W → F → F) (nrep : Nat) (inp : coordinator_input W F S)
    (c : coordinator W F) (hinv : tables_inverse nrep c.ex.tid c.ex.wid)
    (hperm : inp.iv.is_random = true →
      List.Perm inp.iv.permutation (List.range (nrep - 1))) :
    tables_inverse nrep (coordinator_interval K exp log_weight nrep inp c).1.ex.tid
      (coordinator_interval K exp log_weight nrep inp c).1.ex.wid := by
  obtain ⟨_, f2, f3, _⟩ := stage_evaluation_frame K nrep inp.steps
    (round_trip_bookkeeping nrep (before_bookkeeping exp log_weight nrep inp.iv c))
  have e1 : (coordinator_interval K exp log_weight nrep inp c).1.ex.tid =
      (before_bookkeeping exp log_weight nrep inp.iv c).ex.tid := f2
  have e2 : (coordinator_interval K exp log_weight nrep inp c).1.ex.wid =
      (before_bookkeeping exp log_weight nrep inp.iv c).ex.wid := f3
  rw [e1, e2]
  exact exchange_block_tables_inverse exp log_weight nrep _ _ hinv hperm

theorem flatten_scatter (W : Type) [Zero W] (P R : Nat) (exchange : Bool)
    (w0 : parallel_exchange_worker W) (hP : 1 ≤ P)
    (h0 : construct W R P 0 exchange = Except.ok w0) (tid : List Nat) (htid : tid.length = R) :
    (scatter w0.nreps w0.offsets tid).length = P ∧
    (scatter w0.nreps w0.offsets tid).flatten = tid := by
  obtain ⟨_, hf⟩ := construct_ok_fields W R P 0 exchange w0 h0
  obtain ⟨hn, ho, _⟩ := hf rfl
  have hlen : w0.nreps.length = P := by
    rw [hn]
    simp
  have hdist : ∀ p, p < P →
      distribute_vector w0.nreps w0.offsets tid p =
        (tid.drop (offset R P p)).take (count R P p) := by
    intro p hp
    unfold distribute_vector
    rw [hn, ho, getD_map_range _ P p hp, getD_map_range _ P p hp]
    rfl
  unfold scatter
  rw [hlen]
  refine ⟨by simp, ?_⟩
  have hm : (List.range P).map (fun p => distribute_vector w0.nreps w0.offsets tid p) =
      (List.range P).map (fun p => (tid.drop (offset R P p)).take (count R P p)) :=
    List.map_congr_left (fun p hp => hdist p (List.mem_range.mp hp))
  rw [hm, flatten_slices, offset_last R P hP]
  exact List.take_of_length_le (by omega)

theorem flatten_initial (W : Type) [Zero W] (P R : Nat) (exchange : Bool) (hP : 1 ≤ P)
    (hR : P ≤ R) :
    ((List.range P).map (fun p => tid_local_of (construct W R P p exchange))).flatten =
      List.range R := by
  have hlocal : ∀ p, p < P →
      tid_local_of (construct W R P p exchange) =
        (List.range (count R P p)).map (fun i => i + offset R P p) := by
    intro p _
    obtain ⟨w, hw⟩ := construct_ok_exists W R P p exchange hP hR
    rw [hw]
    exact (construct_ok_fields W R P p exchange w hw).1
  have hm : (List.range P).map (fun p => tid_local_of (construct W R P p exchange)) =
      (List.range P).map
        (fun p => (List.range (count R P p)).map (fun i => i + offset R P p)) :=
    List.map_congr_left (fun p hp => hlocal p (List.mem_range.mp hp))
  rw [hm, flatten_constructed, offset_last R P hP]

theorem run_sweeps_invariant [Zero W] [Add W] [Zero F] [Add F] [Sub F] [Div F]
    [LT F] [∀ a b : F, Decidable (a < b)] (K : exmc_collaborators W F S) (exp : F → F)
    (log_weight : W → F → F) (P R : Nat) (exchange : Bool) (w0 : parallel_exchange_worker W)
    (hP : 1 ≤ P) (h0 : construct W R P 0 exchange = Except.ok w0)
    (inps : List (coordinator_input W F S)) (st : run_state W F)
    (hinv : tables_inverse R st.c.ex.tid st.c.ex.wid)
    (hflat : st.tid_local.flatten = st.c.ex.tid) (hlen : st.tid_local.length = P)
    (hperm : ∀ i, i ∈ inps → i.iv.is_random = true →
      List.Perm i.iv.permutation (List.range (R - 1))) :
    tables_inverse R (run_sweeps K exp log_weight R w0 exchange inps st).c.ex.tid
      (run_sweeps K exp log_weight R w0 exchange inps st).c.ex.wid ∧
    (run_sweeps K exp log_weight R w0 exchange inps st).tid_local.flatten =
      (run_sweeps K exp log_weight R w0 exchange inps st).c.ex.tid ∧
    (run_sweeps K exp log_weight R w0 exchange inps st).tid_local.length = P := by
  induction inps generalizing st with
  | nil => exact ⟨hinv, hflat, hlen⟩
  | cons inp rest ih =>
    have hstep : run_sweeps K exp log_weight R w0 exchange (inp :: rest) st =
        run_sweeps K exp log_weight R w0 exchange rest
          (run K exp log_weight R w0 exchange inp st).state := rfl
    rw [hstep]
    have hrest : ∀ i, i ∈ rest → i.iv.is_random = true →
        List.Perm i.iv.permutation (List.range (R - 1)) :=
      fun i hi => hperm i (List.mem_cons_of_mem _ hi)
    by_cases hdue : exchange_due exchange inp.iv.mcs inp.iv.interval = true
    · have hs : (run K exp log_weight R w0 exchange inp st).state =
          { c := (coordinator_interval K exp log_weight R inp st.c).1
            tid_local := scatter w0.nreps w0.offsets
              (coordinator_interval K exp log_weight R inp st.c).1.ex.tid } := by
        unfold run
        rw [if_pos hdue]
      have hi := coordinator_interval_tables K exp log_weight R inp st.c hinv
        (hperm inp (List.mem_cons_self _ _))
      have hsc := flatten_scatter W P R exchange w0 hP h0
        (coordinator_interval K exp log_weight R inp st.c).1.ex.tid hi.1
      rw [hs]
      exact ih _ hi hsc.2 hsc.1 hrest
    · have hs : (run K exp log_weight R w0 exchange inp st).state = st := by
        unfold run
        rw [if_neg hdue]
      rw [hs]
      exact ih st hinv hflat hlen hrest

/-- Claim C34.  For `P ≥ 1` processes and `R ≥ P` replicas, at construction
and after any sequence of sweeps run from there (exchange intervals or
not), the `tid_local_` of all processes, concatenated in rank order, are the
coordinator's `tid_` and a permutation of `[0, R)`: every rung is the rung of
exactly one walker, and no two walkers have the same rung. -/
theorem every_rung_has_one_walker [Zero W] [Add W] [Zero F] [Add F] [Sub F] [Div F]
    [LT F] [∀ a b : F, Decidable (a < b)] (K : exmc_collaborators W F S) (exp : F → F)
    (log_weight : W → F → F) (P R : Nat) (exchange : Bool) (w0 : parallel_exchange_worker W)
    (beta : List F) (inps : List (coordinator_input W F S))
    (hP : 1 ≤ P) (hR : P ≤ R) (h0 : construct W R P 0 exchange = Except.ok w0)
    (hperm : ∀ i, i ∈ inps → i.iv.is_random = true →
      List.Perm i.iv.permutation (List.range (R - 1))) :
    (run_sweeps K exp log_weight R w0 exchange inps
        (initial_run_state R P exchange w0 beta)).tid_local.length = P ∧
    (run_sweeps K exp log_weight R w0 exchange inps
        (initial_run_state R P exchange w0 beta)).tid_local.flatten =
      (run_sweeps K exp log_weight R w0 exchange inps
        (initial_run_state R P exchange w0 beta)).c.ex.tid ∧
    List.Perm (run_sweeps K exp log_weight R w0 exchange inps
        (initial_run_state R P exchange w0 beta)).tid_local.flatten
      (List.range R) ∧
    (run_sweeps K exp log_weight R w0 exchange inps
        (initial_run_state R P exchange w0 beta)).tid_local.flatten.Nodup ∧
    (∀ q, q < R →
      (run_sweeps K exp log_weight R w0 exchange inps
        (initial_run_state R P exchange w0 beta)).tid_local.flatten.count q = 1) := by
  obtain ⟨t1, t2⟩ := construct_ok_tables R P exchange w0 h0
  have i1 : tables_inverse R (initial_run_state R P exchange w0 beta).c.ex.tid
      (initial_run_state R P exchange w0 beta).c.ex.wid := by
    show tables_inverse R w0.tid w0.wid
    rw [t1, t2]
    exact tables_inverse_range R
  have i2 : (initial_run_state R P exchange w0 beta).tid_local.flatten =
      (initial_run_state R P exchange w0 beta).c.ex.tid := by
    show ((List.range P).map (fun p => tid_local_of (construct W R P p exchange))).flatten =
      w0.tid
    rw [t1]
    exact flatten_initial W P R exchange hP hR
  have i3 : (initial_run_state R P exchange w0 beta).tid_local.length = P := by
    show ((List.range P).map (fun p => tid_local_of (construct W R P p exchange))).length = P
    simp
  obtain ⟨a1, a2, a3⟩ := run_sweeps_invariant K exp log_weight P R exchange w0 hP h0 inps
    (initial_run_state R P exchange w0 beta) i1 i2 i3 hperm
  generalize run_sweeps K exp log_weight R w0 exchange inps
    (initial_run_state R P exchange w0 beta) = fin at a1 a2 a3 ⊢
  have hp : List.Perm fin.tid_local.flatten (List.range R) := by
    rw [a2]
    exact (tables_inverse_perm R _ _ a1).1
  refine ⟨a3, a2, hp, hp.nodup_iff.mpr (List.nodup_range R), ?_⟩
  intro q hq
  rw [hp.count_eq]
  exact List.count_eq_one_of_mem (List.nodup_range R) (List.mem_range.mpr hq)

end one_walker_per_rung

theorem example_sweeps5_perm :
    ∀ i, i ∈ example_sweeps5 → i.iv.is_random = true →
      List.Perm i.iv.permutation (List.range (5 - 1)) := by
  intro i hi _
  simp only [example_sweeps5, List.mem_cons, List.mem_singleton, List.not_mem_nil,
    or_false] at hi
  rcases hi with rfl | rfl | rfl | rfl <;> decide

theorem every_rung_has_one_walker_witness :
    (1 ≤ 2 ∧ 2 ≤ 5 ∧ construct Int 5 2 0 true = Except.ok example_worker5) ∧
    (run_sweeps example_collaborators example_exp example_log_weight 5 example_worker5 true
      example_sweeps5 (initial_run_state 5 2 true example_worker5 example_beta5)).tid_local =
      [[3, 0, 1], [4, 2]] ∧
    List.Perm
      (run_sweeps example_collaborators example_exp example_log_weight 5 example_worker5 true
        example_sweeps5
        (initial_run_state 5 2 true example_worker5 example_beta5)).tid_local.flatten
      (List.range 5) :=
  ⟨⟨by decide, by decide, rfl⟩, by decide,
    (every_rung_has_one_walker example_collaborators example_exp example_log_weight 2 5 true
      example_worker5 example_beta5 example_sweeps5 (by decide) (by decide) rfl
      example_sweeps5_perm).2.2.1⟩

/-! ## Sweeps that are not exchange intervals -/

section idle_sweep

variable {W F S : Type}

/-- Claim C37.  A call of `run` at which `mcs_.exchange()` is false, or at
which the sweep count is not a multiple of the (non-zero) exchange interval,
does not enter the exchange block: `tid_`, `wid_`, every `tid_local_`, the
direction labels, `num_returnee_`, the weight accumulators and the ladder
are unchanged, as is every other member kept on the coordinator; neither
flag is raised and neither `continue_stage()` nor `next_stage()` is applied
to `mcs_`. -/
theorem run_without_exchange [Zero W] [Add W] [Zero F] [Add F] [Sub F] [Div F]
    [LT F] [∀ a b : F, Decidable (a < b)] (K : exmc_collaborators W F S) (exp : F → F)
    (log_weight : W → F → F) (nrep : Nat) (w : parallel_exchange_worker W) (exchange : Bool)
    (inp : coordinator_input W F S) (st : run_state W F)
    (h : exchange = false ∨ (0 < inp.iv.interval ∧ inp.iv.mcs % inp.iv.interval ≠ 0)) :
    (run K exp log_weight nrep w exchange inp st).state.c.ex.tid = st.c.ex.tid ∧
    (run K exp log_weight nrep w exchange inp st).state.c.ex.wid = st.c.ex.wid ∧
    (run K exp log_weight nrep w exchange inp st).state.tid_local = st.tid_local ∧
    (run K exp log_weight nrep w exchange inp st).state.c.direc = st.c.direc ∧
    (run K exp log_weight nrep w exchange inp st).state.c.num_returnee = st.c.num_returnee ∧
    (run K exp log_weight nrep w exchange inp st).state.c.weight_parameters =
      st.c.weight_parameters ∧
    (run K exp log_weight nrep w exchange inp st).state.c.beta = st.c.beta ∧
    (run K exp log_weight nrep w exchange inp st).state = st ∧
    (run K exp log_weight nrep w exchange inp st).flags =
      { continue_stage := false, next_stage := false } ∧
    (run K exp log_weight nrep w exchange inp st).steps = inp.steps := by
  have hdue : ¬ exchange_due exchange inp.iv.mcs inp.iv.interval = true := by
    unfold exchange_due
    rcases h with h | h
    · rw [h]
      simp
    · simp [h.2]
  have hs : run K exp log_weight nrep w exchange inp st =
      { state := st, steps := inp.steps,
        flags := { continue_stage := false, next_stage := false } } := by
    unfold run
    rw [if_neg hdue]
  rw [hs]
  exact ⟨rfl, rfl, rfl, rfl, rfl, rfl, rfl, rfl, rfl, rfl⟩

theorem run_without_exchange_witness :
    (0 < (example_sweep5 1 [0, 1, 2, 3]).iv.interval ∧
      (example_sweep5 1 [0, 1, 2, 3]).iv.mcs % (example_sweep5 1 [0, 1, 2, 3]).iv.interval ≠ 0) ∧
    (run example_collaborators example_exp example_log_weight 5 example_worker5 true
      (example_sweep5 1 [0, 1, 2, 3])
      (initial_run_state 5 2 true example_worker5 example_beta5)).state =
      initial_run_state 5 2 true example_worker5 example_beta5 ∧
    (run example_collaborators example_exp example_log_weight 5 example_worker5 true
      (example_sweep5 1 [0, 1, 2, 3])
      (initial_run_state 5 2 true example_worker5 example_beta5)).flags =
      { continue_stage := false, next_stage := false } :=
  have h := run_without_exchange example_collaborators example_exp example_log_weight 5
    example_worker5 true (example_sweep5 1 [0, 1, 2, 3])
    (initial_run_state 5 2 true example_worker5 example_beta5)
    (Or.inr ⟨by decide, by decide⟩)
  ⟨⟨by decide, by decide⟩, h.2.2.2.2.2.2.2.1, h.2.2.2.2.2.2.2.2.1⟩

end idle_sweep

end alps.parapack
